import Mathlib

/-!
# binaryreader.c — a shallow embedding

The C extension keeps a pointer `data` to the first byte of the wrapped buffer, a
cursor pointer `cur`, the end pointer `end = data + size`, and one flag saying whether
the declared byte order is the byte order of the host.

Modelling conventions used throughout:

* Addresses are integers relative to `data`, so `cur` is the value the `position`
  getter reports and `end` is `size`.  The memory of the process is a total map from
  these addresses to bytes; the buffer is the part `[0, size)`.  A load outside the
  buffer yields whatever the map holds there.
* `int`/`int32` arithmetic is two's complement on 32 bits (`wrapInt32`), `long` and
  `Py_ssize_t` have 64 bits.  The readers compute with offsets, where pointer arithmetic is
  exact; this is the arithmetic of the 64-bit pointers of the source as long as no pointer
  sum leaves the address space.  The bounds check is also given on 64-bit pointers
  (`BinaryReader_checkReadLength_ptr`, for a buffer at the address `data`), and `readLSB`
  uses that form.
* The interpreter's error indicator (`PyErr_SetString`, `PyErr_Occurred`) is the field
  `err` of the state.
* A C function returning `PyObject *` returns `Option PyObject`; `none` is `NULL`.
-/

namespace BinaryReader

/-! ## Python objects and the error indicator -/

/-- Exception classes stored in the error indicator by this module or by the C-API
calls it makes. -/
inductive PyExc where
  | ValueError
  | TypeError
  | SystemError
  | OverflowError
  | UnicodeDecodeError
  deriving DecidableEq, Repr

/-- Python scalars built by the readers.  A float is kept as the bit pattern it was
converted from together with the width of that pattern (16, 32 or 64). -/
inductive PyVal where
  | bool (b : Bool)
  | long (v : Int)
  | float (bits : Nat) (pattern : Nat)
  | str (codepoints : List Nat)
  deriving DecidableEq, Repr

/-- Objects returned by the readers: a scalar, a Python list of scalars, a
bytearray (`readUInt8Array`) or a bytes object (`readLSB`). -/
inductive PyObject where
  | scalar (v : PyVal)
  | list (items : List PyVal)
  | bytearray (bytes : List Nat)
  | bytes (bytes : List Nat)
  deriving DecidableEq, Repr

/-! ## Machine integers -/

/-- Conversion of an integer to `int32` / `int`: reduction modulo `2^32` into
`[-2^31, 2^31)`. -/
def wrapInt32 (x : Int) : Int := (x + 2 ^ 31) % 2 ^ 32 - 2 ^ 31

/-- Conversion of an integer to `int64` / `long long`. -/
def wrapInt64 (x : Int) : Int := (x + 2 ^ 63) % 2 ^ 64 - 2 ^ 63

/-- Reinterpretation `*(TYPE *)(&data)` of an unsigned `bits`-bit pattern as the
signed integer type of the same width. -/
def toSigned (bits : Nat) (x : Nat) : Int :=
  if x % 2 ^ bits < 2 ^ (bits - 1) then (x % 2 ^ bits : Nat) else (x % 2 ^ bits : Nat) - 2 ^ bits

/-- Conversion of an integer to the unsigned type of `bits` bits. -/
def toUnsigned (bits : Nat) (x : Int) : Nat := (x % 2 ^ bits).toNat

/-! ## endianess definitions -/

/-- The macro `IS_LITTLE_ENDIAN`: the first byte of a `uint16_t` holding 1, that is 1
on a little-endian host and 0 on a big-endian one. -/
def IS_LITTLE_ENDIAN (hostLE : Bool) : Nat := if hostLE then 1 else 0

/-- Byte reversal of a 16-bit pattern (`__builtin_bswap16`). -/
def bswap16 (x : Nat) : Nat := x % 256 * 256 + x / 256 % 256

/-- Byte reversal of a 32-bit pattern (`__builtin_bswap32`). -/
def bswap32 (x : Nat) : Nat :=
  x % 256 * 2 ^ 24 + x / 2 ^ 8 % 256 * 2 ^ 16 + x / 2 ^ 16 % 256 * 2 ^ 8 + x / 2 ^ 24 % 256

/-- Byte reversal of a 64-bit pattern (`__builtin_bswap64`). -/
def bswap64 (x : Nat) : Nat :=
  x % 256 * 2 ^ 56 + x / 2 ^ 8 % 256 * 2 ^ 48 + x / 2 ^ 16 % 256 * 2 ^ 40
    + x / 2 ^ 24 % 256 * 2 ^ 32 + x / 2 ^ 32 % 256 * 2 ^ 24 + x / 2 ^ 40 % 256 * 2 ^ 16
    + x / 2 ^ 48 % 256 * 2 ^ 8 + x / 2 ^ 56 % 256

/-- The macro `bswap##S` for `S` in 16, 32, 64. -/
def bswap (bits : Nat) (x : Nat) : Nat :=
  if bits = 16 then bswap16 x else if bits = 32 then bswap32 x else bswap64 x

/-! ## Memory -/

/-- The byte stored at an address (a `char` cell, read as `unsigned char`). -/
def byteAt (mem : Int → Nat) (a : Int) : Nat := mem a % 256

/-- Little-endian value of the `n` bytes starting at `a`. -/
def loadLE (mem : Int → Nat) (a : Int) : Nat → Nat
  | 0 => 0
  | n + 1 => byteAt mem a + 256 * loadLE mem (a + 1) n

/-- Big-endian value of the `n` bytes starting at `a`. -/
def loadBE (mem : Int → Nat) (a : Int) : Nat → Nat
  | 0 => 0
  | n + 1 => byteAt mem a * 256 ^ n + loadBE mem (a + 1) n

/-- The native load `*(uintN *)p` of an `n`-byte unsigned integer on the host. -/
def load (hostLE : Bool) (mem : Int → Nat) (a : Int) (n : Nat) : Nat :=
  if hostLE then loadLE mem a n else loadBE mem a n

/-- Memory whose cells from address 0 on hold the given bytes, and 0 elsewhere. -/
def memOf (bytes : List Nat) : Int → Nat :=
  fun a => if 0 ≤ a then bytes.getD a.toNat 0 else 0

/-! ## BinaryReader base class definition -/

/-- The struct `BinaryReaderObject` together with the memory it points into and the
error indicator.  `data` is the origin of addresses, `end` is `size`, `obj` (the
wrapped Python object) plays no part in decoding and is left out. -/
structure BinaryReaderObject where
  mem : Int → Nat
  cur : Int
  size : Int
  is_sys_endianess : Bool
  err : Option PyExc

/-- The assignments at the end of `BinaryReader_init`, for a buffer of `size` bytes and
the parsed `char is_little_endian` (format `b`, default 0). -/
def BinaryReader_init (hostLE : Bool) (mem : Int → Nat) (size : Int) (is_little_endian : Nat) :
    BinaryReaderObject :=
  { mem := mem
    cur := 0
    size := size
    is_sys_endianess := decide (is_little_endian = IS_LITTLE_ENDIAN hostLE)
    err := none }

/-- The `position` getter: `cur - data` converted to `uint64`. -/
def BinaryReader_getPosition (self : BinaryReaderObject) : Nat := toUnsigned 64 self.cur

/-- The assignment `self->cur = self->data + PyLong_AsUnsignedLongLong(value)` of
`BinaryReader_setPosition` for a Python int `value` in the range of `uint64`. -/
def BinaryReader_setPosition (self : BinaryReaderObject) (value : Nat) : BinaryReaderObject :=
  { self with cur := value }

/-! ## helper functions -/

/-- The functions `BinaryReader_convertEndian16/32/64`. -/
def BinaryReader_convertEndian (bits : Nat) (self : BinaryReaderObject) (data : Nat) : Nat :=
  if self.is_sys_endianess then data else bswap bits data

/-- The function `BinaryReader_checkReadLength` in offsets from `data`: sets `ValueError`
and returns 1 when `cur + length > end`, returns 0 otherwise.  This is the comparison of the
source as long as the pointer sums stay inside the 64-bit address space; the form on
pointers is `BinaryReader_checkReadLength_ptr`. -/
def BinaryReader_checkReadLength (self : BinaryReaderObject) (length : Int) :
    BinaryReaderObject × Int :=
  if self.cur + length > self.size then
    ({ self with err := some PyExc.ValueError }, 1)
  else
    (self, 0)

/-- The C-API call `PyLong_AsLong` on a Python int: its value when it fits a 64-bit
`long`, otherwise -1 with `OverflowError` set. -/
def PyLong_AsLong (err : Option PyExc) (v : Int) : Option PyExc × Int :=
  if -2 ^ 63 ≤ v ∧ v < 2 ^ 63 then (err, v) else (some PyExc.OverflowError, -1)

/-- The function `BinaryReader__readArrayLength`.  `args` is `some n` for an argument
tuple holding the single int `n` and `none` for `NULL` or a tuple of another size.
The product `length * typeSize` is an `int`; the `return NULL` of the failing check is
the `int` 0. -/
def BinaryReader__readArrayLength (hostLE : Bool) (self : BinaryReaderObject)
    (args : Option Int) (typeSize : Int) : BinaryReaderObject × Int :=
  let p : BinaryReaderObject × Int :=
    match args with
    | some v =>
      let q := PyLong_AsLong self.err v
      ({ self with err := q.1 }, wrapInt32 q.2)
    | none =>
      let s := (BinaryReader_checkReadLength self 4).1
      let length := toSigned 32 (BinaryReader_convertEndian 32 s (load hostLE s.mem s.cur 4))
      ({ s with cur := s.cur + 4 }, length)
  let c := BinaryReader_checkReadLength p.1 (wrapInt32 (p.2 * typeSize))
  if c.2 ≠ 0 then (c.1, 0) else (c.1, p.2)

/-! ## custom read functions (bool, (u)int8, half) -/

/-- The C-API calls `PyList_New(length)` and `PyList_SET_ITEM(pyarray, i, item i)` for
`0 <= i < length`: a negative length makes `PyList_New` set `SystemError` and return
`NULL`, and the filling loop `for (int i = 0; i < length; i++)` then has no iteration. -/
def PyList_New (err : Option PyExc) (length : Int) (item : Nat → PyVal) :
    Option PyExc × Option PyObject :=
  if length < 0 then (some PyExc.SystemError, none)
  else (err, some (PyObject.list ((List.range length.toNat).map item)))

/-- The C-API call `PyByteArray_FromStringAndSize(p, length)`: a negative length
sets `SystemError` and returns `NULL`. -/
def PyByteArray_FromStringAndSize (err : Option PyExc) (mem : Int → Nat) (p : Int)
    (length : Int) : Option PyExc × Option PyObject :=
  if length < 0 then (some PyExc.SystemError, none)
  else (err, some (PyObject.bytearray
    ((List.range length.toNat).map (fun (i : Nat) => byteAt mem (p + i)))))

/-- The function `BinaryReader__readBool`: the result of the bounds check is not
looked at. -/
def BinaryReader__readBool (self : BinaryReaderObject) : BinaryReaderObject × Option PyObject :=
  let s := (BinaryReader_checkReadLength self 1).1
  ({ s with cur := s.cur + 1 }, some (PyObject.scalar (PyVal.bool (byteAt s.mem s.cur != 0))))

/-- The function `BinaryReader__readBoolArray`. -/
def BinaryReader__readBoolArray (hostLE : Bool) (self : BinaryReaderObject) (args : Option Int) :
    BinaryReaderObject × Option PyObject :=
  let p := BinaryReader__readArrayLength hostLE self args 1
  let s := p.1
  let length := p.2
  let l := PyList_New s.err length (fun i => PyVal.bool (byteAt s.mem (s.cur + i) != 0))
  ({ s with cur := s.cur + length, err := l.1 }, l.2)

/-- The function `BinaryReader__readInt8`. -/
def BinaryReader__readInt8 (self : BinaryReaderObject) : BinaryReaderObject × Option PyObject :=
  let s := (BinaryReader_checkReadLength self 1).1
  ({ s with cur := s.cur + 1 }, some (PyObject.scalar (PyVal.long (toSigned 8 (byteAt s.mem s.cur)))))

/-- The function `BinaryReader__readInt8Array`. -/
def BinaryReader__readInt8Array (hostLE : Bool) (self : BinaryReaderObject) (args : Option Int) :
    BinaryReaderObject × Option PyObject :=
  let p := BinaryReader__readArrayLength hostLE self args 1
  let s := p.1
  let length := p.2
  let l := PyList_New s.err length (fun i => PyVal.long (toSigned 8 (byteAt s.mem (s.cur + i))))
  ({ s with cur := s.cur + length, err := l.1 }, l.2)

/-- The function `BinaryReader__readUInt8`. -/
def BinaryReader__readUInt8 (self : BinaryReaderObject) : BinaryReaderObject × Option PyObject :=
  let s := (BinaryReader_checkReadLength self 1).1
  ({ s with cur := s.cur + 1 }, some (PyObject.scalar (PyVal.long (byteAt s.mem s.cur))))

/-- The function `BinaryReader__readUInt8Array`. -/
def BinaryReader__readUInt8Array (hostLE : Bool) (self : BinaryReaderObject) (args : Option Int) :
    BinaryReaderObject × Option PyObject :=
  let p := BinaryReader__readArrayLength hostLE self args 1
  let s := p.1
  let length := p.2
  let l := PyByteArray_FromStringAndSize s.err s.mem s.cur length
  ({ s with cur := s.cur + length, err := l.1 }, l.2)

/-- The C-API call `_PyFloat_Unpack2(p, le)` up to the widening to `double`: the 16-bit
pattern whose low byte is `p[0]` when `le` is set and `p[1]` otherwise. -/
def PyFloat_Unpack2 (mem : Int → Nat) (p : Int) (le : Bool) : Nat :=
  if le then loadLE mem p 2 else loadBE mem p 2

/-- The test `x == -1.0 && PyErr_Occurred()` on an unpacked half: `-1.0` is the
pattern `0xBC00`. -/
def halfFailed (err : Option PyExc) (x : Nat) : Bool := x == 0xBC00 && err.isSome

/-- The function `BinaryReader__readHalf`. -/
def BinaryReader__readHalf (hostLE : Bool) (self : BinaryReaderObject) :
    BinaryReaderObject × Option PyObject :=
  let s := (BinaryReader_checkReadLength self 2).1
  let x := PyFloat_Unpack2 s.mem s.cur
    (decide ((if s.is_sys_endianess then 1 else 0) = IS_LITTLE_ENDIAN hostLE))
  if halfFailed s.err x then (s, none)
  else ({ s with cur := s.cur + 2 }, some (PyObject.scalar (PyVal.float 16 x)))

/-- The loop of `BinaryReader__readHalfArray`: `n` iterations still to run, `acc` the
items already stored; an iteration that sees `-1.0` with the error indicator set
returns `NULL`. -/
def readHalfArrayLoop (hostLE : Bool) (self : BinaryReaderObject) :
    Nat → List PyVal → BinaryReaderObject × Option PyObject
  | 0, acc => (self, some (PyObject.list acc))
  | n + 1, acc =>
    let x := PyFloat_Unpack2 self.mem self.cur
      (decide ((if self.is_sys_endianess then 1 else 0) = IS_LITTLE_ENDIAN hostLE))
    if halfFailed self.err x then (self, none)
    else readHalfArrayLoop hostLE { self with cur := self.cur + 2 } n (acc ++ [PyVal.float 16 x])

/-- The function `BinaryReader__readHalfArray`. -/
def BinaryReader__readHalfArray (hostLE : Bool) (self : BinaryReaderObject) (args : Option Int) :
    BinaryReaderObject × Option PyObject :=
  let p := BinaryReader__readArrayLength hostLE self args 2
  let s := p.1
  let length := p.2
  if length < 0 then ({ s with err := some PyExc.SystemError }, none)
  else readHalfArrayLoop hostLE s length.toNat []

/-! ## custom read functions (string, varint) -/

/-- The C library call `strlen(p)`: the number of bytes before the first zero byte at or
after `p`.  The scan is not bounded by `end`; `fuel` bounds the number of bytes the model
inspects, and `none` means that no zero byte was found among them. -/
def strlen (mem : Int → Nat) (p : Int) : Nat → Option Nat
  | 0 => none
  | fuel + 1 => if byteAt mem p = 0 then some 0 else (strlen mem (p + 1) fuel).map (fun n => n + 1)

/-- A UTF-8 continuation byte `10xxxxxx`. -/
def isCont (b : Nat) : Bool := decide (0x80 ≤ b) && decide (b ≤ 0xBF)

/-- The strict UTF-8 decoder behind `PyUnicode_FromString` (well-formed sequences of one to
four bytes, no overlong forms, no surrogates, nothing above U+10FFFF): the code points of
the text, or `none` where the C-API call sets `UnicodeDecodeError` and returns `NULL`. -/
def utf8Decode : List Nat → Option (List Nat)
  | [] => some []
  | b0 :: rest =>
    if b0 < 0x80 then
      (utf8Decode rest).map (fun cps => b0 :: cps)
    else if 0xC2 ≤ b0 ∧ b0 ≤ 0xDF then
      match rest with
      | b1 :: rest1 =>
        if isCont b1 then
          (utf8Decode rest1).map (fun cps => (b0 % 32 * 64 + b1 % 64) :: cps)
        else none
      | _ => none
    else if 0xE0 ≤ b0 ∧ b0 ≤ 0xEF then
      match rest with
      | b1 :: b2 :: rest2 =>
        if (if b0 = 0xE0 then 0xA0 else 0x80) ≤ b1 ∧ b1 ≤ (if b0 = 0xED then 0x9F else 0xBF)
            ∧ isCont b2 then
          (utf8Decode rest2).map (fun cps => (b0 % 16 * 4096 + b1 % 64 * 64 + b2 % 64) :: cps)
        else none
      | _ => none
    else if 0xF0 ≤ b0 ∧ b0 ≤ 0xF4 then
      match rest with
      | b1 :: b2 :: b3 :: rest3 =>
        if (if b0 = 0xF0 then 0x90 else 0x80) ≤ b1 ∧ b1 ≤ (if b0 = 0xF4 then 0x8F else 0xBF)
            ∧ isCont b2 ∧ isCont b3 then
          (utf8Decode rest3).map
            (fun cps => (b0 % 8 * 262144 + b1 % 64 * 4096 + b2 % 64 * 64 + b3 % 64) :: cps)
        else none
      | _ => none
    else none

/-- The function `BinaryReader__readStringNullTerminated`: `PyUnicode_FromString(cur)`
decodes the bytes up to the first zero byte, and the cursor advances by
`PyUnicode_GetLength(string) + 1`, the number of code points plus one.  The result is
`none` when the function does not return: no zero byte within `fuel` bytes, or invalid
UTF-8, for which `PyUnicode_GetLength` is handed the `NULL` string. -/
def BinaryReader__readStringNullTerminated (fuel : Nat) (self : BinaryReaderObject) :
    Option (BinaryReaderObject × Option PyObject) :=
  match strlen self.mem self.cur fuel with
  | none => none
  | some n =>
    match utf8Decode ((List.range n).map (fun (i : Nat) => byteAt self.mem (self.cur + i))) with
    | none => none
    | some cps =>
      some ({ self with cur := self.cur + (cps.length + 1) }, some (PyObject.scalar (PyVal.str cps)))

/-- The `int` expression `(byte & 0x7F) << shift`: the shift count is taken modulo 32, as
the shift instructions of x86-64 and AArch64 do, and the result is kept to 32 bits. -/
def shlInt (x : Nat) (shift : Nat) : Int := wrapInt32 (x * 2 ^ (shift % 32))

/-- The assignment `value |= x` for the `int64 value` and an `int x`, which is
sign-extended to 64 bits first. -/
def orInt64 (value : Int) (x : Int) : Int :=
  toSigned 64 (toUnsigned 64 value ||| toUnsigned 64 x)

/-- The `do ... while (byte & 0x80)` loop of `BinaryReader__readVarInt`, entered with the
current `value` and `shift`; the result of the bounds check is not looked at.  `fuel`
bounds the number of iterations of the model, `none` means the loop has not ended within
them. -/
def readVarIntLoop (self : BinaryReaderObject) (value : Int) (shift : Nat) :
    Nat → Option (BinaryReaderObject × Int)
  | 0 => none
  | fuel + 1 =>
    let s := (BinaryReader_checkReadLength self 1).1
    let byte := byteAt s.mem s.cur
    let s1 := { s with cur := s.cur + 1 }
    let value1 := orInt64 value (shlInt (byte &&& 0x7F) shift)
    if byte &&& 0x80 ≠ 0 then readVarIntLoop s1 value1 (shift + 7) fuel
    else some (s1, value1)

/-- The function `BinaryReader__readVarInt`. -/
def BinaryReader__readVarInt (fuel : Nat) (self : BinaryReaderObject) :
    Option (BinaryReaderObject × Option PyObject) :=
  (readVarIntLoop self 0 0 fuel).map (fun p => (p.1, some (PyObject.scalar (PyVal.long p.2))))

/-- Reference varint encoder, written from the specification: 7 bits per byte, least
significant group first, bit `0x80` set on every byte but the last. -/
def encodeVarInt : Nat → Nat → List Nat
  | 0, _ => []
  | fuel + 1, v => if v < 128 then [v] else (v % 128 + 128) :: encodeVarInt fuel (v / 128)

/-! ## generic read functions ((u)int16, (u)int32, (u)int64, float, double) -/

/-- The first argument `TYPE` of the instantiations of `MAKE_READER_FUNCS`. -/
inductive NumType where
  | int16 | uint16 | int32 | uint32 | int64 | uint64 | float | double
  deriving DecidableEq, Repr

/-- The macro argument `TYPE_SIZE_BYTE` of each instantiation. -/
def NumType.TYPE_SIZE_BYTE : NumType → Nat
  | .int16 => 2 | .uint16 => 2
  | .int32 => 4 | .uint32 => 4
  | .int64 => 8 | .uint64 => 8
  | .float => 4 | .double => 8

/-- The macro argument `TYPE_SIZE_BIT` of each instantiation. -/
def NumType.TYPE_SIZE_BIT : NumType → Nat
  | .int16 => 16 | .uint16 => 16
  | .int32 => 32 | .uint32 => 32
  | .int64 => 64 | .uint64 => 64
  | .float => 32 | .double => 64

/-- The expression `PYTHON_FUNC((PYTHON_FUNC_TYPE) * (TYPE *)(&data))`: the pattern
`data` read as a `TYPE` and boxed (`PyLong_FromLong`, `PyLong_FromUnsignedLong`,
`PyLong_FromLongLong`, `PyLong_FromUnsignedLongLong`, `PyFloat_FromDouble`). -/
def NumType.box : NumType → Nat → PyVal
  | .int16, data => PyVal.long (toSigned 16 data)
  | .uint16, data => PyVal.long (data % 2 ^ 16 : Nat)
  | .int32, data => PyVal.long (toSigned 32 data)
  | .uint32, data => PyVal.long (data % 2 ^ 32 : Nat)
  | .int64, data => PyVal.long (toSigned 64 data)
  | .uint64, data => PyVal.long (data % 2 ^ 64 : Nat)
  | .float, data => PyVal.float 32 (data % 2 ^ 32)
  | .double, data => PyVal.float 64 (data % 2 ^ 64)

/-- The functions `BinaryReader__read##TYPE` generated by `MAKE_READER`: the result of
the bounds check is not looked at. -/
def BinaryReader__read (hostLE : Bool) (t : NumType) (self : BinaryReaderObject) :
    BinaryReaderObject × Option PyObject :=
  let s := (BinaryReader_checkReadLength self t.TYPE_SIZE_BYTE).1
  let data := BinaryReader_convertEndian t.TYPE_SIZE_BIT s (load hostLE s.mem s.cur t.TYPE_SIZE_BYTE)
  ({ s with cur := s.cur + t.TYPE_SIZE_BYTE }, some (PyObject.scalar (t.box data)))

/-- The functions `BinaryReader__read##TYPE##Array` generated by `MAKE_ARRAY_READER`.
Element `i` is `carray[i]`, the native load at `cur + i * TYPE_SIZE_BYTE`, byte-swapped
in the second branch; the final advance `TYPE_SIZE_BYTE * length` is an `int`. -/
def BinaryReader__readArray (hostLE : Bool) (t : NumType) (self : BinaryReaderObject)
    (args : Option Int) : BinaryReaderObject × Option PyObject :=
  let p := BinaryReader__readArrayLength hostLE self args t.TYPE_SIZE_BYTE
  let s := p.1
  let length := p.2
  let carray : Nat → Nat := fun i => load hostLE s.mem (s.cur + i * t.TYPE_SIZE_BYTE) t.TYPE_SIZE_BYTE
  let l := PyList_New s.err length
    (fun i => if s.is_sys_endianess then t.box (carray i) else t.box (bswap t.TYPE_SIZE_BIT (carray i)))
  ({ s with cur := s.cur + wrapInt32 (t.TYPE_SIZE_BYTE * length), err := l.1 }, l.2)

/-! ## add read functions to BinaryReaderObject as methods -/

/-- The fixed-width scalar entries of the table `BinaryReader_methods`. -/
inductive ScalarMethod where
  | readBool | readInt8 | readUInt8
  | readInt16 | readUInt16 | readInt32 | readUInt32 | readInt64 | readUInt64
  | readFloat | readDouble
  deriving DecidableEq, Repr

/-- Number of bytes of the value a scalar method decodes. -/
def ScalarMethod.width : ScalarMethod → Nat
  | .readBool => 1 | .readInt8 => 1 | .readUInt8 => 1
  | .readInt16 => 2 | .readUInt16 => 2
  | .readInt32 => 4 | .readUInt32 => 4
  | .readInt64 => 8 | .readUInt64 => 8
  | .readFloat => 4 | .readDouble => 8

/-- The C function each scalar entry of `BinaryReader_methods` points to. -/
def ScalarMethod.call (hostLE : Bool) : ScalarMethod → BinaryReaderObject →
    BinaryReaderObject × Option PyObject
  | .readBool => BinaryReader__readBool
  | .readInt8 => BinaryReader__readInt8
  | .readUInt8 => BinaryReader__readUInt8
  | .readInt16 => BinaryReader__read hostLE NumType.int16
  | .readUInt16 => BinaryReader__read hostLE NumType.uint16
  | .readInt32 => BinaryReader__read hostLE NumType.int32
  | .readUInt32 => BinaryReader__read hostLE NumType.uint32
  | .readInt64 => BinaryReader__read hostLE NumType.int64
  | .readUInt64 => BinaryReader__read hostLE NumType.uint64
  | .readFloat => BinaryReader__read hostLE NumType.float
  | .readDouble => BinaryReader__read hostLE NumType.double

/-- The numeric array entries of the table `BinaryReader_methods`. -/
inductive ArrayMethod where
  | readBoolArray | readInt8Array | readUInt8Array
  | readInt16Array | readUInt16Array | readInt32Array | readUInt32Array
  | readInt64Array | readUInt64Array
  | readHalfArray | readFloatArray | readDoubleArray
  deriving DecidableEq, Repr

/-- Number of bytes of one element of a numeric array method. -/
def ArrayMethod.width : ArrayMethod → Nat
  | .readBoolArray => 1 | .readInt8Array => 1 | .readUInt8Array => 1
  | .readInt16Array => 2 | .readUInt16Array => 2
  | .readInt32Array => 4 | .readUInt32Array => 4
  | .readInt64Array => 8 | .readUInt64Array => 8
  | .readHalfArray => 2 | .readFloatArray => 4 | .readDoubleArray => 8

/-- The C function each numeric array entry of `BinaryReader_methods` points to. -/
def ArrayMethod.call (hostLE : Bool) : ArrayMethod → BinaryReaderObject → Option Int →
    BinaryReaderObject × Option PyObject
  | .readBoolArray => BinaryReader__readBoolArray hostLE
  | .readInt8Array => BinaryReader__readInt8Array hostLE
  | .readUInt8Array => BinaryReader__readUInt8Array hostLE
  | .readInt16Array => BinaryReader__readArray hostLE NumType.int16
  | .readUInt16Array => BinaryReader__readArray hostLE NumType.uint16
  | .readInt32Array => BinaryReader__readArray hostLE NumType.int32
  | .readUInt32Array => BinaryReader__readArray hostLE NumType.uint32
  | .readInt64Array => BinaryReader__readArray hostLE NumType.int64
  | .readUInt64Array => BinaryReader__readArray hostLE NumType.uint64
  | .readHalfArray => BinaryReader__readHalfArray hostLE
  | .readFloatArray => BinaryReader__readArray hostLE NumType.float
  | .readDoubleArray => BinaryReader__readArray hostLE NumType.double

/-- Python `len` of a returned container (0 for a scalar other than a string). -/
def PyObject.len : PyObject → Nat
  | .scalar (.str cps) => cps.length
  | .scalar _ => 0
  | .list items => items.length
  | .bytearray bs => bs.length
  | .bytes bs => bs.length

/-- The elements of a returned container as Python values (the bytes of a bytearray or
bytes object are ints); empty for a scalar. -/
def PyObject.items : PyObject → List PyVal
  | .scalar _ => []
  | .list items => items
  | .bytearray bs => bs.map (fun b => PyVal.long (b : Nat))
  | .bytes bs => bs.map (fun b => PyVal.long (b : Nat))

/-- The element each numeric array method builds from the bytes at address `a` (the body
of its loop, for `readUInt8Array` the byte copied into the bytearray). -/
def ArrayMethod.element (hostLE : Bool) (m : ArrayMethod) (self : BinaryReaderObject) (a : Int) :
    PyVal :=
  match m with
  | .readBoolArray => PyVal.bool (byteAt self.mem a != 0)
  | .readInt8Array => PyVal.long (toSigned 8 (byteAt self.mem a))
  | .readUInt8Array => PyVal.long (byteAt self.mem a : Nat)
  | .readInt16Array => NumType.int16.box (BinaryReader_convertEndian 16 self (load hostLE self.mem a 2))
  | .readUInt16Array => NumType.uint16.box (BinaryReader_convertEndian 16 self (load hostLE self.mem a 2))
  | .readInt32Array => NumType.int32.box (BinaryReader_convertEndian 32 self (load hostLE self.mem a 4))
  | .readUInt32Array => NumType.uint32.box (BinaryReader_convertEndian 32 self (load hostLE self.mem a 4))
  | .readInt64Array => NumType.int64.box (BinaryReader_convertEndian 64 self (load hostLE self.mem a 8))
  | .readUInt64Array => NumType.uint64.box (BinaryReader_convertEndian 64 self (load hostLE self.mem a 8))
  | .readHalfArray => PyVal.float 16 (PyFloat_Unpack2 self.mem a
      (decide ((if self.is_sys_endianess then 1 else 0) = IS_LITTLE_ENDIAN hostLE)))
  | .readFloatArray => NumType.float.box (BinaryReader_convertEndian 32 self (load hostLE self.mem a 4))
  | .readDoubleArray => NumType.double.box (BinaryReader_convertEndian 64 self (load hostLE self.mem a 8))

/-! ## length-delimited and aligned strings, alignment -/

/-- The C-API call `PyUnicode_FromStringAndSize(u, size)`: a negative size sets
`SystemError`; otherwise exactly `size` bytes starting at `u` are decoded as UTF-8 (a zero
byte is the character U+0000), and bytes that are not well-formed UTF-8 set
`UnicodeDecodeError`. -/
def PyUnicode_FromStringAndSize (err : Option PyExc) (mem : Int → Nat) (u : Int) (size : Int) :
    Option PyExc × Option PyObject :=
  if size < 0 then (some PyExc.SystemError, none)
  else
    match utf8Decode ((List.range size.toNat).map (fun (i : Nat) => byteAt mem (u + i))) with
    | some cps => (err, some (PyObject.scalar (PyVal.str cps)))
    | none => (some PyExc.UnicodeDecodeError, none)

/-- The function `BinaryReader__readStringLengthDelimited`. -/
def BinaryReader__readStringLengthDelimited (hostLE : Bool) (self : BinaryReaderObject)
    (args : Option Int) : BinaryReaderObject × Option PyObject :=
  let p := BinaryReader__readArrayLength hostLE self args 1
  let s := p.1
  let length := p.2
  let string := PyUnicode_FromStringAndSize s.err s.mem s.cur length
  ({ s with cur := s.cur + length, err := string.1 }, string.2)

/-- The function `BinaryReader__alignC`.  `size` is the `char` the function receives;
`%` is the C remainder, which truncates towards zero (`Int.tmod`), and the padding, smaller
in absolute value than a `char`, fits the `int` it is stored in. -/
def BinaryReader__alignC (self : BinaryReaderObject) (size : Int) : BinaryReaderObject :=
  let padding := Int.tmod (size - Int.tmod self.cur size) size
  { self with cur := self.cur + padding }

/-- The function `BinaryReader__align`, the public `align` method: `PyArg_ParseTuple` with
format `|i` stores an optional C `int` (an argument outside the range of `int` sets
`OverflowError` and makes the call return `NULL`), and the function returns the
position; the parsed size is not used. -/
def BinaryReader__align (self : BinaryReaderObject) (args : Option Int) :
    BinaryReaderObject × Option PyObject :=
  match args with
  | some v =>
    if -2 ^ 31 ≤ v ∧ v < 2 ^ 31 then
      (self, some (PyObject.scalar (PyVal.long (BinaryReader_getPosition self))))
    else ({ self with err := some PyExc.OverflowError }, none)
  | none => (self, some (PyObject.scalar (PyVal.long (BinaryReader_getPosition self))))

/-- The function `BinaryReader__readAlignedString`. -/
def BinaryReader__readAlignedString (hostLE : Bool) (self : BinaryReaderObject)
    (args : Option Int) : BinaryReaderObject × Option PyObject :=
  let ret := BinaryReader__readStringLengthDelimited hostLE self args
  (BinaryReader__alignC ret.1 4, ret.2)

/-- The entry `"readStringC"` of `BinaryReader_methods`: it points to
`BinaryReader__readStringNullTerminated`, which does not look at its arguments. -/
def method_readStringC (fuel : Nat) (self : BinaryReaderObject) (_args : Option Int) :
    Option (BinaryReaderObject × Option PyObject) :=
  BinaryReader__readStringNullTerminated fuel self

/-- The entry `"readStringCArray"` of `BinaryReader_methods`: it points to
`BinaryReader__readStringNullTerminated` as well, not to
`BinaryReader__readStringNullTerminatedArray`. -/
def method_readStringCArray (fuel : Nat) (self : BinaryReaderObject) (_args : Option Int) :
    Option (BinaryReaderObject × Option PyObject) :=
  BinaryReader__readStringNullTerminated fuel self

/-! ## readLSB -/

/-- The byte computed from one `uint64 tmp` in the two loops of `BinaryReader__readLSB`:
the lowest bit of each of the eight bytes of `tmp`, with the lowest byte of `tmp` going
to bit 7 in the first loop (`first` set) and to bit 0 in the second. -/
def lsbByte (first : Bool) (tmp : Nat) : Nat :=
  if first then
    (((tmp >>> (8 * 0)) &&& 1) <<< 7) ||| (((tmp >>> (8 * 1)) &&& 1) <<< 6)
      ||| (((tmp >>> (8 * 2)) &&& 1) <<< 5) ||| (((tmp >>> (8 * 3)) &&& 1) <<< 4)
      ||| (((tmp >>> (8 * 4)) &&& 1) <<< 3) ||| (((tmp >>> (8 * 5)) &&& 1) <<< 2)
      ||| (((tmp >>> (8 * 6)) &&& 1) <<< 1) ||| (((tmp >>> (8 * 7)) &&& 1) <<< 0)
  else
    (((tmp >>> (8 * 7)) &&& 1) <<< 7) ||| (((tmp >>> (8 * 6)) &&& 1) <<< 6)
      ||| (((tmp >>> (8 * 5)) &&& 1) <<< 5) ||| (((tmp >>> (8 * 4)) &&& 1) <<< 4)
      ||| (((tmp >>> (8 * 3)) &&& 1) <<< 3) ||| (((tmp >>> (8 * 2)) &&& 1) <<< 2)
      ||| (((tmp >>> (8 * 1)) &&& 1) <<< 1) ||| (((tmp >>> (8 * 0)) &&& 1) <<< 0)

/-- The 64-bit pointer `data + off` for a buffer that starts at the address `data`:
pointer arithmetic is taken modulo `2^64`. -/
def ptr (data : Nat) (off : Int) : Nat := toUnsigned 64 (data + off)

/-- The function `BinaryReader_checkReadLength` on 64-bit pointers, for a buffer at the
address `data`: `self->cur + length` and `self->end` are the pointers `data + cur + length`
and `data + size`, and `>` compares them as unsigned addresses.  It has the result of the
form in offsets whenever neither sum leaves the address space. -/
def BinaryReader_checkReadLength_ptr (data : Nat) (self : BinaryReaderObject) (length : Int) :
    BinaryReaderObject × Int :=
  if ptr data (self.cur + length) > ptr data self.size then
    ({ self with err := some PyExc.ValueError }, 1)
  else
    (self, 0)

/-- The C-API call `PyMem_Malloc(n)`: `true` when it returns a block and `false` when it
returns `NULL`.  A request above `PY_SSIZE_T_MAX` is refused; any other request succeeds
when the allocator can deliver `n` bytes, `avail` being the size of the largest block it
can deliver at the time of the call (a request of 0 bytes is always served). -/
def PyMem_Malloc (avail : Nat) (n : Nat) : Bool := decide (n < 2 ^ 63) && decide (n ≤ avail)

/-- The part of `BinaryReader__readLSB` after the input length is known: `length / 8`
output bytes are requested from `PyMem_Malloc`, whose result is not tested; the loop
`for (int i = 0; i < length; i++)` fills the block from consecutive native `uint64` loads,
the cursor advances by `length * 8` (a `uint64` product) and the block is returned as a
bytes object (the copy made by `Py_BuildValue` is taken to succeed).  When the allocation
fails the first iteration writes through `NULL` and the process dies: the result is
`none`.  The counter `i` is an `int` compared with the
`uint64 length`, so with two's complement wrap of the counter the loop ends after `2^31`
iterations at the latest; output bytes from index `2^31` on keep what the allocated block
held before, given by `block`. -/
def readLSBBody (hostLE : Bool) (avail : Nat) (block : Nat → Nat) (self : BinaryReaderObject)
    (length0 : Nat) : Option (BinaryReaderObject × Option PyObject) :=
  let length := length0 / 8
  if PyMem_Malloc avail length then
    let first := decide ((if self.is_sys_endianess then 1 else 0) = IS_LITTLE_ENDIAN hostLE)
    let data := (List.range length).map (fun (i : Nat) =>
      if i < 2 ^ 31 then lsbByte first (load hostLE self.mem (self.cur + 8 * i) 8) % 256
      else block i % 256)
    some ({ self with cur := self.cur + (length * 8 % 2 ^ 64 : Nat) }, some (PyObject.bytes data))
  else none

/-- The function `BinaryReader__readLSB` for a buffer at the address `data`.  An explicit
length goes through `PyLong_AsLong` into the `uint64 length` and is handed to the bounds
check as a `Py_ssize_t`; without an argument the length is `end - cur` as a `uint64`.  The
result is `none` when the function does not return (see `readLSBBody`). -/
def BinaryReader__readLSB (hostLE : Bool) (data avail : Nat) (block : Nat → Nat)
    (self : BinaryReaderObject) (args : Option Int) :
    Option (BinaryReaderObject × Option PyObject) :=
  match args with
  | some v =>
    let q := PyLong_AsLong self.err v
    let length := toUnsigned 64 q.2
    let c := BinaryReader_checkReadLength_ptr data { self with err := q.1 } (wrapInt64 length)
    if c.2 ≠ 0 then some (c.1, none) else readLSBBody hostLE avail block c.1 length
  | none => readLSBBody hostLE avail block self (toUnsigned 64 (self.size - self.cur))

/-! ## BinaryReader property definitions -/

/-- Python objects handed to the attribute setters: an int (`True` and `False` are the
ints 1 and 0), a tuple of ints, or any other object. -/
inductive PyArg where
  | long (v : Int)
  | tuple (items : List Int)
  | other
  deriving DecidableEq, Repr

/-- The C-API call `PyLong_AsUnsignedLongLong` on a Python int: its value when it fits a
`uint64`, otherwise `(unsigned long long)-1` with `OverflowError` set. -/
def PyLong_AsUnsignedLongLong (err : Option PyExc) (v : Int) : Option PyExc × Nat :=
  if 0 ≤ v ∧ v < 2 ^ 64 then (err, v.toNat) else (some PyExc.OverflowError, 2 ^ 64 - 1)

/-- The setter of `position` as a whole (the function `BinaryReader_setPosition` with its
return code): `NULL` (attribute deletion) and non-int values set `TypeError` and return
-1; for an int the cursor is assigned from `PyLong_AsUnsignedLongLong(value)`, whose
error is not looked at, and 0 is returned. -/
def BinaryReader_setPositionAttr (self : BinaryReaderObject) (value : Option PyArg) :
    BinaryReaderObject × Int :=
  match value with
  | some (PyArg.long v) =>
    let q := PyLong_AsUnsignedLongLong self.err v
    (BinaryReader_setPosition { self with err := q.1 } q.2, 0)
  | _ => ({ self with err := some PyExc.TypeError }, -1)

/-- The function `BinaryReader_getSize`. -/
def BinaryReader_getSize (self : BinaryReaderObject) : Int := self.size

/-- The function `BinaryReader_getEndian`. -/
def BinaryReader_getEndian (hostLE : Bool) (self : BinaryReaderObject) : Bool :=
  decide ((if self.is_sys_endianess then 1 else 0) = IS_LITTLE_ENDIAN hostLE)

/-- The function `BinaryReader_setEndian` for a value other than `NULL`:
`PyArg_ParseTuple(value, "b", ...)` treats the assigned value itself as an argument tuple,
so only a 1-tuple holding an int in `[0, 255]` is parsed; a value that is not a tuple sets
`SystemError`, a tuple of another size `TypeError`, an int out of range `OverflowError`,
and in these cases the function returns 1 without touching the flag. -/
def BinaryReader_setEndian (hostLE : Bool) (self : BinaryReaderObject) (value : PyArg) :
    BinaryReaderObject × Int :=
  match value with
  | PyArg.tuple [v] =>
    if 0 ≤ v ∧ v ≤ 255 then
      ({ self with is_sys_endianess := decide (IS_LITTLE_ENDIAN hostLE = v.toNat) }, 0)
    else ({ self with err := some PyExc.OverflowError }, 1)
  | PyArg.tuple _ => ({ self with err := some PyExc.TypeError }, 1)
  | _ => ({ self with err := some PyExc.SystemError }, 1)

/-! ## Successive scalar reads -/

/-- Reference composition for the comparison of array reads with scalar reads, written from
the specification: `n` successive calls of the reader `f`, each starting from the state the
previous one left, with the list of the objects they returned. -/
def successiveReads (f : BinaryReaderObject → BinaryReaderObject × Option PyObject) :
    Nat → BinaryReaderObject → BinaryReaderObject × List (Option PyObject)
  | 0, s => (s, [])
  | n + 1, s =>
    let p := f s
    let q := successiveReads f n p.1
    (q.1, p.2 :: q.2)

/-! ## Reference encoder -/

/-- Reference encoder of the round-trip property, written from the specification: the
`w` bytes of the two's complement pattern of `v` on `8 * w` bits, least significant
byte first when `little` is set and most significant byte first otherwise. -/
def encodeInt (w : Nat) (v : Int) (little : Bool) : List Nat :=
  let le := (List.range w).map (fun i => toUnsigned (8 * w) v / 256 ^ i % 256)
  if little then le else le.reverse


/-! ## Theorems -/

/-! ### Auxiliary facts -/

theorem byteAt_lt (mem : Int → Nat) (a : Int) : byteAt mem a < 256 :=
  Nat.mod_lt _ (by decide)

theorem bswap16_bytes (b0 b1 : Nat) (h0 : b0 < 256) (h1 : b1 < 256) :
    bswap16 (b0 + 256 * b1) = b1 + 256 * b0 := by
  unfold bswap16
  omega

theorem digit_div (b y : Nat) (h : b < 256) : (b + 256 * y) / 256 = y := by omega

theorem digit_mod (b y : Nat) (h : b < 256) : (b + 256 * y) % 256 = b := by omega

theorem bswap32_bytes (b0 b1 b2 b3 : Nat) (h0 : b0 < 256) (h1 : b1 < 256) (h2 : b2 < 256)
    (h3 : b3 < 256) :
    bswap32 (b0 + 256 * (b1 + 256 * (b2 + 256 * b3)))
      = b3 + 256 * (b2 + 256 * (b1 + 256 * b0)) := by
  have p8 : (2:Nat) ^ 8 = 256 := by norm_num
  have p16 : (2:Nat) ^ 16 = 256 * 256 := by norm_num
  have p24 : (2:Nat) ^ 24 = 256 * 256 * 256 := by norm_num
  unfold bswap32
  rw [p24, p16, p8]
  simp only [← Nat.div_div_eq_div_mul, digit_div, digit_mod, h0, h1, h2, h3]
  rw [Nat.mod_eq_of_lt h3]
  ring

theorem bswap64_bytes (b0 b1 b2 b3 b4 b5 b6 b7 : Nat) (h0 : b0 < 256) (h1 : b1 < 256)
    (h2 : b2 < 256) (h3 : b3 < 256) (h4 : b4 < 256) (h5 : b5 < 256) (h6 : b6 < 256)
    (h7 : b7 < 256) :
    bswap64 (b0 + 256 * (b1 + 256 * (b2 + 256 * (b3 + 256 * (b4 + 256 * (b5 + 256 * (b6 + 256 * b7)))))))
      = b7 + 256 * (b6 + 256 * (b5 + 256 * (b4 + 256 * (b3 + 256 * (b2 + 256 * (b1 + 256 * b0)))))) := by
  have p8 : (2:Nat) ^ 8 = 256 := by norm_num
  have p16 : (2:Nat) ^ 16 = 256 * 256 := by norm_num
  have p24 : (2:Nat) ^ 24 = 256 * 256 * 256 := by norm_num
  have p32 : (2:Nat) ^ 32 = 256 * 256 * 256 * 256 := by norm_num
  have p40 : (2:Nat) ^ 40 = 256 * 256 * 256 * 256 * 256 := by norm_num
  have p48 : (2:Nat) ^ 48 = 256 * 256 * 256 * 256 * 256 * 256 := by norm_num
  have p56 : (2:Nat) ^ 56 = 256 * 256 * 256 * 256 * 256 * 256 * 256 := by norm_num
  unfold bswap64
  rw [p56, p48, p40, p32, p24, p16, p8]
  simp only [← Nat.div_div_eq_div_mul, digit_div, digit_mod, h0, h1, h2, h3, h4, h5, h6]
  rw [Nat.mod_eq_of_lt h7]
  ring

theorem loadLE_eq_sum (mem : Int → Nat) (n : Nat) : ∀ a : Int,
    loadLE mem a n = ∑ i in Finset.range n, byteAt mem (a + i) * 256 ^ i := by
  induction n with
  | zero => intro a; simp [loadLE]
  | succ n ih =>
    intro a
    rw [loadLE, ih, Finset.sum_range_succ', Finset.mul_sum]
    simp only [Nat.cast_zero, add_zero, pow_zero, mul_one, Nat.cast_add, Nat.cast_one]
    rw [add_comm]
    congr 1
    apply Finset.sum_congr rfl
    intro i _
    rw [show a + 1 + (i : Int) = a + (i + 1) by ring]
    ring

theorem loadBE_eq_sum (mem : Int → Nat) (n : Nat) : ∀ a : Int,
    loadBE mem a n = ∑ i in Finset.range n, byteAt mem (a + i) * 256 ^ (n - 1 - i) := by
  induction n with
  | zero => intro a; simp [loadBE]
  | succ n ih =>
    intro a
    rw [loadBE, ih, Finset.sum_range_succ']
    simp only [Nat.cast_zero, add_zero, Nat.cast_add, Nat.cast_one, Nat.add_sub_cancel,
      Nat.sub_zero]
    rw [add_comm]
    congr 1
    apply Finset.sum_congr rfl
    intro i hi
    rw [show a + 1 + (i : Int) = a + (i + 1) by ring]
    congr 2
    have := Finset.mem_range.mp hi
    omega

theorem read_in_bounds (hostLE : Bool) (t : NumType) (r : BinaryReaderObject)
    (hb : r.cur + t.TYPE_SIZE_BYTE ≤ r.size) :
    BinaryReader__read hostLE t r
      = ({ r with cur := r.cur + t.TYPE_SIZE_BYTE },
         some (PyObject.scalar (t.box (BinaryReader_convertEndian t.TYPE_SIZE_BIT r
           (load hostLE r.mem r.cur t.TYPE_SIZE_BYTE))))) := by
  have hc : BinaryReader_checkReadLength r t.TYPE_SIZE_BYTE = (r, 0) := by
    unfold BinaryReader_checkReadLength
    rw [if_neg (by omega)]
  simp only [BinaryReader__read, hc]

theorem bswap_loadLE (mem : Int → Nat) (a : Int) (t : NumType) :
    bswap t.TYPE_SIZE_BIT (loadLE mem a t.TYPE_SIZE_BYTE) = loadBE mem a t.TYPE_SIZE_BYTE := by
  have h0 := byteAt_lt mem a
  have h1 := byteAt_lt mem (a + 1)
  have h2 := byteAt_lt mem (a + 1 + 1)
  have h3 := byteAt_lt mem (a + 1 + 1 + 1)
  have h4 := byteAt_lt mem (a + 1 + 1 + 1 + 1)
  have h5 := byteAt_lt mem (a + 1 + 1 + 1 + 1 + 1)
  have h6 := byteAt_lt mem (a + 1 + 1 + 1 + 1 + 1 + 1)
  have h7 := byteAt_lt mem (a + 1 + 1 + 1 + 1 + 1 + 1 + 1)
  cases t <;>
    simp only [NumType.TYPE_SIZE_BIT, NumType.TYPE_SIZE_BYTE, bswap, loadLE, loadBE,
      Nat.reduceEqDiff, if_true, if_false, mul_zero, add_zero,
      Nat.reduceEqDiff] <;>
    first
    | (rw [bswap16_bytes _ _ h0 h1]; ring)
    | (rw [bswap32_bytes _ _ _ _ h0 h1 h2 h3]; ring)
    | (rw [bswap64_bytes _ _ _ _ _ _ _ _ h0 h1 h2 h3 h4 h5 h6 h7]; ring)

theorem bswap_loadBE (mem : Int → Nat) (a : Int) (t : NumType) :
    bswap t.TYPE_SIZE_BIT (loadBE mem a t.TYPE_SIZE_BYTE) = loadLE mem a t.TYPE_SIZE_BYTE := by
  have h0 := byteAt_lt mem a
  have h1 := byteAt_lt mem (a + 1)
  have h2 := byteAt_lt mem (a + 1 + 1)
  have h3 := byteAt_lt mem (a + 1 + 1 + 1)
  have h4 := byteAt_lt mem (a + 1 + 1 + 1 + 1)
  have h5 := byteAt_lt mem (a + 1 + 1 + 1 + 1 + 1)
  have h6 := byteAt_lt mem (a + 1 + 1 + 1 + 1 + 1 + 1)
  have h7 := byteAt_lt mem (a + 1 + 1 + 1 + 1 + 1 + 1 + 1)
  cases t <;>
    simp only [NumType.TYPE_SIZE_BIT, NumType.TYPE_SIZE_BYTE, bswap, loadLE, loadBE,
      Nat.reduceEqDiff, if_true, if_false, mul_zero, add_zero,
      Nat.reduceEqDiff] <;>
    first
    | (rw [← bswap16_bytes _ _ h1 h0]; congr 1; ring)
    | (rw [← bswap32_bytes _ _ _ _ h3 h2 h1 h0]; congr 1; ring)
    | (rw [← bswap64_bytes _ _ _ _ _ _ _ _ h7 h6 h5 h4 h3 h2 h1 h0]; congr 1; ring)

theorem loadLE_lt (mem : Int → Nat) (n : Nat) : ∀ a : Int, loadLE mem a n < 256 ^ n := by
  induction n with
  | zero => intro a; simp [loadLE]
  | succ n ih =>
    intro a
    have h0 := byteAt_lt mem a
    have h1 := ih (a + 1)
    rw [loadLE, pow_succ]
    omega

theorem loadBE_lt (mem : Int → Nat) (n : Nat) : ∀ a : Int, loadBE mem a n < 256 ^ n := by
  induction n with
  | zero => intro a; simp [loadBE]
  | succ n ih =>
    intro a
    have h0 := byteAt_lt mem a
    have h1 := ih (a + 1)
    rw [loadBE, pow_succ]
    have : byteAt mem a * 256 ^ n ≤ 255 * 256 ^ n := Nat.mul_le_mul_right _ (by omega)
    omega

theorem convertEndian_declared (hostLE d : Bool) (t : NumType) (r : BinaryReaderObject)
    (hflag : r.is_sys_endianess
      = (BinaryReader_init hostLE r.mem r.size (if d then 1 else 0)).is_sys_endianess)
    (a : Int) :
    BinaryReader_convertEndian t.TYPE_SIZE_BIT r (load hostLE r.mem a t.TYPE_SIZE_BYTE)
      = if d then loadLE r.mem a t.TYPE_SIZE_BYTE else loadBE r.mem a t.TYPE_SIZE_BYTE := by
  cases hostLE <;> cases d <;>
    simp [BinaryReader_init, IS_LITTLE_ENDIAN] at hflag <;>
    simp [BinaryReader_convertEndian, hflag, load, bswap_loadLE, bswap_loadBE]

theorem encodeInt_getD (w : Nat) (v : Int) (d : Bool) (i : Nat) (hi : i < w) :
    (encodeInt w v d).getD i 0
      = toUnsigned (8 * w) v / 256 ^ (if d then i else w - 1 - i) % 256 := by
  cases d
  · simp only [encodeInt, Bool.false_eq_true, if_false]
    rw [List.getD_eq_getElem?_getD, List.getElem?_reverse (by simpa using hi)]
    simp only [List.length_map, List.length_range]
    rw [List.getElem?_map, List.getElem?_range (by omega)]
    simp
  · simp only [encodeInt, if_true]
    rw [List.getD_eq_getElem?_getD, List.getElem?_map, List.getElem?_range hi]
    simp

theorem loadLE_of_digits (mem : Int → Nat) (w : Nat) : ∀ (a : Int) (x : Nat),
    (∀ i : Nat, i < w → byteAt mem (a + i) = x / 256 ^ i % 256) →
    loadLE mem a w = x % 256 ^ w := by
  induction w with
  | zero => intro a x _; simp [loadLE, Nat.mod_one]
  | succ w ih =>
    intro a x h
    have h0 := h 0 (by omega)
    simp only [Nat.cast_zero, add_zero, pow_zero, Nat.div_one] at h0
    have hrest : ∀ i : Nat, i < w → byteAt mem (a + 1 + i) = x / 256 / 256 ^ i % 256 := by
      intro i hi
      have := h (i + 1) (by omega)
      rw [show a + 1 + (i : Int) = a + ((i + 1 : Nat) : Int) by push_cast; ring, this,
        Nat.div_div_eq_div_mul, pow_succ, mul_comm]
    rw [loadLE, ih (a + 1) (x / 256) hrest, h0, pow_succ, mul_comm (256 ^ w) 256, Nat.mod_mul]

theorem loadBE_of_digits (mem : Int → Nat) (w : Nat) : ∀ (a : Int) (x : Nat),
    (∀ i : Nat, i < w → byteAt mem (a + i) = x / 256 ^ (w - 1 - i) % 256) →
    loadBE mem a w = x % 256 ^ w := by
  induction w with
  | zero => intro a x _; simp [loadBE, Nat.mod_one]
  | succ w ih =>
    intro a x h
    have h0 := h 0 (by omega)
    simp only [Nat.cast_zero, add_zero, Nat.add_sub_cancel, Nat.sub_zero] at h0
    have hrest : ∀ i : Nat, i < w → byteAt mem (a + 1 + i) = x / 256 ^ (w - 1 - i) % 256 := by
      intro i hi
      have := h (i + 1) (by omega)
      rw [show a + 1 + (i : Int) = a + ((i + 1 : Nat) : Int) by push_cast; ring, this]
      congr 3
      omega
    rw [loadBE, ih (a + 1) x hrest, h0, pow_succ, Nat.mod_mul]
    ring
theorem toSigned_toUnsigned_8 (v : Int) (h1 : -2 ^ 7 ≤ v) (h2 : v < 2 ^ 7) :
    toSigned 8 (toUnsigned 8 v) = v := by
  unfold toSigned toUnsigned
  norm_num at h1 h2 ⊢
  split_ifs <;> omega

theorem toSigned_toUnsigned_16 (v : Int) (h1 : -2 ^ 15 ≤ v) (h2 : v < 2 ^ 15) :
    toSigned 16 (toUnsigned 16 v) = v := by
  unfold toSigned toUnsigned
  norm_num at h1 h2 ⊢
  split_ifs <;> omega

theorem toSigned_toUnsigned_32 (v : Int) (h1 : -2 ^ 31 ≤ v) (h2 : v < 2 ^ 31) :
    toSigned 32 (toUnsigned 32 v) = v := by
  unfold toSigned toUnsigned
  norm_num at h1 h2 ⊢
  split_ifs <;> omega

theorem toSigned_toUnsigned_64 (v : Int) (h1 : -2 ^ 63 ≤ v) (h2 : v < 2 ^ 63) :
    toSigned 64 (toUnsigned 64 v) = v := by
  unfold toSigned toUnsigned
  norm_num at h1 h2 ⊢
  split_ifs <;> omega

theorem toUnsigned_lt (bits : Nat) (v : Int) : toUnsigned bits v < 2 ^ bits := by
  unfold toUnsigned
  have hp : (0 : Int) < 2 ^ bits := by positivity
  have h1 := Int.emod_lt_of_pos v hp
  have h0 := Int.emod_nonneg v (ne_of_gt hp)
  zify
  rw [Int.toNat_of_nonneg h0]
  exact_mod_cast h1

theorem signed_read_value (hostLE d : Bool) (t : NumType) (v : Int) (r : BinaryReaderObject)
    (hflag : r.is_sys_endianess
      = (BinaryReader_init hostLE r.mem r.size (if d then 1 else 0)).is_sys_endianess)
    (hbytes : ∀ i : Nat, i < t.TYPE_SIZE_BYTE →
      byteAt r.mem (r.cur + i) = (encodeInt t.TYPE_SIZE_BYTE v d).getD i 0) :
    BinaryReader_convertEndian t.TYPE_SIZE_BIT r (load hostLE r.mem r.cur t.TYPE_SIZE_BYTE)
      = toUnsigned (8 * t.TYPE_SIZE_BYTE) v := by
  rw [convertEndian_declared hostLE d t r hflag]
  have hlt := toUnsigned_lt (8 * t.TYPE_SIZE_BYTE) v
  rw [pow_mul, show (2:Nat) ^ 8 = 256 by norm_num] at hlt
  cases d
  · simp only [Bool.false_eq_true, if_false]
    rw [loadBE_of_digits r.mem _ r.cur (toUnsigned (8 * t.TYPE_SIZE_BYTE) v), Nat.mod_eq_of_lt hlt]
    intro i hi
    rw [hbytes i hi, encodeInt_getD _ _ _ _ hi]
    simp
  · simp only [if_true]
    rw [loadLE_of_digits r.mem _ r.cur (toUnsigned (8 * t.TYPE_SIZE_BYTE) v), Nat.mod_eq_of_lt hlt]
    intro i hi
    rw [hbytes i hi, encodeInt_getD _ _ _ _ hi]
    simp

theorem wrapInt32_eq (x : Int) (h1 : -2 ^ 31 ≤ x) (h2 : x < 2 ^ 31) : wrapInt32 x = x := by
  unfold wrapInt32
  norm_num at h1 h2 ⊢
  omega

theorem readArrayLength_explicit (hostLE : Bool) (r : BinaryReaderObject) (n w : Int)
    (h1 : -2 ^ 31 ≤ n) (h2 : n < 2 ^ 31) (h3 : -2 ^ 31 ≤ n * w) (h4 : n * w < 2 ^ 31)
    (hb : r.cur + n * w ≤ r.size) :
    BinaryReader__readArrayLength hostLE r (some n) w = (r, n) := by
  have hl : PyLong_AsLong r.err n = (r.err, n) := by
    unfold PyLong_AsLong
    rw [if_pos]
    norm_num at h1 h2 ⊢
    omega
  have hc : BinaryReader_checkReadLength r (n * w) = (r, 0) := by
    unfold BinaryReader_checkReadLength
    rw [if_neg (not_lt.mpr hb)]
  simp [BinaryReader__readArrayLength, hl, wrapInt32_eq n h1 h2, wrapInt32_eq _ h3 h4, hc]

theorem readHalfArrayLoop_ok (hostLE : Bool) (n : Nat) :
    ∀ (s : BinaryReaderObject) (acc : List PyVal), s.err = none →
      (readHalfArrayLoop hostLE s n acc).1.err = none
        ∧ (∃ items, (readHalfArrayLoop hostLE s n acc).2 = some (PyObject.list items)
            ∧ items.length = acc.length + n)
        ∧ (readHalfArrayLoop hostLE s n acc).1.cur = s.cur + 2 * n := by
  induction n with
  | zero =>
    intro s acc h
    simp [readHalfArrayLoop, h]
  | succ n ih =>
    intro s acc h
    have hf : ∀ x, halfFailed s.err x = false := by
      intro x
      simp [halfFailed, h]
    rw [readHalfArrayLoop]
    simp only [hf, Bool.false_eq_true, if_false]
    obtain ⟨h1, ⟨items, h2, h3⟩, h4⟩ := ih { s with cur := s.cur + 2 } (acc ++ [_]) h
    refine ⟨h1, ⟨items, h2, ?_⟩, ?_⟩
    · rw [h3]; simp; omega
    · rw [h4]; push_cast; ring

theorem array_read_explicit_ok (hostLE : Bool) (m : ArrayMethod) (r : BinaryReaderObject) (n : Int)
    (herr : r.err = none) (hn : 0 ≤ n) (hfit : n * m.width < 2 ^ 31)
    (hb : r.cur + n * m.width ≤ r.size) :
    (m.call hostLE r (some n)).1.err = none
      ∧ (∃ obj, (m.call hostLE r (some n)).2 = some obj ∧ (obj.len : Int) = n)
      ∧ (m.call hostLE r (some n)).1.cur = r.cur + n * m.width := by
  have hw : 1 ≤ (m.width : Int) := by cases m <;> simp [ArrayMethod.width]
  have hnw : n ≤ n * m.width := by nlinarith
  have h0 : 0 ≤ n * (m.width : Int) := by nlinarith
  have hl := readArrayLength_explicit hostLE r n m.width (by norm_num; omega) (by omega)
    (by norm_num; omega) hfit hb
  have hwrap : wrapInt32 (m.width * n) = n * m.width := by
    rw [mul_comm, wrapInt32_eq _ (by norm_num; omega) hfit]
  have hlen : (n.toNat : Int) = n := Int.toNat_of_nonneg hn
  have hneg : ¬ n < 0 := by omega
  cases m <;>
    simp only [ArrayMethod.call, ArrayMethod.width, BinaryReader__readBoolArray,
      BinaryReader__readInt8Array, BinaryReader__readUInt8Array, BinaryReader__readArray,
      BinaryReader__readHalfArray, NumType.TYPE_SIZE_BYTE, PyList_New,
      PyByteArray_FromStringAndSize, Nat.cast_ofNat, Nat.cast_one] at hl hwrap ⊢ <;>
    simp only [hl, hwrap, hneg, if_false, herr] <;>
    first
    | exact ⟨trivial, ⟨_, rfl, by simp only [PyObject.len, List.length_map, List.length_range, hlen]⟩,
        by simp⟩
    | (obtain ⟨h1, ⟨items, h2, h3⟩, h4⟩ := readHalfArrayLoop_ok hostLE n.toNat r [] herr
       refine ⟨h1, ⟨_, h2, ?_⟩, ?_⟩
       · simp only [PyObject.len, h3, List.length_nil, Nat.zero_add, hlen]
       · rw [h4, hlen]; ring)

theorem toSigned_32_range (x : Nat) : -2 ^ 31 ≤ toSigned 32 x ∧ toSigned 32 x < 2 ^ 31 := by
  unfold toSigned
  norm_num
  split_ifs <;> omega

theorem readArrayLength_omitted (hostLE : Bool) (r : BinaryReaderObject) (w : Int)
    (hb : r.cur + 4 ≤ r.size) :
    BinaryReader__readArrayLength hostLE r none w
      = BinaryReader__readArrayLength hostLE { r with cur := r.cur + 4 }
          (some (toSigned 32 (BinaryReader_convertEndian 32 r (load hostLE r.mem r.cur 4)))) w := by
  have hc : BinaryReader_checkReadLength r 4 = (r, 0) := by
    unfold BinaryReader_checkReadLength
    rw [if_neg (not_lt.mpr hb)]
  obtain ⟨h1, h2⟩ := toSigned_32_range (BinaryReader_convertEndian 32 r (load hostLE r.mem r.cur 4))
  have hl : ∀ e, PyLong_AsLong e
      (toSigned 32 (BinaryReader_convertEndian 32 r (load hostLE r.mem r.cur 4)))
      = (e, toSigned 32 (BinaryReader_convertEndian 32 r (load hostLE r.mem r.cur 4))) := by
    intro e
    unfold PyLong_AsLong
    rw [if_pos]
    norm_num at h1 h2 ⊢
    omega
  simp only [BinaryReader__readArrayLength, hc, hl, wrapInt32_eq _ h1 h2]

theorem array_read_omitted (hostLE : Bool) (m : ArrayMethod) (r : BinaryReaderObject)
    (hb : r.cur + 4 ≤ r.size) :
    m.call hostLE r none
      = m.call hostLE { r with cur := r.cur + 4 }
          (some (toSigned 32 (BinaryReader_convertEndian 32 r (load hostLE r.mem r.cur 4)))) := by
  cases m <;>
    simp only [ArrayMethod.call, BinaryReader__readBoolArray, BinaryReader__readInt8Array,
      BinaryReader__readUInt8Array, BinaryReader__readArray, BinaryReader__readHalfArray,
      readArrayLength_omitted hostLE r _ hb]

theorem readArrayLength_explicit_cur (hostLE : Bool) (r : BinaryReaderObject) (n w : Int) :
    (BinaryReader__readArrayLength hostLE r (some n) w).1.cur = r.cur := by
  simp only [BinaryReader__readArrayLength, BinaryReader_checkReadLength]
  split_ifs <;> rfl

theorem readArrayLength_explicit_count (hostLE : Bool) (r : BinaryReaderObject) (n w : Int)
    (h1 : -2 ^ 31 ≤ n) (h2 : n < 2 ^ 31)
    (he : (BinaryReader__readArrayLength hostLE r (some n) w).1.err = none) :
    (BinaryReader__readArrayLength hostLE r (some n) w).2 = n := by
  have hl : PyLong_AsLong r.err n = (r.err, n) := by
    unfold PyLong_AsLong
    rw [if_pos]
    norm_num at h1 h2 ⊢
    omega
  simp only [BinaryReader__readArrayLength, hl, wrapInt32_eq n h1 h2,
    BinaryReader_checkReadLength] at he ⊢
  split_ifs at he ⊢ <;> simp_all

theorem readVarIntLoop_mono (fuel : Nat) :
    ∀ (self : BinaryReaderObject) (value : Int) (shift : Nat) (res : BinaryReaderObject × Int),
      readVarIntLoop self value shift fuel = some res →
      ∀ k, readVarIntLoop self value shift (fuel + k) = some res := by
  induction fuel with
  | zero => intro self value shift res h; simp [readVarIntLoop] at h
  | succ fuel ih =>
    intro self value shift res h k
    rw [show fuel + 1 + k = (fuel + k) + 1 by omega]
    rw [readVarIntLoop] at h ⊢
    by_cases hc : byteAt (BinaryReader_checkReadLength self 1).1.mem
        (BinaryReader_checkReadLength self 1).1.cur &&& 0x80 ≠ 0
    · simp only [hc, if_true, ne_eq, not_false_eq_true] at h ⊢
      exact ih _ _ _ _ h k
    · simp only [hc, if_false] at h ⊢
      exact h

theorem strlen_mono (fuel : Nat) :
    ∀ (mem : Int → Nat) (p : Int) (n : Nat), strlen mem p fuel = some n →
      ∀ k, strlen mem p (fuel + k) = some n := by
  induction fuel with
  | zero => intro mem p n h; simp [strlen] at h
  | succ fuel ih =>
    intro mem p n h k
    rw [show fuel + 1 + k = (fuel + k) + 1 by omega]
    rw [strlen] at h ⊢
    by_cases hc : byteAt mem p = 0
    · simp only [hc, if_true] at h ⊢
      exact h
    · simp only [hc, if_false] at h ⊢
      cases hs : strlen mem (p + 1) fuel with
      | none => simp [hs] at h
      | some m =>
        rw [hs] at h
        rw [ih mem (p + 1) m hs k]
        exact h

theorem strlen_of_first_zero (mem : Int → Nat) (n : Nat) :
    ∀ (p : Int), (∀ i : Nat, i < n → byteAt mem (p + i) ≠ 0) → byteAt mem (p + n) = 0 →
      ∀ fuel, n < fuel → strlen mem p fuel = some n := by
  induction n with
  | zero =>
    intro p _ hz fuel hf
    obtain ⟨f, rfl⟩ : ∃ f, fuel = f + 1 := ⟨fuel - 1, by omega⟩
    simp only [Nat.cast_zero, add_zero] at hz
    simp [strlen, hz]
  | succ n ih =>
    intro p hnz hz fuel hf
    obtain ⟨f, rfl⟩ : ∃ f, fuel = f + 1 := ⟨fuel - 1, by omega⟩
    have h0 := hnz 0 (by omega)
    simp only [Nat.cast_zero, add_zero] at h0
    have hrest : ∀ i : Nat, i < n → byteAt mem (p + 1 + i) ≠ 0 := by
      intro i hi
      have := hnz (i + 1) (by omega)
      rwa [show p + ((i + 1 : Nat) : Int) = p + 1 + i by push_cast; ring] at this
    have hz' : byteAt mem (p + 1 + n) = 0 := by
      rwa [show p + ((n + 1 : Nat) : Int) = p + 1 + n by push_cast; ring] at hz
    rw [strlen, if_neg h0, ih (p + 1) hrest hz' f (by omega)]
    rfl

set_option maxRecDepth 4000 in
theorem readHalfArrayLoop_items (hostLE : Bool) (n : Nat) :
    ∀ (s : BinaryReaderObject) (acc : List PyVal), s.err = none →
      (readHalfArrayLoop hostLE s n acc).2
        = some (PyObject.list (acc ++ (List.range n).map (fun (i : Nat) =>
            ArrayMethod.readHalfArray.element hostLE s (s.cur + i * 2)))) := by
  induction n with
  | zero =>
    intro s acc _
    simp [readHalfArrayLoop]
  | succ n ih =>
    intro s acc h
    have hf : ∀ x, halfFailed s.err x = false := by
      intro x
      simp [halfFailed, h]
    have hstep : ∀ i : Nat,
        ArrayMethod.readHalfArray.element hostLE { s with cur := s.cur + 2 } (s.cur + 2 + i * 2)
          = ArrayMethod.readHalfArray.element hostLE s (s.cur + ((i + 1 : Nat) : Int) * 2) := by
      intro i
      have e : s.cur + 2 + (i : Int) * 2 = s.cur + ((i + 1 : Nat) : Int) * 2 := by
        push_cast; ring
      rw [e]
      rfl
    have h0 : PyVal.float 16 (PyFloat_Unpack2 s.mem s.cur
        (decide ((if s.is_sys_endianess then 1 else 0) = IS_LITTLE_ENDIAN hostLE)))
          = ArrayMethod.readHalfArray.element hostLE s (s.cur + ((0 : Nat) : Int) * 2) := by
      have e : s.cur + ((0 : Nat) : Int) * 2 = s.cur := by simp
      rw [e]
      rfl
    rw [readHalfArrayLoop]
    simp only [hf, Bool.false_eq_true, if_false]
    rw [ih { s with cur := s.cur + 2 } _ h]
    rw [List.range_succ_eq_map]
    simp only [List.map_cons, List.map_map, List.append_assoc, List.singleton_append]
    rw [← h0]
    congr 4
    apply List.map_congr_left
    intro i _
    exact hstep i

theorem array_read_explicit_items (hostLE : Bool) (m : ArrayMethod) (r : BinaryReaderObject)
    (n : Int) (herr : r.err = none) (hn : 0 ≤ n) (hfit : n * m.width < 2 ^ 31)
    (hb : r.cur + n * m.width ≤ r.size) :
    ∃ obj, (m.call hostLE r (some n)).2 = some obj
      ∧ obj.items
        = (List.range n.toNat).map (fun (i : Nat) => m.element hostLE r (r.cur + i * m.width)) := by
  have hw : 1 ≤ (m.width : Int) := by cases m <;> simp [ArrayMethod.width]
  have hnw : n ≤ n * m.width := by nlinarith
  have h0 : 0 ≤ n * (m.width : Int) := by nlinarith
  have hl := readArrayLength_explicit hostLE r n m.width (by norm_num; omega) (by omega)
    (by norm_num; omega) hfit hb
  have hneg : ¬ n < 0 := by omega
  cases m <;>
    simp only [ArrayMethod.call, ArrayMethod.width, BinaryReader__readBoolArray,
      BinaryReader__readInt8Array, BinaryReader__readUInt8Array, BinaryReader__readArray,
      BinaryReader__readHalfArray, NumType.TYPE_SIZE_BYTE, NumType.TYPE_SIZE_BIT, PyList_New,
      PyByteArray_FromStringAndSize, Nat.cast_ofNat, Nat.cast_one] at hl ⊢ <;>
    simp only [hl, hneg, if_false] <;>
    first
    | (refine ⟨_, readHalfArrayLoop_items hostLE n.toNat r [] herr, ?_⟩
       simp only [PyObject.items, List.nil_append])
    | (refine ⟨_, rfl, ?_⟩
       simp only [PyObject.items, ArrayMethod.element, BinaryReader_convertEndian, List.map_map]
       apply List.map_congr_left
       intro i _
       first
       | (simp only [Function.comp, mul_one])
       | (split_ifs <;> rfl))

theorem array_read_explicit_full (hostLE : Bool) (m : ArrayMethod) (r : BinaryReaderObject)
    (n : Int) (herr : r.err = none) (hn : 0 ≤ n) (hfit : n * m.width < 2 ^ 31)
    (hb : r.cur + n * m.width ≤ r.size) :
    (m.call hostLE r (some n)).1.err = none
      ∧ (∃ obj, (m.call hostLE r (some n)).2 = some obj ∧ (obj.len : Int) = n
          ∧ obj.items = (List.range n.toNat).map
              (fun (i : Nat) => m.element hostLE r (r.cur + i * m.width)))
      ∧ (m.call hostLE r (some n)).1.cur = r.cur + n * m.width := by
  obtain ⟨h1, ⟨obj, h2, h3⟩, h4⟩ := array_read_explicit_ok hostLE m r n herr hn hfit hb
  obtain ⟨obj2, h5, h6⟩ := array_read_explicit_items hostLE m r n herr hn hfit hb
  rw [h2] at h5
  have hobj : obj = obj2 := Option.some.inj h5
  subst hobj
  exact ⟨h1, ⟨obj, h2, h3, h6⟩, h4⟩

theorem element_cur_irrelevant (hostLE : Bool) (m : ArrayMethod) (r : BinaryReaderObject)
    (c a : Int) : m.element hostLE { r with cur := c } a = m.element hostLE r a := by
  cases m <;> rfl

theorem readStringC_result (r : BinaryReaderObject) (n : Nat) (cps : List Nat)
    (hnz : ∀ i : Nat, i < n → byteAt r.mem (r.cur + i) ≠ 0)
    (hz : byteAt r.mem (r.cur + n) = 0)
    (htext : utf8Decode ((List.range n).map (fun (i : Nat) => byteAt r.mem (r.cur + i))) = some cps)
    (fuel : Nat) (hfuel : n < fuel) :
    BinaryReader__readStringNullTerminated fuel r
      = some ({ r with cur := r.cur + (cps.length + 1) }, some (PyObject.scalar (PyVal.str cps))) := by
  simp only [BinaryReader__readStringNullTerminated,
    strlen_of_first_zero r.mem n r.cur hnz hz fuel hfuel, htext]

theorem utf8Decode_cons (b : Nat) (rest : List Nat) :
    utf8Decode (b :: rest) = 
    if b < 0x80 then
      (utf8Decode rest).map (fun cps => b :: cps)
    else if 0xC2 ≤ b ∧ b ≤ 0xDF then
      match rest with
      | b1 :: rest1 =>
        if isCont b1 then
          (utf8Decode rest1).map (fun cps => (b % 32 * 64 + b1 % 64) :: cps)
        else none
      | _ => none
    else if 0xE0 ≤ b ∧ b ≤ 0xEF then
      match rest with
      | b1 :: b2 :: rest2 =>
        if (if b = 0xE0 then 0xA0 else 0x80) ≤ b1 ∧ b1 ≤ (if b = 0xED then 0x9F else 0xBF)
            ∧ isCont b2 then
          (utf8Decode rest2).map (fun cps => (b % 16 * 4096 + b1 % 64 * 64 + b2 % 64) :: cps)
        else none
      | _ => none
    else if 0xF0 ≤ b ∧ b ≤ 0xF4 then
      match rest with
      | b1 :: b2 :: b3 :: rest3 =>
        if (if b = 0xF0 then 0x90 else 0x80) ≤ b1 ∧ b1 ≤ (if b = 0xF4 then 0x8F else 0xBF)
            ∧ isCont b2 ∧ isCont b3 then
          (utf8Decode rest3).map
            (fun cps => (b % 8 * 262144 + b1 % 64 * 4096 + b2 % 64 * 64 + b3 % 64) :: cps)
        else none
      | _ => none
    else none := by
  cases rest with
  | nil => rfl
  | cons b1 r1 =>
    cases r1 with
    | nil => rfl
    | cons b2 r2 =>
      cases r2 with
      | nil => rfl
      | cons b3 r3 => rfl

theorem utf8Decode_ascii (l : List Nat) (h : ∀ b ∈ l, b < 128) : utf8Decode l = some l := by
  induction l with
  | nil => rfl
  | cons b rest ih =>
    have hb : b < 0x80 := h b (List.mem_cons_self _ _)
    have hr := ih (fun x hx => h x (List.mem_cons_of_mem _ hx))
    rw [utf8Decode_cons, if_pos hb, hr]
    rfl

theorem readString_resolved (hostLE : Bool) (r : BinaryReaderObject) (args : Option Int)
    (hn : 0 ≤ (BinaryReader__readArrayLength hostLE r args 1).2) :
    (BinaryReader__readStringLengthDelimited hostLE r args).1.cur
        = (BinaryReader__readArrayLength hostLE r args 1).1.cur
          + (BinaryReader__readArrayLength hostLE r args 1).2
      ∧ (BinaryReader__readStringLengthDelimited hostLE r args).2
        = (utf8Decode ((List.range (BinaryReader__readArrayLength hostLE r args 1).2.toNat).map
            (fun (i : Nat) => byteAt (BinaryReader__readArrayLength hostLE r args 1).1.mem
              ((BinaryReader__readArrayLength hostLE r args 1).1.cur + i)))).map
            (fun cps => PyObject.scalar (PyVal.str cps)) := by
  have hneg : ¬ (BinaryReader__readArrayLength hostLE r args 1).2 < 0 := by omega
  simp only [BinaryReader__readStringLengthDelimited, PyUnicode_FromStringAndSize, hneg, if_false]
  refine ⟨trivial, ?_⟩
  cases utf8Decode ((List.range (BinaryReader__readArrayLength hostLE r args 1).2.toNat).map
      (fun (i : Nat) => byteAt (BinaryReader__readArrayLength hostLE r args 1).1.mem
        ((BinaryReader__readArrayLength hostLE r args 1).1.cur + i))) <;> rfl

theorem readArrayLength_frame (hostLE : Bool) (r : BinaryReaderObject) (args : Option Int)
    (w : Int) :
    (BinaryReader__readArrayLength hostLE r args w).1.mem = r.mem
      ∧ (BinaryReader__readArrayLength hostLE r args w).1.size = r.size
      ∧ (BinaryReader__readArrayLength hostLE r args w).1.is_sys_endianess = r.is_sys_endianess := by
  cases args <;>
    simp only [BinaryReader__readArrayLength, BinaryReader_checkReadLength] <;>
    split_ifs <;> exact ⟨rfl, rfl, rfl⟩

theorem tmod_four_neg (c : Int) (h : c < 0) : Int.tmod c 4 = -((-c) % 4) := by
  obtain ⟨k, rfl⟩ : ∃ k : Nat, c = Int.negSucc k := Int.eq_negSucc_of_lt_zero h
  have e : Int.tmod (Int.negSucc k) 4 = -(((k + 1) % 4 : Nat) : Int) := rfl
  rw [e, Int.neg_negSucc]
  push_cast
  rfl

theorem alignC_four (r : BinaryReaderObject) :
    4 ∣ (BinaryReader__alignC r 4).cur ∧ r.cur ≤ (BinaryReader__alignC r 4).cur
      ∧ (BinaryReader__alignC r 4).cur ≤ r.cur + 3 := by
  simp only [BinaryReader__alignC]
  rcases le_or_lt 0 r.cur with h | h
  · rw [Int.tmod_eq_emod h (by decide), Int.tmod_eq_emod (by omega) (by decide)]
    omega
  · rw [tmod_four_neg r.cur h, Int.tmod_eq_emod (by omega) (by decide)]
    omega

theorem alignC_frame (r : BinaryReaderObject) (s : Int) :
    (BinaryReader__alignC r s).mem = r.mem ∧ (BinaryReader__alignC r s).size = r.size
      ∧ (BinaryReader__alignC r s).is_sys_endianess = r.is_sys_endianess
      ∧ (BinaryReader__alignC r s).err = r.err :=
  ⟨rfl, rfl, rfl, rfl⟩

theorem alignC_cur (r : BinaryReaderObject) (s : Int) (hs : 1 ≤ s) (hc : 0 ≤ r.cur) :
    (BinaryReader__alignC r s).cur = r.cur + (s - r.cur % s) % s := by
  have ht := Int.emod_lt_of_pos r.cur (show (0 : Int) < s by omega)
  simp only [BinaryReader__alignC]
  rw [Int.tmod_eq_emod hc (by omega), Int.tmod_eq_emod (by omega) (by omega)]

theorem align_up_spec (c s : Int) (hs : 1 ≤ s) :
    s ∣ c + (s - c % s) % s ∧ c ≤ c + (s - c % s) % s
      ∧ (∀ m : Int, s ∣ m → c ≤ m → c + (s - c % s) % s ≤ m)
      ∧ (s ∣ c → (s - c % s) % s = 0) := by
  have hpos : (0 : Int) < s := by omega
  have ht := Int.emod_lt_of_pos c hpos
  have ht0 := Int.emod_nonneg c (ne_of_gt hpos)
  have hdiv := Int.emod_add_ediv c s
  rcases eq_or_lt_of_le ht0 with h0 | h0
  · have hz : c % s = 0 := h0.symm
    have hpad : (s - c % s) % s = 0 := by rw [hz]; simp
    rw [hpad]
    refine ⟨?_, by omega, ?_, fun _ => rfl⟩
    · rw [add_zero]; exact Int.dvd_of_emod_eq_zero hz
    · intro m _ hm; omega
  · have hpad : (s - c % s) % s = s - c % s := Int.emod_eq_of_lt (by omega) (by omega)
    rw [hpad]
    refine ⟨?_, by omega, ?_, ?_⟩
    · refine ⟨c / s + 1, ?_⟩
      have : s * (c / s + 1) = s * (c / s) + s := by ring
      omega
    · intro m hm hcm
      obtain ⟨k, rfl⟩ := hm
      have h1 : s * (c / s) < s * k := by omega
      have h2 : c / s < k := lt_of_mul_lt_mul_left h1 (le_of_lt hpos)
      have h3 : s * (c / s + 1) ≤ s * k := Int.mul_le_mul_of_nonneg_left (by omega) (le_of_lt hpos)
      have : s * (c / s + 1) = s * (c / s) + s := by ring
      omega
    · intro hd
      have := Int.emod_eq_zero_of_dvd hd
      omega

theorem or8_eq_add (e0 e1 e2 e3 e4 e5 e6 e7 : Nat) (h0 : e0 < 2) (h1 : e1 < 2) (h2 : e2 < 2)
    (h3 : e3 < 2) (h4 : e4 < 2) (h5 : e5 < 2) (h6 : e6 < 2) (h7 : e7 < 2) :
    (e0 * 2 ^ 7) ||| (e1 * 2 ^ 6) ||| (e2 * 2 ^ 5) ||| (e3 * 2 ^ 4) ||| (e4 * 2 ^ 3)
        ||| (e5 * 2 ^ 2) ||| (e6 * 2 ^ 1) ||| (e7 * 1)
      = e0 * 128 + e1 * 64 + e2 * 32 + e3 * 16 + e4 * 8 + e5 * 4 + e6 * 2 + e7 := by
  interval_cases e0 <;> interval_cases e1 <;> interval_cases e2 <;> interval_cases e3 <;>
    interval_cases e4 <;> interval_cases e5 <;> interval_cases e6 <;> interval_cases e7 <;> rfl

theorem lsbByte_arith (first : Bool) (tmp : Nat) :
    lsbByte first tmp
      = if first then
          tmp % 2 * 128 + tmp / 2 ^ 8 % 2 * 64 + tmp / 2 ^ 16 % 2 * 32 + tmp / 2 ^ 24 % 2 * 16
            + tmp / 2 ^ 32 % 2 * 8 + tmp / 2 ^ 40 % 2 * 4 + tmp / 2 ^ 48 % 2 * 2 + tmp / 2 ^ 56 % 2
        else
          tmp / 2 ^ 56 % 2 * 128 + tmp / 2 ^ 48 % 2 * 64 + tmp / 2 ^ 40 % 2 * 32
            + tmp / 2 ^ 32 % 2 * 16 + tmp / 2 ^ 24 % 2 * 8 + tmp / 2 ^ 16 % 2 * 4
            + tmp / 2 ^ 8 % 2 * 2 + tmp % 2 := by
  have hb : ∀ x : Nat, x % 2 < 2 := fun x => Nat.mod_lt _ (by decide)
  cases first
  · simp only [lsbByte, Bool.false_eq_true, if_false, Nat.shiftRight_eq_div_pow,
      Nat.and_one_is_mod, Nat.shiftLeft_eq, Nat.mul_zero, pow_zero, Nat.div_one, Nat.reduceMul]
    rw [or8_eq_add _ _ _ _ _ _ _ _ (hb _) (hb _) (hb _) (hb _) (hb _) (hb _) (hb _) (hb _)]
  · simp only [lsbByte, if_true, Nat.shiftRight_eq_div_pow,
      Nat.and_one_is_mod, Nat.shiftLeft_eq, Nat.mul_zero, pow_zero, Nat.div_one, Nat.reduceMul]
    rw [or8_eq_add _ _ _ _ _ _ _ _ (hb _) (hb _) (hb _) (hb _) (hb _) (hb _) (hb _) (hb _)]

theorem loadLE_eight (mem : Int → Nat) (a : Int) :
    loadLE mem a 8 = byteAt mem a + 256 * (byteAt mem (a + 1) + 256 * (byteAt mem (a + 2)
      + 256 * (byteAt mem (a + 3) + 256 * (byteAt mem (a + 4) + 256 * (byteAt mem (a + 5)
      + 256 * (byteAt mem (a + 6) + 256 * byteAt mem (a + 7))))))) := by
  simp only [loadLE, Nat.mul_zero, Nat.add_zero, add_assoc]
  norm_num

theorem loadBE_eight (mem : Int → Nat) (a : Int) :
    loadBE mem a 8 = byteAt mem (a + 7) + 256 * (byteAt mem (a + 6) + 256 * (byteAt mem (a + 5)
      + 256 * (byteAt mem (a + 4) + 256 * (byteAt mem (a + 3) + 256 * (byteAt mem (a + 2)
      + 256 * (byteAt mem (a + 1) + 256 * byteAt mem a)))))) := by
  simp only [loadBE, Nat.add_zero, add_assoc]
  norm_num
  ring

theorem lsb_digits (b0 b1 b2 b3 b4 b5 b6 b7 : Nat) (h0 : b0 < 256) (h1 : b1 < 256)
    (h2 : b2 < 256) (h3 : b3 < 256) (h4 : b4 < 256) (h5 : b5 < 256) (h6 : b6 < 256)
    (first : Bool) :
    lsbByte first (b0 + 256 * (b1 + 256 * (b2 + 256 * (b3 + 256 * (b4 + 256 * (b5
        + 256 * (b6 + 256 * b7)))))))
      = if first then
          b0 % 2 * 128 + b1 % 2 * 64 + b2 % 2 * 32 + b3 % 2 * 16 + b4 % 2 * 8 + b5 % 2 * 4
            + b6 % 2 * 2 + b7 % 2
        else
          b7 % 2 * 128 + b6 % 2 * 64 + b5 % 2 * 32 + b4 % 2 * 16 + b3 % 2 * 8 + b2 % 2 * 4
            + b1 % 2 * 2 + b0 % 2 := by
  have p8 : (2:Nat) ^ 8 = 256 := by norm_num
  have p16 : (2:Nat) ^ 16 = 256 * 256 := by norm_num
  have p24 : (2:Nat) ^ 24 = 256 * 256 * 256 := by norm_num
  have p32 : (2:Nat) ^ 32 = 256 * 256 * 256 * 256 := by norm_num
  have p40 : (2:Nat) ^ 40 = 256 * 256 * 256 * 256 * 256 := by norm_num
  have p48 : (2:Nat) ^ 48 = 256 * 256 * 256 * 256 * 256 * 256 := by norm_num
  have p56 : (2:Nat) ^ 56 = 256 * 256 * 256 * 256 * 256 * 256 * 256 := by norm_num
  have hm : ∀ b y : Nat, (b + 256 * y) % 2 = b % 2 := by intro b y; omega
  rw [lsbByte_arith, p56, p48, p40, p32, p24, p16, p8]
  simp only [← Nat.div_div_eq_div_mul, digit_div, hm, h0, h1, h2, h3, h4, h5, h6]

theorem lsb_group (hostLE sys : Bool) (mem : Int → Nat) (a : Int) :
    lsbByte (decide ((if sys then 1 else 0) = IS_LITTLE_ENDIAN hostLE)) (load hostLE mem a 8) % 256
      = if sys then
          byteAt mem a % 2 * 128 + byteAt mem (a + 1) % 2 * 64 + byteAt mem (a + 2) % 2 * 32
            + byteAt mem (a + 3) % 2 * 16 + byteAt mem (a + 4) % 2 * 8 + byteAt mem (a + 5) % 2 * 4
            + byteAt mem (a + 6) % 2 * 2 + byteAt mem (a + 7) % 2
        else
          byteAt mem (a + 7) % 2 * 128 + byteAt mem (a + 6) % 2 * 64 + byteAt mem (a + 5) % 2 * 32
            + byteAt mem (a + 4) % 2 * 16 + byteAt mem (a + 3) % 2 * 8 + byteAt mem (a + 2) % 2 * 4
            + byteAt mem (a + 1) % 2 * 2 + byteAt mem a % 2 := by
  have hb : ∀ x : Int, byteAt mem x < 256 := fun x => byteAt_lt mem x
  cases hostLE <;> cases sys <;>
    simp only [load, IS_LITTLE_ENDIAN, loadLE_eight, loadBE_eight, lsb_digits _ _ _ _ _ _ _ _
      (hb _) (hb _) (hb _) (hb _) (hb _) (hb _) (hb _), if_true, if_false, Bool.false_eq_true,
      decide_True, decide_False, zero_ne_one, one_ne_zero] <;>
    omega

theorem wrapInt64_toUnsigned (x : Int) (h1 : -2 ^ 63 ≤ x) (h2 : x < 2 ^ 63) :
    wrapInt64 (toUnsigned 64 x) = x := by
  unfold wrapInt64 toUnsigned
  have h0 : (0 : Int) ≤ x % 2 ^ 64 := Int.emod_nonneg x (by norm_num)
  rw [Int.toNat_of_nonneg h0]
  norm_num at h1 h2 ⊢
  omega

theorem toUnsigned_64_nonneg (x : Int) (h1 : 0 ≤ x) (h2 : x < 2 ^ 64) :
    toUnsigned 64 x = x.toNat := by
  unfold toUnsigned
  rw [Int.emod_eq_of_lt h1 h2]

theorem lsb_group_sum (hostLE sys : Bool) (mem : Int → Nat) (a : Int) :
    lsbByte (decide ((if sys then 1 else 0) = IS_LITTLE_ENDIAN hostLE)) (load hostLE mem a 8) % 256
      = ∑ i in Finset.range 8, byteAt mem (a + i) % 2 * 2 ^ (if sys then 7 - i else i) := by
  rw [lsb_group]
  cases sys
  all_goals
    simp only [Finset.sum_range_succ, Finset.sum_range_zero, if_true, if_false,
      Bool.false_eq_true, Nat.cast_zero, Nat.cast_one, Nat.cast_ofNat, add_zero, zero_add,
      Nat.reduceSub, Nat.reducePow, pow_zero, pow_one, mul_one]
    try ring

theorem lsb_sum_testBit (e : Nat → Nat) (sys : Bool) (i : Nat) (hi : i < 8) :
    (∑ m in Finset.range 8, e m % 2 * 2 ^ (if sys then 7 - m else m)).testBit
        (if sys then 7 - i else i) = decide (e i % 2 = 1) := by
  have h0 : e 0 % 2 < 2 := Nat.mod_lt _ (by decide)
  have h1 : e 1 % 2 < 2 := Nat.mod_lt _ (by decide)
  have h2 : e 2 % 2 < 2 := Nat.mod_lt _ (by decide)
  have h3 : e 3 % 2 < 2 := Nat.mod_lt _ (by decide)
  have h4 : e 4 % 2 < 2 := Nat.mod_lt _ (by decide)
  have h5 : e 5 % 2 < 2 := Nat.mod_lt _ (by decide)
  have h6 : e 6 % 2 < 2 := Nat.mod_lt _ (by decide)
  have h7 : e 7 % 2 < 2 := Nat.mod_lt _ (by decide)
  cases sys <;> interval_cases i <;>
    simp only [Finset.sum_range_succ, Finset.sum_range_zero, if_true, if_false,
      Bool.false_eq_true, zero_add, Nat.reduceSub, Nat.reducePow, pow_zero, pow_one, mul_one,
      Nat.testBit_to_div_mod, Nat.div_one, decide_eq_decide] <;>
    omega

theorem lsb_sum_lt (e : Nat → Nat) (sys : Bool) :
    (∑ m in Finset.range 8, e m % 2 * 2 ^ (if sys then 7 - m else m)) < 256 := by
  cases sys <;>
    simp only [Finset.sum_range_succ, Finset.sum_range_zero, if_true, if_false,
      Bool.false_eq_true, zero_add, Nat.reduceSub, Nat.reducePow, pow_zero, pow_one, mul_one] <;>
    omega

theorem high_bit_iff (b : Nat) (hb : b < 256) : b &&& 0x80 ≠ 0 ↔ 128 ≤ b := by
  interval_cases b <;> decide

theorem readVarIntLoop_consumes (n : Nat) :
    ∀ (r : BinaryReaderObject) (value : Int) (shift : Nat),
      (∀ i : Nat, i < n → 128 ≤ byteAt r.mem (r.cur + i)) →
      byteAt r.mem (r.cur + n) < 128 →
      r.cur + n < r.size →
      ∀ fuel, n < fuel →
        ∃ v, readVarIntLoop r value shift fuel = some ({ r with cur := r.cur + n + 1 }, v) := by
  induction n with
  | zero =>
    intro r value shift _ hlast hin fuel hfuel
    obtain ⟨f, rfl⟩ : ∃ f, fuel = f + 1 := ⟨fuel - 1, by omega⟩
    have hc : BinaryReader_checkReadLength r 1 = (r, 0) := by
      unfold BinaryReader_checkReadLength
      rw [if_neg (by push_cast at hin; omega)]
    have hbit : ¬ (byteAt r.mem r.cur &&& 0x80 ≠ 0) := by
      rw [high_bit_iff _ (byteAt_lt _ _)]
      simpa using hlast
    rw [readVarIntLoop]
    simp only [hc, hbit, if_false]
    exact ⟨orInt64 value (shlInt (byteAt r.mem r.cur &&& 0x7F) shift), by simp⟩
  | succ n ih =>
    intro r value shift hcont hlast hin fuel hfuel
    obtain ⟨f, rfl⟩ : ∃ f, fuel = f + 1 := ⟨fuel - 1, by omega⟩
    have hc : BinaryReader_checkReadLength r 1 = (r, 0) := by
      unfold BinaryReader_checkReadLength
      rw [if_neg (by push_cast at hin; omega)]
    have hbit : byteAt r.mem r.cur &&& 0x80 ≠ 0 := by
      rw [high_bit_iff _ (byteAt_lt _ _)]
      simpa using hcont 0 (by omega)
    rw [readVarIntLoop]
    simp only [hc, hbit, if_true, ne_eq, not_false_eq_true]
    obtain ⟨v, hv⟩ := ih { r with cur := r.cur + 1 }
      (orInt64 value (shlInt (byteAt r.mem r.cur &&& 0x7F) shift)) (shift + 7)
      (by
        intro i hi
        have := hcont (i + 1) (by omega)
        have e : r.cur + 1 + (i : Int) = r.cur + ((i + 1 : Nat) : Int) := by push_cast; ring
        simpa [e] using this)
      (by
        have e : r.cur + 1 + (n : Int) = r.cur + ((n + 1 : Nat) : Int) := by push_cast; ring
        simpa [e] using hlast)
      (by
        show r.cur + 1 + (n : Int) < r.size
        push_cast at hin
        omega) f (by omega)
    refine ⟨v, ?_⟩
    rw [hv]
    have e : r.cur + 1 + (n : Int) + 1 = r.cur + ((n + 1 : Nat) : Int) + 1 := by push_cast; ring
    simp only [e]

theorem successiveReads_cur (hostLE : Bool) (t : NumType) (n : Nat) :
    ∀ r : BinaryReaderObject,
      (successiveReads (BinaryReader__read hostLE t) n r).1.cur = r.cur + n * t.TYPE_SIZE_BYTE
        ∧ (successiveReads (BinaryReader__read hostLE t) n r).2.length = n := by
  induction n with
  | zero => intro r; simp [successiveReads]
  | succ n ih =>
    intro r
    obtain ⟨h1, h2⟩ := ih (BinaryReader__read hostLE t r).1
    have hc : (BinaryReader__read hostLE t r).1.cur = r.cur + t.TYPE_SIZE_BYTE := by
      unfold BinaryReader__read BinaryReader_checkReadLength
      split_ifs <;> rfl
    simp only [successiveReads, h1, h2, hc, List.length_cons, and_true]
    push_cast
    ring

theorem successiveReads_in_bounds (hostLE : Bool) (t : NumType) (n : Nat) :
    ∀ r : BinaryReaderObject, r.cur + (n : Int) * t.TYPE_SIZE_BYTE ≤ r.size →
      successiveReads (BinaryReader__read hostLE t) n r
        = ({ r with cur := r.cur + (n : Int) * t.TYPE_SIZE_BYTE },
            (List.range n).map (fun (i : Nat) => some (PyObject.scalar (t.box
              (BinaryReader_convertEndian t.TYPE_SIZE_BIT r
                (load hostLE r.mem (r.cur + (i : Int) * t.TYPE_SIZE_BYTE) t.TYPE_SIZE_BYTE)))))) := by
  induction n with
  | zero => intro r _; simp [successiveReads]
  | succ n ih =>
    intro r hb
    have hw : (0 : Int) ≤ (n : Int) * t.TYPE_SIZE_BYTE := by positivity
    have hr := read_in_bounds hostLE t r (by push_cast at hb; nlinarith)
    have hi := ih { r with cur := r.cur + t.TYPE_SIZE_BYTE } (by
      show r.cur + t.TYPE_SIZE_BYTE + (n : Int) * t.TYPE_SIZE_BYTE ≤ r.size
      push_cast at hb
      nlinarith)
    simp only [successiveReads, hr, hi]
    refine Prod.ext ?_ ?_
    · show ({ r with cur := r.cur + t.TYPE_SIZE_BYTE + (n : Int) * t.TYPE_SIZE_BYTE } : BinaryReaderObject)
        = { r with cur := r.cur + ((n + 1 : Nat) : Int) * t.TYPE_SIZE_BYTE }
      have e : r.cur + t.TYPE_SIZE_BYTE + (n : Int) * t.TYPE_SIZE_BYTE
          = r.cur + ((n + 1 : Nat) : Int) * t.TYPE_SIZE_BYTE := by push_cast; ring
      rw [e]
    · rw [List.range_succ_eq_map, List.map_cons, List.map_map]
      simp only [Nat.cast_zero, zero_mul, add_zero, BinaryReader_convertEndian]
      refine congrArg (List.cons _) ?_
      apply List.map_congr_left
      intro i _
      simp only [Function.comp]
      have e : r.cur + t.TYPE_SIZE_BYTE + (i : Int) * t.TYPE_SIZE_BYTE
          = r.cur + ((i + 1 : Nat) : Int) * t.TYPE_SIZE_BYTE := by push_cast; ring
      rw [e]

theorem readArray_explicit (hostLE : Bool) (t : NumType) (r : BinaryReaderObject) (n : Nat)
    (hfit : (n : Int) * t.TYPE_SIZE_BYTE < 2 ^ 31)
    (hb : r.cur + (n : Int) * t.TYPE_SIZE_BYTE ≤ r.size) :
    BinaryReader__readArray hostLE t r (some (n : Int))
      = ({ r with cur := r.cur + (n : Int) * t.TYPE_SIZE_BYTE },
          some (PyObject.list ((List.range n).map (fun (i : Nat) => t.box
            (BinaryReader_convertEndian t.TYPE_SIZE_BIT r
              (load hostLE r.mem (r.cur + (i : Int) * t.TYPE_SIZE_BYTE) t.TYPE_SIZE_BYTE)))))) := by
  have hw : 1 ≤ (t.TYPE_SIZE_BYTE : Int) := by cases t <;> simp [NumType.TYPE_SIZE_BYTE]
  have hn0 : (0 : Int) ≤ n := Int.natCast_nonneg n
  have hnw : (n : Int) ≤ n * t.TYPE_SIZE_BYTE := by nlinarith
  have hl := readArrayLength_explicit hostLE r n t.TYPE_SIZE_BYTE (by norm_num; omega) (by omega)
    (by norm_num; nlinarith) hfit hb
  have hneg : ¬ (n : Int) < 0 := by omega
  have hwrap : wrapInt32 ((t.TYPE_SIZE_BYTE : Int) * n) = (n : Int) * t.TYPE_SIZE_BYTE := by
    rw [mul_comm]
    exact wrapInt32_eq _ (by norm_num; nlinarith) hfit
  simp only [BinaryReader__readArray, hl, PyList_New, hneg, if_false, hwrap, Int.toNat_ofNat,
    BinaryReader_convertEndian]
  refine Prod.ext rfl ?_
  refine congrArg (fun l => some (PyObject.list l)) ?_
  apply List.map_congr_left
  intro i _
  split_ifs <;> rfl

theorem scalar_read_advances (hostLE : Bool) (m : ScalarMethod) (r : BinaryReaderObject) :
    (m.call hostLE r).1.cur = r.cur + m.width
      ∧ (m.call hostLE r).1.size = r.size := by
  cases m <;>
    simp only [ScalarMethod.call, ScalarMethod.width, BinaryReader__readBool,
      BinaryReader__readInt8, BinaryReader__readUInt8, BinaryReader__read,
      BinaryReader_checkReadLength, NumType.TYPE_SIZE_BYTE] <;>
    split_ifs <;> exact ⟨rfl, rfl⟩

theorem checkReadLength_spec (r : BinaryReaderObject) (n : Int) :
    ((BinaryReader_checkReadLength r n).2 ≠ 0 ↔ r.cur + n > r.size)
      ∧ (r.cur + n > r.size →
          BinaryReader_checkReadLength r n = ({ r with err := some PyExc.ValueError }, 1))
      ∧ (r.cur + n ≤ r.size → BinaryReader_checkReadLength r n = (r, 0))
      ∧ (BinaryReader_checkReadLength r n).1.cur = r.cur
      ∧ (BinaryReader_checkReadLength r n).1.size = r.size
      ∧ (BinaryReader_checkReadLength r n).1.mem = r.mem
      ∧ (BinaryReader_checkReadLength r n).1.is_sys_endianess = r.is_sys_endianess := by
  unfold BinaryReader_checkReadLength
  by_cases h : r.cur + n > r.size
  · rw [if_pos h]
    exact ⟨⟨fun _ => h, fun _ => one_ne_zero⟩, fun _ => rfl, fun h2 => absurd h (by omega),
      rfl, rfl, rfl, rfl⟩
  · rw [if_neg h]
    exact ⟨⟨fun h2 => absurd rfl h2, fun h2 => absurd h2 h⟩, fun h2 => absurd h2 h, fun _ => rfl,
      rfl, rfl, rfl, rfl⟩

theorem ptr_eq (data : Nat) (off : Int) (h0 : 0 ≤ (data : Int) + off)
    (h1 : (data : Int) + off < 2 ^ 64) : ((ptr data off : Nat) : Int) = data + off := by
  unfold ptr toUnsigned
  rw [Int.emod_eq_of_lt h0 h1, Int.toNat_of_nonneg h0]

theorem checkReadLength_ptr_eq (data : Nat) (r : BinaryReaderObject) (n : Int)
    (h0 : 0 ≤ (data : Int) + r.cur + n) (h1 : (data : Int) + r.cur + n < 2 ^ 64)
    (h2 : 0 ≤ r.size) (h3 : (data : Int) + r.size < 2 ^ 64) :
    BinaryReader_checkReadLength_ptr data r n = BinaryReader_checkReadLength r n := by
  have e1 := ptr_eq data (r.cur + n) (by omega) (by omega)
  have e2 := ptr_eq data r.size (by omega) h3
  have hiff : (ptr data (r.cur + n) > ptr data r.size) ↔ (r.cur + n > r.size) := by
    constructor
    · intro h
      have h' : ((ptr data r.size : Nat) : Int) < (ptr data (r.cur + n) : Nat) := by exact_mod_cast h
      omega
    · intro h
      have h' : ((ptr data r.size : Nat) : Int) < (ptr data (r.cur + n) : Nat) := by omega
      exact_mod_cast h'
  unfold BinaryReader_checkReadLength_ptr BinaryReader_checkReadLength
  by_cases h : r.cur + n > r.size
  · rw [if_pos h, if_pos (hiff.mpr h)]
  · rw [if_neg h, if_neg (fun hp => h (hiff.mp hp))]

theorem readLSBBody_spec (hostLE : Bool) (avail : Nat) (block : Nat → Nat)
    (self : BinaryReaderObject) (n : Nat) (ha : n / 8 ≤ avail) (hn : n / 8 < 2 ^ 63) :
    ∃ out, readLSBBody hostLE avail block self n
        = some ({ self with cur := self.cur + (n / 8 * 8 % 2 ^ 64 : Nat) },
            some (PyObject.bytes out))
      ∧ out.length = n / 8
      ∧ ∀ j, j < n / 8 → out.getD j 0 =
          if j < 2 ^ 31 then
            lsbByte (decide ((if self.is_sys_endianess then 1 else 0) = IS_LITTLE_ENDIAN hostLE))
              (load hostLE self.mem (self.cur + 8 * j) 8) % 256
          else block j % 256 := by
  have hm : PyMem_Malloc avail (n / 8) = true := by
    unfold PyMem_Malloc
    rw [decide_eq_true hn, decide_eq_true ha]
    rfl
  unfold readLSBBody
  simp only [hm, if_true]
  refine ⟨_, rfl, by simp, ?_⟩
  intro j hj
  rw [List.getD_eq_getElem?_getD, List.getElem?_map, List.getElem?_range hj]
  rfl

theorem readLSBBody_dies (hostLE : Bool) (avail : Nat) (block : Nat → Nat)
    (self : BinaryReaderObject) (n : Nat) (ha : avail < n / 8) :
    readLSBBody hostLE avail block self n = none := by
  have hm : PyMem_Malloc avail (n / 8) = false := by
    simp [PyMem_Malloc, ha]
  simp [readLSBBody, hm]

theorem readLSB_explicit (hostLE : Bool) (data avail : Nat) (block : Nat → Nat)
    (r : BinaryReaderObject) (n : Int) (h1 : -2 ^ 63 ≤ n) (h2 : n < 2 ^ 63) :
    BinaryReader__readLSB hostLE data avail block r (some n)
      = if (BinaryReader_checkReadLength_ptr data r n).2 ≠ 0 then
          some ((BinaryReader_checkReadLength_ptr data r n).1, none)
        else readLSBBody hostLE avail block (BinaryReader_checkReadLength_ptr data r n).1
          (toUnsigned 64 n) := by
  have hl : PyLong_AsLong r.err n = (r.err, n) := by
    unfold PyLong_AsLong
    rw [if_pos ⟨h1, h2⟩]
  simp only [BinaryReader__readLSB, hl, wrapInt64_toUnsigned n h1 h2]

theorem readLSB_resolved (hostLE : Bool) (data avail : Nat) (block : Nat → Nat)
    (r : BinaryReaderObject) (args : Option Int) (n : Nat) (hcur : 0 ≤ r.cur)
    (hsize : r.size < 2 ^ 63) (hdata : (data : Int) + r.size < 2 ^ 64)
    (hargs : (args = some (n : Int) ∧ r.cur + n ≤ r.size)
      ∨ (args = none ∧ r.size - r.cur = n)) :
    BinaryReader__readLSB hostLE data avail block r args = readLSBBody hostLE avail block r n := by
  have hn : (n : Int) < 2 ^ 63 := by rcases hargs with ⟨_, h⟩ | ⟨_, h⟩ <;> omega
  have hu : toUnsigned 64 (n : Int) = n := by
    rw [toUnsigned_64_nonneg _ (by omega) (by omega)]
    rfl
  rcases hargs with ⟨rfl, h⟩ | ⟨rfl, h⟩
  · have hc : BinaryReader_checkReadLength_ptr data r n = (r, 0) := by
      rw [checkReadLength_ptr_eq data r n (by omega) (by omega) (by omega) hdata]
      exact (checkReadLength_spec r n).2.2.1 h
    rw [readLSB_explicit _ _ _ _ _ _ (by omega) hn, hc, hu]
    simp
  · simp only [BinaryReader__readLSB, h, hu]

theorem readLSBBody_cur (hostLE : Bool) (avail : Nat) (block : Nat → Nat)
    (r : BinaryReaderObject) (n : Nat) (hn : (n : Int) < 2 ^ 63) (ha : (n : Int) / 8 ≤ avail) :
    ∃ out, readLSBBody hostLE avail block r n
        = some ({ r with cur := r.cur + 8 * ((n : Int) / 8) }, some (PyObject.bytes out))
      ∧ (out.length : Int) = (n : Int) / 8 := by
  have ha' : n / 8 ≤ avail := by omega
  have hn' : n / 8 < 2 ^ 63 := by
    have : n < 2 ^ 63 := by exact_mod_cast hn
    omega
  obtain ⟨out, e, hlen, _⟩ := readLSBBody_spec hostLE avail block r n ha' hn'
  have hc : ((n / 8 * 8 % 2 ^ 64 : Nat) : Int) = 8 * ((n : Int) / 8) := by
    push_cast
    norm_num at hn ⊢
    omega
  refine ⟨out, ?_, ?_⟩
  · rw [e, hc]
  · rw [hlen]
    push_cast
    rfl

/-! ### C1 — scalar reads past the end -/

/-- C1 (what the code does): for every scalar read of width `w` and every reader with
`cur + w > size`, the bounds check stores `ValueError` in the error indicator, but its
result is discarded: the function still returns an object and the cursor has advanced
by `w`. -/
theorem C1_scalar_read_past_end_proceeds (hostLE : Bool) (m : ScalarMethod)
    (r : BinaryReaderObject) (h : r.cur + m.width > r.size) :
    (m.call hostLE r).1.err = some PyExc.ValueError
      ∧ (m.call hostLE r).2.isSome = true
      ∧ (m.call hostLE r).1.cur = r.cur + m.width := by
  cases m <;>
    simp [ScalarMethod.width] at h <;>
    simp [ScalarMethod.call, ScalarMethod.width, BinaryReader__readBool, BinaryReader__readInt8,
      BinaryReader__readUInt8, BinaryReader__read, BinaryReader_checkReadLength,
      NumType.TYPE_SIZE_BYTE, h]

/-- C1 at a concrete input: `readUInt16` on the one-byte buffer `[0x2A]` at position 0
returns an object, leaves `ValueError` set and moves the cursor to 2. -/
theorem C1_scalar_read_past_end_witness :
    (BinaryReader_init true (memOf [42]) 1 1).cur + ScalarMethod.readUInt16.width
        > (BinaryReader_init true (memOf [42]) 1 1).size
      ∧ ((ScalarMethod.readUInt16.call true (BinaryReader_init true (memOf [42]) 1 1)).1.err
            = some PyExc.ValueError
          ∧ (ScalarMethod.readUInt16.call true (BinaryReader_init true (memOf [42]) 1 1)).2.isSome
            = true
          ∧ (ScalarMethod.readUInt16.call true (BinaryReader_init true (memOf [42]) 1 1)).1.cur
            = (BinaryReader_init true (memOf [42]) 1 1).cur + ScalarMethod.readUInt16.width) :=
  ⟨by decide, C1_scalar_read_past_end_proceeds true ScalarMethod.readUInt16 _ (by decide)⟩

/-! ### C2 — unsigned reads follow the declared byte order -/

/-- C2: on either host and for either declared byte order `d`, an in-bounds `readUInt16`,
`readUInt32` or `readUInt64` returns the sum of `b_i * 256^i` over the bytes at the cursor
when the source was declared little-endian and the sum of `b_i * 256^(w-1-i)` when it was
declared big-endian, advances the cursor by `w` and changes nothing else; the two values
are byte reversals of each other. -/
theorem C2_unsigned_read_declared_order (hostLE d : Bool) (t : NumType)
    (ht : t = NumType.uint16 ∨ t = NumType.uint32 ∨ t = NumType.uint64)
    (r : BinaryReaderObject)
    (hflag : r.is_sys_endianess
      = (BinaryReader_init hostLE r.mem r.size (if d then 1 else 0)).is_sys_endianess)
    (hb : r.cur + t.TYPE_SIZE_BYTE ≤ r.size) :
    BinaryReader__read hostLE t r
        = ({ r with cur := r.cur + t.TYPE_SIZE_BYTE },
           some (PyObject.scalar (PyVal.long
             (if d then
                ((∑ i in Finset.range t.TYPE_SIZE_BYTE, byteAt r.mem (r.cur + i) * 256 ^ i : Nat) : Int)
              else
                ((∑ i in Finset.range t.TYPE_SIZE_BYTE,
                  byteAt r.mem (r.cur + i) * 256 ^ (t.TYPE_SIZE_BYTE - 1 - i) : Nat) : Int)))))
      ∧ bswap t.TYPE_SIZE_BIT
          (∑ i in Finset.range t.TYPE_SIZE_BYTE, byteAt r.mem (r.cur + i) * 256 ^ i)
        = ∑ i in Finset.range t.TYPE_SIZE_BYTE,
            byteAt r.mem (r.cur + i) * 256 ^ (t.TYPE_SIZE_BYTE - 1 - i) := by
  rw [read_in_bounds hostLE t r hb, convertEndian_declared hostLE d t r hflag,
    ← loadLE_eq_sum, ← loadBE_eq_sum, bswap_loadLE]
  refine ⟨?_, rfl⟩
  have hl := loadLE_lt r.mem t.TYPE_SIZE_BYTE r.cur
  have hbe := loadBE_lt r.mem t.TYPE_SIZE_BYTE r.cur
  rcases ht with rfl | rfl | rfl <;> cases d <;>
    simp only [NumType.box, NumType.TYPE_SIZE_BYTE, if_true, if_false, Bool.false_eq_true] at hl hbe ⊢ <;>
    rw [Nat.mod_eq_of_lt (by omega)]

/-- C2 at a concrete input: on a little-endian host, a reader declared big-endian over
`[0x12, 0x34, 0x56]` at position 1 reads `0x3456` with `readUInt16` and ends at 3. -/
theorem C2_unsigned_read_witness :
    (BinaryReader_setPosition (BinaryReader_init true (memOf [0x12, 0x34, 0x56]) 3 0) 1).is_sys_endianess
        = (BinaryReader_init true (memOf [0x12, 0x34, 0x56]) 3 (if false then 1 else 0)).is_sys_endianess
      ∧ (BinaryReader_setPosition (BinaryReader_init true (memOf [0x12, 0x34, 0x56]) 3 0) 1).cur
          + NumType.uint16.TYPE_SIZE_BYTE
        ≤ (BinaryReader_setPosition (BinaryReader_init true (memOf [0x12, 0x34, 0x56]) 3 0) 1).size
      ∧ (BinaryReader__read true NumType.uint16
          (BinaryReader_setPosition (BinaryReader_init true (memOf [0x12, 0x34, 0x56]) 3 0) 1)).2
        = some (PyObject.scalar (PyVal.long 0x3456))
      ∧ (BinaryReader__read true NumType.uint16
          (BinaryReader_setPosition (BinaryReader_init true (memOf [0x12, 0x34, 0x56]) 3 0) 1)).1.cur
        = 3 := by
  have h := (C2_unsigned_read_declared_order true false NumType.uint16 (Or.inl rfl)
    (BinaryReader_setPosition (BinaryReader_init true (memOf [0x12, 0x34, 0x56]) 3 0) 1)
    (by decide) (by decide)).1
  refine ⟨by decide, by decide, ?_, ?_⟩
  · rw [h]; decide
  · rw [h]; decide

/-! ### C3 — signed reads invert the reference encoder -/

/-- C3: for each signed width (8, 16, 32, 64 bits), either host, either declared byte
order and every `v` representable in that width, if the bytes at the cursor are the
reference encoding of `v` in the declared order and lie inside the buffer, the matching
signed read returns exactly `v`, advances the cursor by the width and changes nothing
else. -/
theorem C3_signed_read_roundtrip (hostLE d : Bool) (m : ScalarMethod)
    (hm : m = ScalarMethod.readInt8 ∨ m = ScalarMethod.readInt16 ∨ m = ScalarMethod.readInt32
      ∨ m = ScalarMethod.readInt64)
    (v : Int) (hlo : -2 ^ (8 * m.width - 1) ≤ v) (hhi : v < 2 ^ (8 * m.width - 1))
    (r : BinaryReaderObject)
    (hflag : r.is_sys_endianess
      = (BinaryReader_init hostLE r.mem r.size (if d then 1 else 0)).is_sys_endianess)
    (hb : r.cur + m.width ≤ r.size)
    (hbytes : ∀ i : Nat, i < m.width →
      byteAt r.mem (r.cur + i) = (encodeInt m.width v d).getD i 0) :
    m.call hostLE r
      = ({ r with cur := r.cur + m.width }, some (PyObject.scalar (PyVal.long v))) := by
  rcases hm with rfl | rfl | rfl | rfl
  · have hc : BinaryReader_checkReadLength r 1 = (r, 0) := by
      unfold BinaryReader_checkReadLength
      simp only [ScalarMethod.width] at hb
      rw [if_neg (by push_cast at hb; omega)]
    have h0 := hbytes 0 (by decide)
    rw [encodeInt_getD _ _ _ _ (by decide)] at h0
    simp only [ScalarMethod.width, Nat.cast_zero, add_zero, Nat.sub_self, ite_self, pow_zero,
      Nat.div_one, Nat.mul_one] at h0 hlo hhi
    have hlt := toUnsigned_lt 8 v
    rw [Nat.mod_eq_of_lt (by omega)] at h0
    simp only [ScalarMethod.call, BinaryReader__readInt8, hc, h0, ScalarMethod.width,
      toSigned_toUnsigned_8 v hlo hhi, Nat.cast_one]
  · have hval := signed_read_value hostLE d NumType.int16 v r hflag hbytes
    simp only [ScalarMethod.call, ScalarMethod.width] at hb hlo hhi ⊢
    rw [read_in_bounds hostLE NumType.int16 r hb, hval]
    simp only [NumType.box, NumType.TYPE_SIZE_BYTE, toSigned_toUnsigned_16 v hlo hhi]
  · have hval := signed_read_value hostLE d NumType.int32 v r hflag hbytes
    simp only [ScalarMethod.call, ScalarMethod.width] at hb hlo hhi ⊢
    rw [read_in_bounds hostLE NumType.int32 r hb, hval]
    simp only [NumType.box, NumType.TYPE_SIZE_BYTE, toSigned_toUnsigned_32 v hlo hhi]
  · have hval := signed_read_value hostLE d NumType.int64 v r hflag hbytes
    simp only [ScalarMethod.call, ScalarMethod.width] at hb hlo hhi ⊢
    rw [read_in_bounds hostLE NumType.int64 r hb, hval]
    simp only [NumType.box, NumType.TYPE_SIZE_BYTE, toSigned_toUnsigned_64 v hlo hhi]

/-- C3 at a concrete input: on a little-endian host, a reader declared big-endian over
`[0xFF, 0xFE]`, the big-endian encoding of `-2` on 16 bits, reads `-2` with `readInt16`. -/
theorem C3_signed_read_witness :
    (-2 ^ (8 * ScalarMethod.readInt16.width - 1) ≤ (-2 : Int)
      ∧ (-2 : Int) < 2 ^ (8 * ScalarMethod.readInt16.width - 1)
      ∧ (BinaryReader_init true (memOf [0xFF, 0xFE]) 2 0).cur + ScalarMethod.readInt16.width
          ≤ (BinaryReader_init true (memOf [0xFF, 0xFE]) 2 0).size
      ∧ encodeInt 2 (-2) false = [0xFF, 0xFE])
      ∧ ScalarMethod.readInt16.call true (BinaryReader_init true (memOf [0xFF, 0xFE]) 2 0)
        = ({ BinaryReader_init true (memOf [0xFF, 0xFE]) 2 0 with
              cur := (BinaryReader_init true (memOf [0xFF, 0xFE]) 2 0).cur
                + ScalarMethod.readInt16.width },
           some (PyObject.scalar (PyVal.long (-2)))) :=
  ⟨⟨by decide, by decide, by decide, by decide⟩,
    C3_signed_read_roundtrip true false ScalarMethod.readInt16 (Or.inr (Or.inl rfl)) (-2)
      (by decide) (by decide) (BinaryReader_init true (memOf [0xFF, 0xFE]) 2 0) (by decide)
      (by decide)
      (by
        intro i hi
        have hi' : i < 2 := hi
        interval_cases i <;> decide)⟩

/-! ### C4 — array reads with an explicit count -/

/-- C4 as stated fails: on a buffer of `2^33` zero bytes, `readUInt16Array(2^32)` satisfies
`cursor + n * w <= size`, yet the count is truncated to the `int32` 0, so the call returns
an empty list and the position stays 0 instead of returning `2^32` elements and advancing
by `2^33`. -/
theorem C4_array_read_counterexample :
    ((BinaryReader_init true (memOf []) (2 ^ 33) 1).err = none
      ∧ (0 : Int) ≤ 2 ^ 32
      ∧ (BinaryReader_init true (memOf []) (2 ^ 33) 1).cur
          + 2 ^ 32 * (ArrayMethod.readUInt16Array.width : Int)
        ≤ (BinaryReader_init true (memOf []) (2 ^ 33) 1).size)
      ∧ (ArrayMethod.readUInt16Array.call true (BinaryReader_init true (memOf []) (2 ^ 33) 1)
          (some (2 ^ 32))).2 = some (PyObject.list [])
      ∧ (ArrayMethod.readUInt16Array.call true (BinaryReader_init true (memOf []) (2 ^ 33) 1)
          (some (2 ^ 32))).1.cur = 0
      ∧ ¬ ((∃ obj, (ArrayMethod.readUInt16Array.call true
              (BinaryReader_init true (memOf []) (2 ^ 33) 1) (some (2 ^ 32))).2 = some obj
              ∧ (obj.len : Int) = 2 ^ 32)
          ∧ (ArrayMethod.readUInt16Array.call true (BinaryReader_init true (memOf []) (2 ^ 33) 1)
              (some (2 ^ 32))).1.cur
            = (BinaryReader_init true (memOf []) (2 ^ 33) 1).cur
              + 2 ^ 32 * (ArrayMethod.readUInt16Array.width : Int)) := by
  refine ⟨⟨by decide, by decide, by decide⟩, by decide, by decide, ?_⟩
  intro h
  have h2 := h.2
  revert h2
  decide

/-- C4 (amended): for every numeric array method of element width `w`, every reader with a
clear error indicator and every explicit count `n >= 0` with `n * w < 2^31` and
`cur + n * w <= size`, the read leaves the error indicator clear, returns a container of
exactly `n` elements and advances the cursor by exactly `n * w`. -/
theorem C4_array_read_explicit_count (hostLE : Bool) (m : ArrayMethod) (r : BinaryReaderObject)
    (n : Int) (herr : r.err = none) (hn : 0 ≤ n) (hfit : n * m.width < 2 ^ 31)
    (hb : r.cur + n * m.width ≤ r.size) :
    (m.call hostLE r (some n)).1.err = none
      ∧ (∃ obj, (m.call hostLE r (some n)).2 = some obj ∧ (obj.len : Int) = n)
      ∧ (m.call hostLE r (some n)).1.cur = r.cur + n * m.width :=
  array_read_explicit_ok hostLE m r n herr hn hfit hb

set_option maxRecDepth 4000 in
/-- C4 (amended) at a concrete input: `readUInt32Array(2)` on the 8-byte little-endian
buffer holding 1 and 2 returns `[1, 2]` and ends at position 8. -/
theorem C4_array_read_explicit_count_witness :
    ((BinaryReader_init true (memOf [1, 0, 0, 0, 2, 0, 0, 0]) 8 1).err = none
      ∧ (0 : Int) ≤ 2
      ∧ (2 : Int) * (ArrayMethod.readUInt32Array.width : Int) < 2 ^ 31
      ∧ (BinaryReader_init true (memOf [1, 0, 0, 0, 2, 0, 0, 0]) 8 1).cur
          + 2 * (ArrayMethod.readUInt32Array.width : Int)
        ≤ (BinaryReader_init true (memOf [1, 0, 0, 0, 2, 0, 0, 0]) 8 1).size)
      ∧ (ArrayMethod.readUInt32Array.call true
          (BinaryReader_init true (memOf [1, 0, 0, 0, 2, 0, 0, 0]) 8 1) (some 2)).2
        = some (PyObject.list [PyVal.long 1, PyVal.long 2])
      ∧ ((ArrayMethod.readUInt32Array.call true
            (BinaryReader_init true (memOf [1, 0, 0, 0, 2, 0, 0, 0]) 8 1) (some 2)).1.err = none
        ∧ (∃ obj, (ArrayMethod.readUInt32Array.call true
            (BinaryReader_init true (memOf [1, 0, 0, 0, 2, 0, 0, 0]) 8 1) (some 2)).2 = some obj
            ∧ (obj.len : Int) = 2)
        ∧ (ArrayMethod.readUInt32Array.call true
            (BinaryReader_init true (memOf [1, 0, 0, 0, 2, 0, 0, 0]) 8 1) (some 2)).1.cur
          = (BinaryReader_init true (memOf [1, 0, 0, 0, 2, 0, 0, 0]) 8 1).cur
            + 2 * (ArrayMethod.readUInt32Array.width : Int)) :=
  ⟨⟨by decide, by decide, by decide, by decide⟩, by decide,
    C4_array_read_explicit_count true ArrayMethod.readUInt32Array
      (BinaryReader_init true (memOf [1, 0, 0, 0, 2, 0, 0, 0]) 8 1) 2
      (by decide) (by decide) (by decide) (by decide)⟩

/-! ### C5 — an array length that is too large -/

/-- C5 (what the code does): on the 4-byte little-endian buffer `[1, 0, 0, 0]`,
`readUInt32Array()` takes the count 1 from the prefix; one element does not fit, the check
sets `ValueError`, but the function still returns an (empty) list and the cursor is left at
4, past the prefix.  With the explicit count 3 the function likewise returns an empty list
with `ValueError` set. -/
theorem C5_array_read_too_long_not_atomic :
    ((BinaryReader_init true (memOf [1, 0, 0, 0]) 4 1).cur = 0
      ∧ (ArrayMethod.readUInt32Array.call true (BinaryReader_init true (memOf [1, 0, 0, 0]) 4 1)
          none).1.err = some PyExc.ValueError
      ∧ (ArrayMethod.readUInt32Array.call true (BinaryReader_init true (memOf [1, 0, 0, 0]) 4 1)
          none).2 = some (PyObject.list [])
      ∧ (ArrayMethod.readUInt32Array.call true (BinaryReader_init true (memOf [1, 0, 0, 0]) 4 1)
          none).1.cur = 4)
      ∧ ((ArrayMethod.readUInt32Array.call true (BinaryReader_init true (memOf [1, 0, 0, 0]) 4 1)
          (some 3)).1.err = some PyExc.ValueError
        ∧ (ArrayMethod.readUInt32Array.call true (BinaryReader_init true (memOf [1, 0, 0, 0]) 4 1)
          (some 3)).2 = some (PyObject.list [])
        ∧ (ArrayMethod.readUInt32Array.call true (BinaryReader_init true (memOf [1, 0, 0, 0]) 4 1)
          (some 3)).1.cur = 0) := by
  decide

/-! ### C6 — negative element counts -/

set_option maxRecDepth 4000 in
/-- C6 (what the code does): at position 4 of an 8-byte buffer, `readUInt32Array(-1)` passes
the pre-flight check (`readArrayLength` returns -1 with no error), and the final
`cur += 4 * length` moves the cursor back to 0; the call ends with `NULL` and `SystemError`
only because `PyList_New` refuses the negative size.  The same happens when -1 is read
from the length prefix `FF FF FF FF`: the cursor ends at 0, before the prefix's end. -/
theorem C6_negative_count_passes_check :
    ((BinaryReader_setPosition (BinaryReader_init true (memOf [0, 0, 0, 0, 0, 0, 0, 0]) 8 1) 4).cur = 4
      ∧ (BinaryReader__readArrayLength true
          (BinaryReader_setPosition (BinaryReader_init true (memOf [0, 0, 0, 0, 0, 0, 0, 0]) 8 1) 4)
          (some (-1)) 4).1.err = none
      ∧ (BinaryReader__readArrayLength true
          (BinaryReader_setPosition (BinaryReader_init true (memOf [0, 0, 0, 0, 0, 0, 0, 0]) 8 1) 4)
          (some (-1)) 4).2 = -1
      ∧ (ArrayMethod.readUInt32Array.call true
          (BinaryReader_setPosition (BinaryReader_init true (memOf [0, 0, 0, 0, 0, 0, 0, 0]) 8 1) 4)
          (some (-1))).1.cur = 0
      ∧ (ArrayMethod.readUInt32Array.call true
          (BinaryReader_setPosition (BinaryReader_init true (memOf [0, 0, 0, 0, 0, 0, 0, 0]) 8 1) 4)
          (some (-1))).2 = none
      ∧ (ArrayMethod.readUInt32Array.call true
          (BinaryReader_setPosition (BinaryReader_init true (memOf [0, 0, 0, 0, 0, 0, 0, 0]) 8 1) 4)
          (some (-1))).1.err = some PyExc.SystemError)
      ∧ ((BinaryReader__readArrayLength true
            (BinaryReader_init true (memOf [255, 255, 255, 255, 0, 0, 0, 0]) 8 1) none 4).1.err = none
        ∧ (BinaryReader__readArrayLength true
            (BinaryReader_init true (memOf [255, 255, 255, 255, 0, 0, 0, 0]) 8 1) none 4).2 = -1
        ∧ (BinaryReader__readArrayLength true
            (BinaryReader_init true (memOf [255, 255, 255, 255, 0, 0, 0, 0]) 8 1) none 4).1.cur = 4
        ∧ (ArrayMethod.readUInt32Array.call true
            (BinaryReader_init true (memOf [255, 255, 255, 255, 0, 0, 0, 0]) 8 1) none).1.cur = 0) := by
  decide

/-! ### C7 — the pre-flight product is a 32-bit product -/

/-- C7 (what the code does): with count `2^30` and element size 4 on an empty buffer the
true product `2^32` exceeds the 0 bytes remaining, but the `int` product wraps to 0 and
`readArrayLength` accepts the count without setting an error. -/
theorem C7_check_uses_wrapped_product :
    ((0 : Int) ≤ 2 ^ 30 ∧ (2 : Int) ^ 30 < 2 ^ 31
      ∧ (BinaryReader_init true (memOf []) 0 1).cur + 2 ^ 30 * 4
          > (BinaryReader_init true (memOf []) 0 1).size)
      ∧ wrapInt32 (2 ^ 30 * 4) = 0
      ∧ (BinaryReader__readArrayLength true (BinaryReader_init true (memOf []) 0 1)
          (some (2 ^ 30)) 4).1.err = none
      ∧ (BinaryReader__readArrayLength true (BinaryReader_init true (memOf []) 0 1)
          (some (2 ^ 30)) 4).2 = 2 ^ 30 := by
  decide

/-! ### C8 — the array-length convention -/

/-- C8 (amended): array-length convention, for every numeric array method of element width
`w` and every reader with a clear error indicator.  A supplied count `n` that fits `int32`
consumes no bytes for the length, is the element count whenever the bounds check passes,
and for `0 <= n`, `n * w < 2^31`, `cur + n * w <= size` the read returns the `n` elements
decoded at `cur + i * w` and advances by `n * w`.  With the count omitted and at least 4
bytes remaining, the count is the value `readInt32` decodes at the cursor in the active
byte order, the call behaves as the call with that explicit count from `cur + 4`, and for
`0 <= count`, `count * w < 2^31`, `cur + 4 + count * w <= size` it returns the `count`
elements decoded at `cur + 4 + i * w` and the total advance is `4 + count * w`. -/
theorem C8_array_length_convention (hostLE : Bool) (m : ArrayMethod) (r : BinaryReaderObject)
    (herr : r.err = none) :
    (∀ n : Int, -2 ^ 31 ≤ n → n < 2 ^ 31 →
        (BinaryReader__readArrayLength hostLE r (some n) m.width).1.cur = r.cur
        ∧ ((BinaryReader__readArrayLength hostLE r (some n) m.width).1.err = none →
            (BinaryReader__readArrayLength hostLE r (some n) m.width).2 = n)
        ∧ (0 ≤ n → n * m.width < 2 ^ 31 → r.cur + n * m.width ≤ r.size →
            (m.call hostLE r (some n)).1.err = none
            ∧ (∃ obj, (m.call hostLE r (some n)).2 = some obj ∧ (obj.len : Int) = n
                ∧ obj.items = (List.range n.toNat).map
                    (fun (i : Nat) => m.element hostLE r (r.cur + i * m.width)))
            ∧ (m.call hostLE r (some n)).1.cur = r.cur + n * m.width))
      ∧ (r.cur + 4 ≤ r.size →
          ∃ count : Int,
            BinaryReader__read hostLE NumType.int32 r
              = ({ r with cur := r.cur + 4 }, some (PyObject.scalar (PyVal.long count)))
            ∧ BinaryReader__readArrayLength hostLE r none m.width
              = BinaryReader__readArrayLength hostLE { r with cur := r.cur + 4 } (some count) m.width
            ∧ m.call hostLE r none = m.call hostLE { r with cur := r.cur + 4 } (some count)
            ∧ (0 ≤ count → count * m.width < 2 ^ 31 → r.cur + 4 + count * m.width ≤ r.size →
                (m.call hostLE r none).1.err = none
                ∧ (∃ obj, (m.call hostLE r none).2 = some obj ∧ (obj.len : Int) = count
                    ∧ obj.items = (List.range count.toNat).map
                        (fun (i : Nat) => m.element hostLE r (r.cur + 4 + i * m.width)))
                ∧ (m.call hostLE r none).1.cur = r.cur + 4 + count * m.width)) := by
  refine ⟨?_, ?_⟩
  · intro n h1 h2
    exact ⟨readArrayLength_explicit_cur hostLE r n m.width,
      readArrayLength_explicit_count hostLE r n m.width h1 h2,
      fun h0 hfit hb => array_read_explicit_full hostLE m r n herr h0 hfit hb⟩
  · intro hb
    refine ⟨toSigned 32 (BinaryReader_convertEndian 32 r (load hostLE r.mem r.cur 4)), ?_,
      readArrayLength_omitted hostLE r m.width hb, array_read_omitted hostLE m r hb, ?_⟩
    · rw [read_in_bounds hostLE NumType.int32 r (by simpa [NumType.TYPE_SIZE_BYTE] using hb)]
      simp [NumType.box, NumType.TYPE_SIZE_BYTE, NumType.TYPE_SIZE_BIT]
    · intro h0 hfit hb2
      rw [array_read_omitted hostLE m r hb]
      have h := array_read_explicit_full hostLE m { r with cur := r.cur + 4 } _ herr h0 hfit hb2
      simp only [element_cur_irrelevant] at h
      exact h

/-- C8 as stated fails: the supplied count `2^32` is not used as the element count; it is
truncated to the `int32` 0, so on an empty buffer `readUInt16Array(2^32)` passes the check
and returns an empty list without any error. -/
theorem C8_array_length_counterexample :
    (BinaryReader__readArrayLength true (BinaryReader_init true (memOf []) 0 1)
        (some (2 ^ 32)) ArrayMethod.readUInt16Array.width).1.err = none
      ∧ (BinaryReader__readArrayLength true (BinaryReader_init true (memOf []) 0 1)
        (some (2 ^ 32)) ArrayMethod.readUInt16Array.width).2 = 0
      ∧ (ArrayMethod.readUInt16Array.call true (BinaryReader_init true (memOf []) 0 1)
        (some (2 ^ 32))).1.err = none
      ∧ (ArrayMethod.readUInt16Array.call true (BinaryReader_init true (memOf []) 0 1)
        (some (2 ^ 32))).2 = some (PyObject.list [])
      ∧ ¬ ((BinaryReader__readArrayLength true (BinaryReader_init true (memOf []) 0 1)
            (some (2 ^ 32)) ArrayMethod.readUInt16Array.width).1.err = none →
          (BinaryReader__readArrayLength true (BinaryReader_init true (memOf []) 0 1)
            (some (2 ^ 32)) ArrayMethod.readUInt16Array.width).2 = 2 ^ 32) := by
  decide

set_option maxRecDepth 4000 in
/-- C8 (amended) at a concrete input: on the little-endian buffer holding the prefix 2 and
the elements 1 and 2, `readUInt32Array()` returns `[1, 2]` and ends at position 12. -/
theorem C8_array_length_convention_witness :
    (BinaryReader_init true (memOf [2, 0, 0, 0, 1, 0, 0, 0, 2, 0, 0, 0]) 12 1).err = none
      ∧ (BinaryReader_init true (memOf [2, 0, 0, 0, 1, 0, 0, 0, 2, 0, 0, 0]) 12 1).cur + 4
          ≤ (BinaryReader_init true (memOf [2, 0, 0, 0, 1, 0, 0, 0, 2, 0, 0, 0]) 12 1).size
      ∧ (ArrayMethod.readUInt32Array.call true
          (BinaryReader_init true (memOf [2, 0, 0, 0, 1, 0, 0, 0, 2, 0, 0, 0]) 12 1) none).2
        = some (PyObject.list [PyVal.long 1, PyVal.long 2])
      ∧ (ArrayMethod.readUInt32Array.call true
          (BinaryReader_init true (memOf [2, 0, 0, 0, 1, 0, 0, 0, 2, 0, 0, 0]) 12 1) none).1.cur
        = 12 := by
  refine ⟨by decide, by decide, by decide, ?_⟩
  obtain ⟨count, hread, -, -, hadv⟩ :=
    (C8_array_length_convention true ArrayMethod.readUInt32Array
      (BinaryReader_init true (memOf [2, 0, 0, 0, 1, 0, 0, 0, 2, 0, 0, 0]) 12 1) (by decide)).2
      (by decide)
  have h2 : (BinaryReader__read true NumType.int32
      (BinaryReader_init true (memOf [2, 0, 0, 0, 1, 0, 0, 0, 2, 0, 0, 0]) 12 1)).2
      = some (PyObject.scalar (PyVal.long 2)) := by decide
  rw [hread] at h2
  have hc : count = 2 := by simpa using h2
  subst hc
  rw [(hadv (by decide) (by decide) (by decide)).2.2]
  decide

/-! ### C9 — varint decoding -/

set_option maxRecDepth 4000 in
/-- C9 (what the code does): the reference encoding of `2^31` is `80 80 80 80 08`; with any
fuel of at least 5 iterations `readVarInt` consumes the five bytes without error and
returns `-2^31`, because the fifth group is shifted as a 32-bit `int` (`8 << 28`) and
sign-extended into the 64-bit accumulator. -/
theorem C9_varint_shift_is_32_bit (k : Nat) :
    encodeVarInt 10 (2 ^ 31) = [0x80, 0x80, 0x80, 0x80, 0x08]
      ∧ (BinaryReader__readVarInt (5 + k)
          (BinaryReader_init true (memOf [0x80, 0x80, 0x80, 0x80, 0x08]) 5 1)).map
            (fun p => (p.1.cur, p.1.err, p.2))
        = some (5, none, some (PyObject.scalar (PyVal.long (-2 ^ 31)))) := by
  refine ⟨by decide, ?_⟩
  have hmap : (readVarIntLoop
      (BinaryReader_init true (memOf [0x80, 0x80, 0x80, 0x80, 0x08]) 5 1) 0 0 5).map
        (fun p => (p.1.cur, p.1.err, p.2)) = some (5, none, -2 ^ 31) := by decide
  cases hr : readVarIntLoop
      (BinaryReader_init true (memOf [0x80, 0x80, 0x80, 0x80, 0x08]) 5 1) 0 0 5 with
  | none => rw [hr] at hmap; simp at hmap
  | some res =>
    rw [hr] at hmap
    simp only [Option.map_some', Option.some.injEq, Prod.mk.injEq] at hmap
    obtain ⟨h1, h2, h3⟩ := hmap
    simp only [BinaryReader__readVarInt, readVarIntLoop_mono 5 _ _ _ _ hr k, Option.map_some',
      h1, h2, h3]

/-! ### C10 — null-terminated strings -/

/-- C10 (what the code does): if the first zero byte at or after the cursor is `n` bytes away
and the bytes before it are the UTF-8 encoding of the code points `cps`, then with any fuel
above `n` the function returns the text `cps` and advances the cursor by the number of
code points plus one, not by the number of bytes plus one. -/
theorem C10_readStringC_advances_by_codepoints (r : BinaryReaderObject) (n : Nat) (cps : List Nat)
    (hnz : ∀ i : Nat, i < n → byteAt r.mem (r.cur + i) ≠ 0)
    (hz : byteAt r.mem (r.cur + n) = 0)
    (htext : utf8Decode ((List.range n).map (fun (i : Nat) => byteAt r.mem (r.cur + i))) = some cps)
    (fuel : Nat) (hfuel : n < fuel) :
    BinaryReader__readStringNullTerminated fuel r
      = some ({ r with cur := r.cur + (cps.length + 1) }, some (PyObject.scalar (PyVal.str cps))) := by
  simp only [BinaryReader__readStringNullTerminated,
    strlen_of_first_zero r.mem n r.cur hnz hz fuel hfuel, htext]

/-- C10 at a concrete input: on `C3 A9 00 41` (the two-byte encoding of U+00E9, then the
terminator) `readStringC` returns the one-character text and leaves the position at 2,
on the terminator, not at 3. -/
theorem C10_readStringC_witness :
    (byteAt (BinaryReader_init true (memOf [0xC3, 0xA9, 0x00, 0x41]) 4 1).mem
        ((BinaryReader_init true (memOf [0xC3, 0xA9, 0x00, 0x41]) 4 1).cur + (2 : Nat)) = 0
      ∧ utf8Decode [0xC3, 0xA9] = some [0xE9]
      ∧ 2 < 3)
      ∧ (BinaryReader__readStringNullTerminated 3
          (BinaryReader_init true (memOf [0xC3, 0xA9, 0x00, 0x41]) 4 1)).map
            (fun p => (p.1.cur, p.2))
        = some (2, some (PyObject.scalar (PyVal.str [0xE9]))) := by
  refine ⟨⟨by decide, by decide, by decide⟩, ?_⟩
  rw [C10_readStringC_advances_by_codepoints
    (BinaryReader_init true (memOf [0xC3, 0xA9, 0x00, 0x41]) 4 1) 2 [0xE9]
    (by intro i hi; interval_cases i <;> decide) (by decide) (by decide) 3 (by decide)]
  rfl

/-- The example of the specification: on `b"hi\x00rest"` the function returns `"hi"` and
leaves the position at 3 (pure ASCII, one byte per character). -/
theorem readStringC_ascii_example :
    (BinaryReader__readStringNullTerminated 3
        (BinaryReader_init true (memOf [0x68, 0x69, 0x00, 0x72, 0x65, 0x73, 0x74]) 7 1)).map
          (fun p => (p.1.cur, p.1.err, p.2))
      = some (3, none, some (PyObject.scalar (PyVal.str [0x68, 0x69]))) := by
  decide

set_option maxRecDepth 4000 in
/-- The examples of the specification: `AC 02` decodes to 300 and `00` decodes to 0. -/
theorem readVarInt_small_examples :
    (BinaryReader__readVarInt 2 (BinaryReader_init true (memOf [0xAC, 0x02]) 2 1)).map
          (fun p => (p.1.cur, p.1.err, p.2))
        = some (2, none, some (PyObject.scalar (PyVal.long 300)))
      ∧ (BinaryReader__readVarInt 1 (BinaryReader_init true (memOf [0x00]) 1 1)).map
          (fun p => (p.1.cur, p.1.err, p.2))
        = some (1, none, some (PyObject.scalar (PyVal.long 0))) := by
  decide

/-! ### C11 — null-terminated strings without a terminator in the buffer -/

/-- C11 (what the code does): if the bytes from the cursor up to the end of the buffer are
non-zero ASCII and the first zero byte lies at or beyond `size` (`n` bytes from the
cursor), then with any fuel above `n` the scan runs past the end of the buffer: the
function raises nothing, returns the text made of all `n` bytes, and leaves the cursor at
`cur + n + 1`, beyond `size`. -/
theorem C11_readStringC_scans_past_end (r : BinaryReaderObject) (n : Nat)
    (hasc : ∀ i : Nat, i < n → byteAt r.mem (r.cur + i) ≠ 0 ∧ byteAt r.mem (r.cur + i) < 128)
    (hz : byteAt r.mem (r.cur + n) = 0)
    (hpast : r.size ≤ r.cur + n)
    (fuel : Nat) (hfuel : n < fuel) :
    BinaryReader__readStringNullTerminated fuel r
        = some ({ r with cur := r.cur + (n + 1) },
            some (PyObject.scalar (PyVal.str
              ((List.range n).map (fun (i : Nat) => byteAt r.mem (r.cur + i))))))
      ∧ r.size < r.cur + (n + 1) := by
  have htext : utf8Decode ((List.range n).map (fun (i : Nat) => byteAt r.mem (r.cur + i)))
      = some ((List.range n).map (fun (i : Nat) => byteAt r.mem (r.cur + i))) := by
    apply utf8Decode_ascii
    intro b hb
    obtain ⟨i, hi, rfl⟩ := List.mem_map.mp hb
    exact (hasc i (List.mem_range.mp hi)).2
  refine ⟨?_, by omega⟩
  rw [readStringC_result r n _ (fun i hi => (hasc i hi).1) hz htext fuel hfuel]
  simp

/-- C11 at a concrete input: on the two-byte buffer `ab`, followed in memory by a zero
byte, `readStringC` returns `"ab"` with no error and leaves the position at 3, past
`size = 2`. -/
theorem C11_readStringC_witness :
    (byteAt (BinaryReader_init true (memOf [0x61, 0x62]) 2 1).mem
        ((BinaryReader_init true (memOf [0x61, 0x62]) 2 1).cur + (2 : Nat)) = 0
      ∧ (BinaryReader_init true (memOf [0x61, 0x62]) 2 1).size
          ≤ (BinaryReader_init true (memOf [0x61, 0x62]) 2 1).cur + (2 : Nat)
      ∧ 2 < 3)
      ∧ (BinaryReader__readStringNullTerminated 3
          (BinaryReader_init true (memOf [0x61, 0x62]) 2 1)).map
            (fun p => (p.1.cur, p.1.err, p.2))
        = some (3, none, some (PyObject.scalar (PyVal.str [0x61, 0x62]))) := by
  refine ⟨⟨by decide, by decide, by decide⟩, ?_⟩
  rw [(C11_readStringC_scans_past_end (BinaryReader_init true (memOf [0x61, 0x62]) 2 1) 2
    (by intro i hi; interval_cases i <;> decide) (by decide) (by decide) 3 (by decide)).1]
  rfl

/-! ### C12 — length-delimited strings -/

/-- C12: a length-delimited read whose resolved count `n` is non-negative (with
`c + n <= size` for the cursor `c` left by the length resolution) returns the text decoded
from exactly the bytes `[c, c + n)` and ends at `c + n`, whatever those bytes or the bytes
after them are.  Stated for the resolved count, for an explicit count (`c` is the
cursor) and for a count read from the prefix (`c` is the cursor plus 4). -/
theorem C12_readString_consumes_exactly_n (hostLE : Bool) (r : BinaryReaderObject) :
    (∀ args : Option Int,
        0 ≤ (BinaryReader__readArrayLength hostLE r args 1).2 →
        (BinaryReader__readArrayLength hostLE r args 1).1.cur
            + (BinaryReader__readArrayLength hostLE r args 1).2
          ≤ (BinaryReader__readArrayLength hostLE r args 1).1.size →
        (BinaryReader__readStringLengthDelimited hostLE r args).1.cur
            = (BinaryReader__readArrayLength hostLE r args 1).1.cur
              + (BinaryReader__readArrayLength hostLE r args 1).2
          ∧ (BinaryReader__readStringLengthDelimited hostLE r args).2
            = (utf8Decode ((List.range (BinaryReader__readArrayLength hostLE r args 1).2.toNat).map
                (fun (i : Nat) => byteAt r.mem
                  ((BinaryReader__readArrayLength hostLE r args 1).1.cur + i)))).map
                (fun cps => PyObject.scalar (PyVal.str cps)))
      ∧ (∀ n : Int, 0 ≤ n → n < 2 ^ 31 → r.cur + n ≤ r.size →
          (BinaryReader__readStringLengthDelimited hostLE r (some n)).1.cur = r.cur + n
          ∧ (BinaryReader__readStringLengthDelimited hostLE r (some n)).2
            = (utf8Decode ((List.range n.toNat).map (fun (i : Nat) => byteAt r.mem (r.cur + i)))).map
                (fun cps => PyObject.scalar (PyVal.str cps)))
      ∧ (r.cur + 4 ≤ r.size →
          0 ≤ toSigned 32 (BinaryReader_convertEndian 32 r (load hostLE r.mem r.cur 4)) →
          r.cur + 4 + toSigned 32 (BinaryReader_convertEndian 32 r (load hostLE r.mem r.cur 4))
            ≤ r.size →
          (BinaryReader__readStringLengthDelimited hostLE r none).1.cur
            = r.cur + 4 + toSigned 32 (BinaryReader_convertEndian 32 r (load hostLE r.mem r.cur 4))
          ∧ (BinaryReader__readStringLengthDelimited hostLE r none).2
            = (utf8Decode ((List.range
                (toSigned 32 (BinaryReader_convertEndian 32 r (load hostLE r.mem r.cur 4))).toNat).map
                (fun (i : Nat) => byteAt r.mem (r.cur + 4 + i)))).map
                (fun cps => PyObject.scalar (PyVal.str cps))) := by
  refine ⟨?_, ?_, ?_⟩
  · intro args hn _
    have h := readString_resolved hostLE r args hn
    rw [(readArrayLength_frame hostLE r args 1).1] at h
    exact h
  · intro n h0 h1 hb
    have hl := readArrayLength_explicit hostLE r n 1 (by norm_num; omega) h1
      (by norm_num; omega) (by simpa using h1) (by simpa using hb)
    have h := readString_resolved hostLE r (some n) (by rw [hl]; exact h0)
    rw [hl] at h
    exact h
  · intro hb h0 hb2
    have hl := readArrayLength_omitted hostLE r 1 hb
    obtain ⟨h1, h2⟩ := toSigned_32_range (BinaryReader_convertEndian 32 r (load hostLE r.mem r.cur 4))
    rw [readArrayLength_explicit hostLE { r with cur := r.cur + 4 } _ 1 h1 h2
      (by simpa using h1) (by simpa using h2) (by simpa using hb2)] at hl
    have h := readString_resolved hostLE r none (by rw [hl]; exact h0)
    rw [hl] at h
    exact h

/-- C12 at a concrete input: `readString(3)` on `61 00 62 00` returns the three
characters `a`, U+0000, `b` and ends at position 3; the zero byte inside is part of the
text and the one after it is not consumed. -/
theorem C12_readString_witness :
    ((0 : Int) ≤ 3 ∧ (3 : Int) < 2 ^ 31
      ∧ (BinaryReader_init true (memOf [0x61, 0x00, 0x62, 0x00]) 4 1).cur + 3
          ≤ (BinaryReader_init true (memOf [0x61, 0x00, 0x62, 0x00]) 4 1).size)
      ∧ (BinaryReader__readStringLengthDelimited true
          (BinaryReader_init true (memOf [0x61, 0x00, 0x62, 0x00]) 4 1) (some 3)).1.cur = 3
      ∧ (BinaryReader__readStringLengthDelimited true
          (BinaryReader_init true (memOf [0x61, 0x00, 0x62, 0x00]) 4 1) (some 3)).2
        = some (PyObject.scalar (PyVal.str [0x61, 0x00, 0x62])) := by
  have h := (C12_readString_consumes_exactly_n true (BinaryReader_init true (memOf [0x61, 0x00, 0x62, 0x00]) 4 1)).2.1 3
    (by decide) (by decide) (by decide)
  refine ⟨⟨by decide, by decide, by decide⟩, ?_, ?_⟩
  · rw [h.1]; decide
  · rw [h.2]; decide

/-! ### C13 — aligned strings -/

/-- C13: `readStringAligned` returns what `readString` returns from the same state, and its
final cursor is the least multiple of 4 that is at least the cursor `p` left by
`readString`: divisible by 4, at least `p`, at most `p + 3`, and below every other such
multiple. -/
theorem C13_readStringAligned_rounds_up (hostLE : Bool) (r : BinaryReaderObject) (args : Option Int) :
    (BinaryReader__readAlignedString hostLE r args).2
        = (BinaryReader__readStringLengthDelimited hostLE r args).2
      ∧ 4 ∣ (BinaryReader__readAlignedString hostLE r args).1.cur
      ∧ (BinaryReader__readStringLengthDelimited hostLE r args).1.cur
          ≤ (BinaryReader__readAlignedString hostLE r args).1.cur
      ∧ (BinaryReader__readAlignedString hostLE r args).1.cur
          ≤ (BinaryReader__readStringLengthDelimited hostLE r args).1.cur + 3
      ∧ (∀ m : Int, 4 ∣ m → (BinaryReader__readStringLengthDelimited hostLE r args).1.cur ≤ m →
          (BinaryReader__readAlignedString hostLE r args).1.cur ≤ m) := by
  obtain ⟨h1, h2, h3⟩ := alignC_four (BinaryReader__readStringLengthDelimited hostLE r args).1
  refine ⟨rfl, h1, h2, h3, ?_⟩
  intro m hm hle
  have e : (BinaryReader__readAlignedString hostLE r args).1.cur
      = (BinaryReader__alignC (BinaryReader__readStringLengthDelimited hostLE r args).1 4).cur := rfl
  rw [e]
  omega

/-- C13 at a concrete input: with the prefix 1 and the string `a` the plain read ends at 5
and the aligned read at 8. -/
theorem C13_readStringAligned_witness :
    (BinaryReader__readStringLengthDelimited true
        (BinaryReader_init true (memOf [1, 0, 0, 0, 0x61, 0xFF, 0xFF, 0xFF]) 8 1) none).1.cur = 5
      ∧ (BinaryReader__readAlignedString true
        (BinaryReader_init true (memOf [1, 0, 0, 0, 0x61, 0xFF, 0xFF, 0xFF]) 8 1) none).1.cur = 8
      ∧ (BinaryReader__readAlignedString true
        (BinaryReader_init true (memOf [1, 0, 0, 0, 0x61, 0xFF, 0xFF, 0xFF]) 8 1) none).2
        = some (PyObject.scalar (PyVal.str [0x61])) := by
  have h := C13_readStringAligned_rounds_up true (BinaryReader_init true (memOf [1, 0, 0, 0, 0x61, 0xFF, 0xFF, 0xFF]) 8 1) none
  have hq : (BinaryReader__readStringLengthDelimited true
      (BinaryReader_init true (memOf [1, 0, 0, 0, 0x61, 0xFF, 0xFF, 0xFF]) 8 1) none).1.cur = 5 := by
    decide
  obtain ⟨h1, h2, h3, h4, -⟩ := h
  rw [hq] at h3 h4
  refine ⟨hq, by omega, ?_⟩
  rw [h1]
  decide

/-! ### C14 — the alignment primitive -/

/-- C14: for every boundary `s >= 1` and cursor offset `c >= 0`, `alignC` advances the
cursor by `(s - c mod s) mod s`; the new offset is a multiple of `s`, is at least `c`, is
the least such multiple, equals `c` when `c` is already a multiple of `s`, and aligning
again changes nothing. -/
theorem C14_alignC_least_multiple (r : BinaryReaderObject) (s : Int) (hs : 1 ≤ s) (hc : 0 ≤ r.cur) :
    (BinaryReader__alignC r s).cur = r.cur + (s - r.cur % s) % s
      ∧ s ∣ (BinaryReader__alignC r s).cur
      ∧ r.cur ≤ (BinaryReader__alignC r s).cur
      ∧ (∀ m : Int, s ∣ m → r.cur ≤ m → (BinaryReader__alignC r s).cur ≤ m)
      ∧ (s ∣ r.cur → (BinaryReader__alignC r s).cur = r.cur)
      ∧ BinaryReader__alignC (BinaryReader__alignC r s) s = BinaryReader__alignC r s := by
  obtain ⟨h1, h2, h3, h4⟩ := align_up_spec r.cur s hs
  have hcur := alignC_cur r s hs hc
  refine ⟨hcur, by rw [hcur]; exact h1, by rw [hcur]; exact h2,
    by rw [hcur]; exact h3, fun hd => by rw [hcur, h4 hd, add_zero], ?_⟩
  have hc2 : 0 ≤ (BinaryReader__alignC r s).cur := by rw [hcur]; omega
  have hcur2 := alignC_cur (BinaryReader__alignC r s) s hs hc2
  have hz := (align_up_spec (BinaryReader__alignC r s).cur s hs).2.2.2 (by rw [hcur]; exact h1)
  rw [hz, add_zero] at hcur2
  have hf := alignC_frame (BinaryReader__alignC r s) s
  cases hA : BinaryReader__alignC (BinaryReader__alignC r s) s
  cases hB : BinaryReader__alignC r s
  rw [hA, hB] at hcur2 hf
  simp only at hcur2 hf
  obtain ⟨f1, f2, f3, f4⟩ := hf
  simp only [BinaryReaderObject.mk.injEq]
  exact ⟨f1, hcur2, f2, f3, f4⟩
/-- C14 at a concrete input: aligning offset 5 to the boundary 4 gives offset 8. -/
theorem C14_alignC_witness :
    ((1 : Int) ≤ 4 ∧ 0 ≤ (BinaryReader_setPosition (BinaryReader_init true (memOf []) 0 1) 5).cur)
      ∧ (BinaryReader__alignC (BinaryReader_setPosition (BinaryReader_init true (memOf []) 0 1) 5)
          4).cur = 8 := by
  refine ⟨⟨by decide, by decide⟩, ?_⟩
  rw [(C14_alignC_least_multiple (BinaryReader_setPosition (BinaryReader_init true (memOf []) 0 1) 5) 4
    (by decide) (by decide)).1]
  decide

/-! ### C15 — the public align method -/

/-- C15 (what the code does): the public `align` never moves the cursor, whatever its
argument; it returns the unchanged position (or `NULL` when the argument does not fit an
`int`).  At position 1 of an 8-byte buffer `align(4)` and `align()` return 1 and leave the
position at 1, not at 4. -/
theorem C15_align_does_not_move :
    (∀ (r : BinaryReaderObject) (args : Option Int),
        (BinaryReader__align r args).1.cur = r.cur
        ∧ ((BinaryReader__align r args).2 = none
          ∨ (BinaryReader__align r args).2
            = some (PyObject.scalar (PyVal.long (BinaryReader_getPosition r)))))
      ∧ (BinaryReader__align
          (BinaryReader_setPosition (BinaryReader_init true (memOf [0, 0, 0, 0, 0, 0, 0, 0]) 8 1) 1)
          (some 4)).1.cur = 1
      ∧ (BinaryReader__align
          (BinaryReader_setPosition (BinaryReader_init true (memOf [0, 0, 0, 0, 0, 0, 0, 0]) 8 1) 1)
          (some 4)).2 = some (PyObject.scalar (PyVal.long 1))
      ∧ (BinaryReader__align
          (BinaryReader_setPosition (BinaryReader_init true (memOf [0, 0, 0, 0, 0, 0, 0, 0]) 8 1) 1)
          none).1.cur = 1 := by
  refine ⟨?_, by decide, by decide, by decide⟩
  intro r args
  cases args with
  | none => exact ⟨rfl, Or.inr rfl⟩
  | some v =>
    simp only [BinaryReader__align]
    split_ifs
    · exact ⟨rfl, Or.inr rfl⟩
    · exact ⟨rfl, Or.inl rfl⟩

/-! ### C16 — readStringCArray -/

/-- C16 (what the code does): the method `readStringCArray` is the scalar reader and
ignores the count.  On `61 00 62 00` the call `readStringCArray(2)` returns the single
string `"a"`, not a list, and stops at position 2, while two successive `readStringC`
calls return `"a"` and `"b"` and stop at position 4 (for any fuel of at least 2). -/
theorem C16_readStringCArray_is_scalar (k : Nat) :
    (∀ (fuel : Nat) (r : BinaryReaderObject) (args : Option Int),
        method_readStringCArray fuel r args = method_readStringC fuel r none)
      ∧ (method_readStringCArray (2 + k)
          (BinaryReader_init true (memOf [0x61, 0x00, 0x62, 0x00]) 4 1) (some 2)).map
            (fun p => (p.1.cur, p.1.err, p.2))
        = some (2, none, some (PyObject.scalar (PyVal.str [0x61])))
      ∧ ((method_readStringC (2 + k)
            (BinaryReader_init true (memOf [0x61, 0x00, 0x62, 0x00]) 4 1) none).bind
          (fun p => (method_readStringC (2 + k) p.1 none).map (fun q => (q.1.cur, p.2, q.2))))
        = some (4, some (PyObject.scalar (PyVal.str [0x61])),
            some (PyObject.scalar (PyVal.str [0x62]))) := by
  have h1 := readStringC_result (BinaryReader_init true (memOf [0x61, 0x00, 0x62, 0x00]) 4 1)
    1 [0x61] (by intro i hi; interval_cases i; decide) (by decide) (by decide) (2 + k) (by omega)
  refine ⟨fun _ _ _ => rfl, ?_, ?_⟩
  · simp only [method_readStringCArray, h1]
    rfl
  · have h2 := readStringC_result
      { BinaryReader_init true (memOf [0x61, 0x00, 0x62, 0x00]) 4 1 with
        cur := (BinaryReader_init true (memOf [0x61, 0x00, 0x62, 0x00]) 4 1).cur
          + (([0x61] : List Nat).length + 1 : Nat) }
      1 [0x62] (by intro i hi; interval_cases i; decide) (by decide) (by decide) (2 + k) (by omega)
    simp only [method_readStringC, h1, Option.some_bind]
    erw [h2]
    rfl

/-! ### C17 — the LSB bit mapping -/

/-- C17 (what the code does): on either host, for an input of `8 * k` readable bytes at the
cursor (explicit length `8 * k` within the buffer, or the whole rest of the buffer) whose
output block of `k` bytes can be allocated, `readLSB` returns `k` bytes and moves the cursor
by `8 * k`.  For every group `j < k` with `j < 2^31` and every `i < 8`, output byte `j`
has bit `7 - i` equal to the least-significant bit of input byte `8 * j + i` when no swap
is needed (`is_sys_endianess`), and bit `i` equal to it when a swap is needed; the byte is
below 256 and is the sum of these eight bits at their positions, so nothing else of the
input influences it.  For a group `j >= 2^31` the `int` loop counter never reaches `j`
(two's complement wrap of the counter): output byte `j` is what the allocated block held
before the call and does not depend on the input. -/
theorem C17_lsb_bit_mapping (hostLE : Bool) (data avail : Nat) (block : Nat → Nat)
    (r : BinaryReaderObject) (args : Option Int) (k : Nat) (hcur : 0 ≤ r.cur)
    (hsize : r.size < 2 ^ 63) (hdata : (data : Int) + r.size < 2 ^ 64) (halloc : k ≤ avail)
    (hargs : (args = some (8 * (k : Int)) ∧ r.cur + 8 * k ≤ r.size)
      ∨ (args = none ∧ r.size - r.cur = 8 * k)) :
    ∃ out, BinaryReader__readLSB hostLE data avail block r args
        = some ({ r with cur := r.cur + 8 * (k : Int) }, some (PyObject.bytes out))
      ∧ out.length = k
      ∧ (∀ j, j < k → j < 2 ^ 31 →
          out.getD j 0 < 256
          ∧ (∀ i, i < 8 → (out.getD j 0).testBit (if r.is_sys_endianess then 7 - i else i)
              = decide (byteAt r.mem (r.cur + 8 * j + i) % 2 = 1))
          ∧ out.getD j 0 = ∑ i in Finset.range 8,
              byteAt r.mem (r.cur + 8 * j + i) % 2 * 2 ^ (if r.is_sys_endianess then 7 - i else i))
      ∧ (∀ j, j < k → 2 ^ 31 ≤ j → out.getD j 0 = block j % 256) := by
  have hres : BinaryReader__readLSB hostLE data avail block r args
      = readLSBBody hostLE avail block r (8 * k) := by
    apply readLSB_resolved _ _ _ _ _ _ _ hcur hsize hdata
    push_cast
    exact hargs
  have hk : 8 * k / 8 = k := by omega
  have hk63 : k < 2 ^ 63 := by
    have : (k : Int) < 2 ^ 63 := by rcases hargs with ⟨_, h⟩ | ⟨_, h⟩ <;> omega
    exact_mod_cast this
  obtain ⟨out, e, hlen, hget⟩ := readLSBBody_spec hostLE avail block r (8 * k)
    (by rw [hk]; exact halloc) (by rw [hk]; exact hk63)
  rw [hk] at hlen hget e
  have hc : ((k * 8 % 2 ^ 64 : Nat) : Int) = 8 * (k : Int) := by
    have : k * 8 % 2 ^ 64 = k * 8 := Nat.mod_eq_of_lt (by omega)
    rw [this]
    push_cast
    ring
  rw [hc] at e
  refine ⟨out, by rw [hres, e], hlen, ?_, ?_⟩
  · intro j hj hj31
    have hv := hget j hj
    rw [if_pos hj31, lsb_group_sum] at hv
    rw [hv]
    exact ⟨lsb_sum_lt (fun i => byteAt r.mem (r.cur + 8 * j + i)) _,
      fun i hi => lsb_sum_testBit (fun i => byteAt r.mem (r.cur + 8 * j + i)) _ i hi, rfl⟩
  · intro j hj hj31
    have hv := hget j hj
    rw [if_neg (by omega)] at hv
    exact hv

set_option maxRecDepth 4000 in
/-- C17 at concrete inputs.  An input of `2^31 + 1` groups whose bytes are all 1, read
without swap into a block that held zeros: the output has `2^31 + 1` bytes and byte `2^31`
is 0, its bit 7 clear although the least-significant bit of input byte `8 * 2^31` is set.
The 8 bytes `01 00 00 00 00 00 00 00` read without a swap decode to the single byte `0x80`,
on a little-endian host (reader declared little) and on a big-endian host (reader declared
big), and to `0x01` when a swap is needed. -/
theorem C17_lsb_bit_mapping_witness :
    ((0 : Int) ≤ (BinaryReader_init true (fun _ => 1) (8 * (2 ^ 31 + 1)) 1).cur
      ∧ (BinaryReader_init true (fun _ => 1) (8 * (2 ^ 31 + 1)) 1).size < 2 ^ 63
      ∧ ((2 ^ 32 : Nat) : Int) + (BinaryReader_init true (fun _ => 1) (8 * (2 ^ 31 + 1)) 1).size
          < 2 ^ 64
      ∧ 2 ^ 31 + 1 ≤ 2 ^ 32
      ∧ (BinaryReader_init true (fun _ => 1) (8 * (2 ^ 31 + 1)) 1).size
          - (BinaryReader_init true (fun _ => 1) (8 * (2 ^ 31 + 1)) 1).cur
          = 8 * ((2 ^ 31 + 1 : Nat) : Int))
      ∧ (∃ out, BinaryReader__readLSB true (2 ^ 32) (2 ^ 32) (fun _ => 0)
            (BinaryReader_init true (fun _ => 1) (8 * (2 ^ 31 + 1)) 1) none
          = some ({ BinaryReader_init true (fun _ => 1) (8 * (2 ^ 31 + 1)) 1 with
                cur := (BinaryReader_init true (fun _ => 1) (8 * (2 ^ 31 + 1)) 1).cur
                  + 8 * ((2 ^ 31 + 1 : Nat) : Int) },
              some (PyObject.bytes out))
        ∧ out.length = 2 ^ 31 + 1
        ∧ out.getD (2 ^ 31) 0 = 0
        ∧ byteAt (BinaryReader_init true (fun _ => 1) (8 * (2 ^ 31 + 1)) 1).mem
            ((BinaryReader_init true (fun _ => 1) (8 * (2 ^ 31 + 1)) 1).cur
              + 8 * ((2 ^ 31 : Nat) : Int) + ((0 : Nat) : Int)) % 2 = 1
        ∧ ¬ ((out.getD (2 ^ 31) 0).testBit 7
            = decide (byteAt (BinaryReader_init true (fun _ => 1) (8 * (2 ^ 31 + 1)) 1).mem
                ((BinaryReader_init true (fun _ => 1) (8 * (2 ^ 31 + 1)) 1).cur
                  + 8 * ((2 ^ 31 : Nat) : Int) + ((0 : Nat) : Int)) % 2 = 1)))
      ∧ (BinaryReader__readLSB true (2 ^ 32) (2 ^ 32) (fun _ => 0)
          (BinaryReader_init true (memOf [1, 0, 0, 0, 0, 0, 0, 0]) 8 1) none).map
            (fun p => (p.1.cur, p.2)) = some (8, some (PyObject.bytes [0x80]))
      ∧ (BinaryReader__readLSB false (2 ^ 32) (2 ^ 32) (fun _ => 0)
          (BinaryReader_init false (memOf [1, 0, 0, 0, 0, 0, 0, 0]) 8 0) none).map
            (fun p => (p.1.cur, p.2)) = some (8, some (PyObject.bytes [0x80]))
      ∧ (BinaryReader__readLSB true (2 ^ 32) (2 ^ 32) (fun _ => 0)
          (BinaryReader_init true (memOf [1, 0, 0, 0, 0, 0, 0, 0]) 8 0) (some 8)).map
            (fun p => (p.1.cur, p.2)) = some (8, some (PyObject.bytes [0x01])) := by
  obtain ⟨out, h1, h2, -, h4⟩ := C17_lsb_bit_mapping true (2 ^ 32) (2 ^ 32) (fun _ => 0)
    (BinaryReader_init true (fun _ => 1) (8 * (2 ^ 31 + 1)) 1) none (2 ^ 31 + 1)
    (by decide) (by decide) (by decide) (by decide) (Or.inr ⟨rfl, by decide⟩)
  have hv : out.getD (2 ^ 31) 0 = 0 := h4 (2 ^ 31) (by norm_num) (le_refl _)
  have hb : byteAt (BinaryReader_init true (fun _ => 1) (8 * (2 ^ 31 + 1)) 1).mem
      ((BinaryReader_init true (fun _ => 1) (8 * (2 ^ 31 + 1)) 1).cur
        + 8 * ((2 ^ 31 : Nat) : Int) + ((0 : Nat) : Int)) % 2 = 1 := rfl
  refine ⟨⟨by decide, by decide, by decide, by decide, by decide⟩,
    ⟨out, h1, h2, hv, hb, ?_⟩, by decide, by decide, by decide⟩
  rw [hv, hb]
  decide

/-! ### C18 — LSB output length and cursor -/

set_option maxRecDepth 4000 in
/-- C18 as stated fails in two ways.  For `readLSB(2^63)` on an empty buffer
`cursor + n > size`, but `PyLong_AsLong` fails and yields -1, the bounds check sees -1 and
passes, and `2^61 - 1` bytes are requested from `PyMem_Malloc`, whose `NULL` is written
through: the call does not return, and whatever the allocator can deliver the pending error
is never the `ValueError` of the bounds check.  For `readLSB(1)` at position `2^64 - 1` of
a one-byte buffer `cursor + n > size` as well, but the pointer `cur + 1` has wrapped to
`data`, the check passes and the empty bytes object is returned with no error. -/
theorem C18_lsb_counterexample :
    ((BinaryReader_init true (memOf []) 0 1).cur + 2 ^ 63
          > (BinaryReader_init true (memOf []) 0 1).size
      ∧ (PyLong_AsLong (BinaryReader_init true (memOf []) 0 1).err (2 ^ 63))
          = (some PyExc.OverflowError, -1)
      ∧ (BinaryReader_checkReadLength_ptr (2 ^ 32)
          { BinaryReader_init true (memOf []) 0 1 with err := some PyExc.OverflowError }
          (wrapInt64 (toUnsigned 64 (-1)))).2 = 0
      ∧ toUnsigned 64 (-1) / 8 = 2 ^ 61 - 1
      ∧ PyMem_Malloc (2 ^ 40) (2 ^ 61 - 1) = false
      ∧ (BinaryReader__readLSB true (2 ^ 32) (2 ^ 40) (fun _ => 0)
          (BinaryReader_init true (memOf []) 0 1) (some (2 ^ 63))).isNone = true
      ∧ (∀ (avail : Nat) (block : Nat → Nat),
          (BinaryReader__readLSB true (2 ^ 32) avail block
              (BinaryReader_init true (memOf []) 0 1) (some (2 ^ 63))).map (fun p => p.1.err)
            ≠ some (some PyExc.ValueError)))
      ∧ ((-2 ^ 63 : Int) ≤ 1 ∧ (1 : Int) < 2 ^ 63
        ∧ (BinaryReader_setPosition (BinaryReader_init true (memOf [42]) 1 1) (2 ^ 64 - 1)).cur + 1
          > (BinaryReader_setPosition (BinaryReader_init true (memOf [42]) 1 1) (2 ^ 64 - 1)).size
        ∧ (BinaryReader__readLSB true (2 ^ 32) (2 ^ 40) (fun _ => 0)
            (BinaryReader_setPosition (BinaryReader_init true (memOf [42]) 1 1) (2 ^ 64 - 1))
            (some 1)).map (fun p => (p.1.err, p.2))
          = some (none, some (PyObject.bytes []))) := by
  refine ⟨⟨by decide, by decide, by decide, by decide, by decide, by decide, ?_⟩, by decide⟩
  intro avail block
  have hl : PyLong_AsLong (BinaryReader_init true (memOf []) 0 1).err (2 ^ 63)
      = (some PyExc.OverflowError, -1) := by decide
  have hc : BinaryReader_checkReadLength_ptr (2 ^ 32)
      { BinaryReader_init true (memOf []) 0 1 with err := some PyExc.OverflowError }
      (wrapInt64 (toUnsigned 64 (-1)))
      = ({ BinaryReader_init true (memOf []) 0 1 with err := some PyExc.OverflowError }, 0) := by
    unfold BinaryReader_checkReadLength_ptr
    rw [if_neg (by decide)]
  simp only [BinaryReader__readLSB, hl, hc, readLSBBody]
  split_ifs <;> simp

/-- C18 (amended: an explicit length in the signed 64-bit range, no pointer wrap, and an
output block that can be allocated): for a reader with `0 <= cursor`, `0 <= size < 2^63` and
a buffer that ends inside the address space, `readLSB(n)` with `0 <= n <= size - cursor`
returns exactly `floor(n / 8)` bytes and moves the cursor to `cursor + 8 * floor(n / 8)`,
which is `cursor + n` when 8 divides `n`; `readLSB()` with `cursor <= size` does the same
for `n = size - cursor`; an explicit `n` with `-2^63 <= n < 2^63` and `cursor + n > size`,
for which the pointer `data + cursor + n` stays inside the address space, is refused with
`ValueError`, returning `NULL` with the cursor unchanged.  When the output block cannot be
allocated the call does not return. -/
theorem C18_lsb_length_and_cursor (hostLE : Bool) (data avail : Nat) (block : Nat → Nat)
    (r : BinaryReaderObject) (hcur : 0 ≤ r.cur) (hsize0 : 0 ≤ r.size) (hsize : r.size < 2 ^ 63)
    (hdata : (data : Int) + r.size < 2 ^ 64) :
    (∀ n : Int, 0 ≤ n → n ≤ r.size - r.cur → n / 8 ≤ avail →
        ∃ out, BinaryReader__readLSB hostLE data avail block r (some n)
            = some ({ r with cur := r.cur + 8 * (n / 8) }, some (PyObject.bytes out))
          ∧ (out.length : Int) = n / 8
          ∧ (n % 8 = 0 → (BinaryReader__readLSB hostLE data avail block r (some n)).map
              (fun p => p.1.cur) = some (r.cur + n)))
      ∧ (r.cur ≤ r.size → (r.size - r.cur) / 8 ≤ avail →
        ∃ out, BinaryReader__readLSB hostLE data avail block r none
            = some ({ r with cur := r.cur + 8 * ((r.size - r.cur) / 8) },
                some (PyObject.bytes out))
          ∧ (out.length : Int) = (r.size - r.cur) / 8
          ∧ ((r.size - r.cur) % 8 = 0 →
              (BinaryReader__readLSB hostLE data avail block r none).map (fun p => p.1.cur)
                = some r.size))
      ∧ (∀ n : Int, -2 ^ 63 ≤ n → n < 2 ^ 63 →
          0 ≤ (data : Int) + r.cur + n → (data : Int) + r.cur + n < 2 ^ 64 →
          r.cur + n > r.size →
        BinaryReader__readLSB hostLE data avail block r (some n)
          = some ({ r with err := some PyExc.ValueError }, none))
      ∧ (∀ n : Int, 0 ≤ n → n ≤ r.size - r.cur → (avail : Int) < n / 8 →
        BinaryReader__readLSB hostLE data avail block r (some n) = none) := by
  refine ⟨?_, ?_, ?_, ?_⟩
  · intro n h0 hb ha
    lift n to Nat using h0
    have hn : (n : Int) < 2 ^ 63 := by omega
    have hres := readLSB_resolved hostLE data avail block r (some (n : Int)) n hcur hsize hdata
      (Or.inl ⟨rfl, by omega⟩)
    obtain ⟨out, e, hlen⟩ := readLSBBody_cur hostLE avail block r n hn ha
    refine ⟨out, by rw [hres, e], hlen, ?_⟩
    intro h8
    rw [hres, e]
    show some (r.cur + 8 * ((n : Int) / 8)) = some (r.cur + n)
    congr 1
    omega
  · intro hle ha
    obtain ⟨n, hn⟩ : ∃ n : Nat, r.size - r.cur = n := ⟨(r.size - r.cur).toNat, by omega⟩
    have hn63 : (n : Int) < 2 ^ 63 := by omega
    have hres := readLSB_resolved hostLE data avail block r none n hcur hsize hdata
      (Or.inr ⟨rfl, hn⟩)
    rw [hn] at ha ⊢
    obtain ⟨out, e, hlen⟩ := readLSBBody_cur hostLE avail block r n hn63 ha
    refine ⟨out, by rw [hres, e], hlen, ?_⟩
    intro h8
    rw [hres, e]
    show some (r.cur + 8 * ((n : Int) / 8)) = some r.size
    congr 1
    omega
  · intro n h1 h2 h3 h4 hb
    have hc : BinaryReader_checkReadLength_ptr data r n
        = ({ r with err := some PyExc.ValueError }, 1) := by
      rw [checkReadLength_ptr_eq data r n h3 h4 hsize0 hdata]
      exact (checkReadLength_spec r n).2.1 hb
    rw [readLSB_explicit _ _ _ _ _ _ h1 h2, hc]
    simp
  · intro n h0 hb ha
    lift n to Nat using h0
    have hres := readLSB_resolved hostLE data avail block r (some (n : Int)) n hcur hsize hdata
      (Or.inl ⟨rfl, by omega⟩)
    rw [hres]
    exact readLSBBody_dies hostLE avail block r n (by omega)

set_option maxRecDepth 4000 in
/-- C18 (amended) at a concrete input: on the 10-byte buffer `01 00 00 00 00 00 00 00 01 01`
the call `readLSB(10)` returns the one byte `0x80` and stops at position 8, `readLSB()`
does the same, and `readLSB(11)` is refused with `ValueError` at position 0. -/
theorem C18_lsb_length_and_cursor_witness :
    ((0 : Int) ≤ (BinaryReader_init true (memOf [1, 0, 0, 0, 0, 0, 0, 0, 1, 1]) 10 1).cur
      ∧ (0 : Int) ≤ (BinaryReader_init true (memOf [1, 0, 0, 0, 0, 0, 0, 0, 1, 1]) 10 1).size
      ∧ (BinaryReader_init true (memOf [1, 0, 0, 0, 0, 0, 0, 0, 1, 1]) 10 1).size < 2 ^ 63
      ∧ ((2 ^ 32 : Nat) : Int) + (BinaryReader_init true (memOf [1, 0, 0, 0, 0, 0, 0, 0, 1, 1]) 10 1).size < 2 ^ 64)
      ∧ (BinaryReader__readLSB true (2 ^ 32) (2 ^ 32) (fun _ => 0)
          (BinaryReader_init true (memOf [1, 0, 0, 0, 0, 0, 0, 0, 1, 1]) 10 1) (some 10)).map
          (fun p => (p.1.cur, p.1.err, p.2)) = some (8, none, some (PyObject.bytes [0x80]))
      ∧ (BinaryReader__readLSB true (2 ^ 32) (2 ^ 32) (fun _ => 0)
          (BinaryReader_init true (memOf [1, 0, 0, 0, 0, 0, 0, 0, 1, 1]) 10 1) none).map
          (fun p => (p.1.cur, p.1.err, p.2)) = some (8, none, some (PyObject.bytes [0x80]))
      ∧ (BinaryReader__readLSB true (2 ^ 32) (2 ^ 32) (fun _ => 0)
          (BinaryReader_init true (memOf [1, 0, 0, 0, 0, 0, 0, 0, 1, 1]) 10 1) (some 11)).map
          (fun p => (p.1.cur, p.1.err, p.2)) = some (0, some PyExc.ValueError, none)
      ∧ (BinaryReader__readLSB true (2 ^ 32) (2 ^ 32) (fun _ => 0)
          (BinaryReader_init true (memOf [1, 0, 0, 0, 0, 0, 0, 0, 1, 1]) 10 1) (some 11))
          = some ({ (BinaryReader_init true (memOf [1, 0, 0, 0, 0, 0, 0, 0, 1, 1]) 10 1) with
              err := some PyExc.ValueError }, none)
      ∧ (∃ out, (BinaryReader__readLSB true (2 ^ 32) (2 ^ 32) (fun _ => 0)
          (BinaryReader_init true (memOf [1, 0, 0, 0, 0, 0, 0, 0, 1, 1]) 10 1) (some 10))
          = some ({ (BinaryReader_init true (memOf [1, 0, 0, 0, 0, 0, 0, 0, 1, 1]) 10 1) with
              cur := (BinaryReader_init true (memOf [1, 0, 0, 0, 0, 0, 0, 0, 1, 1]) 10 1).cur
                + 8 * ((10 : Int) / 8) }, some (PyObject.bytes out))
        ∧ (out.length : Int) = (10 : Int) / 8
        ∧ ((10 : Int) % 8 = 0 → (BinaryReader__readLSB true (2 ^ 32) (2 ^ 32) (fun _ => 0)
          (BinaryReader_init true (memOf [1, 0, 0, 0, 0, 0, 0, 0, 1, 1]) 10 1) (some 10)).map
            (fun p => p.1.cur)
              = some ((BinaryReader_init true (memOf [1, 0, 0, 0, 0, 0, 0, 0, 1, 1]) 10 1).cur + 10))) :=
  ⟨⟨by decide, by decide, by decide, by decide⟩, by decide, by decide, by decide,
    (C18_lsb_length_and_cursor true (2 ^ 32) (2 ^ 32) (fun _ => 0)
      (BinaryReader_init true (memOf [1, 0, 0, 0, 0, 0, 0, 0, 1, 1]) 10 1)
      (by decide) (by decide) (by decide) (by decide)).2.2.1 11
        (by decide) (by decide) (by decide) (by decide) (by decide),
    (C18_lsb_length_and_cursor true (2 ^ 32) (2 ^ 32) (fun _ => 0)
      (BinaryReader_init true (memOf [1, 0, 0, 0, 0, 0, 0, 0, 1, 1]) 10 1)
      (by decide) (by decide) (by decide) (by decide)).1 10
        (by decide) (by decide) (by decide)⟩

/-! ### C19 — the endianness mode -/

/-- C19 (what the code does): after construction with the flag `d` the swap-needed flag is
`d != h` and the getter returns `d`, on both hosts; but assigning a bool to `endian` is
refused: the setter parses the assigned value as an argument tuple, sets `SystemError`,
returns 1 and leaves the flag as it was.  On a little-endian host a reader constructed
with `False` still reports `False` after `endian = True`. -/
theorem C19_endian_assignment_refused :
    (∀ (hostLE d : Bool) (mem : Int → Nat) (size : Int),
        (!(BinaryReader_init hostLE mem size (if d then 1 else 0)).is_sys_endianess) = (d != hostLE)
        ∧ BinaryReader_getEndian hostLE (BinaryReader_init hostLE mem size (if d then 1 else 0)) = d)
      ∧ (∀ (hostLE d : Bool) (r : BinaryReaderObject),
          BinaryReader_setEndian hostLE r (PyArg.long (if d then 1 else 0))
            = ({ r with err := some PyExc.SystemError }, 1))
      ∧ BinaryReader_getEndian true (BinaryReader_init true (memOf []) 0 0) = false
      ∧ (BinaryReader_setEndian true (BinaryReader_init true (memOf []) 0 0) (PyArg.long 1)).2 = 1
      ∧ (BinaryReader_setEndian true (BinaryReader_init true (memOf []) 0 0) (PyArg.long 1)).1.err
          = some PyExc.SystemError
      ∧ BinaryReader_getEndian true
          (BinaryReader_setEndian true (BinaryReader_init true (memOf []) 0 0) (PyArg.long 1)).1
        = false := by
  refine ⟨?_, ?_, by decide, by decide, by decide, by decide⟩
  · intro hostLE d mem size
    cases hostLE <;> cases d <;> exact ⟨rfl, rfl⟩
  · intro hostLE d r
    rfl

/-! ### C20 — the position setter -/

/-- C20 as stated fails: assigning `position = 2^64` returns 0 but leaves `OverflowError`
pending and the position reads back as `2^64 - 1`. -/
theorem C20_position_counterexample :
    (0 : Int) ≤ 2 ^ 64
      ∧ (BinaryReader_setPositionAttr (BinaryReader_init true (memOf []) 0 0)
          (some (PyArg.long (2 ^ 64)))).2 = 0
      ∧ (BinaryReader_setPositionAttr (BinaryReader_init true (memOf []) 0 0)
          (some (PyArg.long (2 ^ 64)))).1.err = some PyExc.OverflowError
      ∧ BinaryReader_getPosition (BinaryReader_setPositionAttr (BinaryReader_init true (memOf []) 0 0)
          (some (PyArg.long (2 ^ 64)))).1 = 2 ^ 64 - 1
      ∧ ¬ ((BinaryReader_getPosition (BinaryReader_setPositionAttr
            (BinaryReader_init true (memOf []) 0 0) (some (PyArg.long (2 ^ 64)))).1 : Int)
          = 2 ^ 64) := by
  decide

/-- C20 (amended): for every `p` with `0 <= p < 2^64`, also beyond `size`, assigning
`position = p` returns 0 without any validation, changes nothing but the cursor (size,
memory, endianness flag and error indicator stay as they were), and the position getter
then returns `p`. -/
theorem C20_position_assignment (r : BinaryReaderObject) (p : Int) (h0 : 0 ≤ p) (h1 : p < 2 ^ 64) :
    BinaryReader_setPositionAttr r (some (PyArg.long p)) = ({ r with cur := p }, 0)
      ∧ (BinaryReader_setPositionAttr r (some (PyArg.long p))).1.size = r.size
      ∧ (BinaryReader_setPositionAttr r (some (PyArg.long p))).1.mem = r.mem
      ∧ (BinaryReader_setPositionAttr r (some (PyArg.long p))).1.is_sys_endianess
          = r.is_sys_endianess
      ∧ (BinaryReader_setPositionAttr r (some (PyArg.long p))).1.err = r.err
      ∧ (BinaryReader_getPosition (BinaryReader_setPositionAttr r (some (PyArg.long p))).1 : Int)
          = p := by
  have hq : PyLong_AsUnsignedLongLong r.err p = (r.err, p.toNat) := by
    unfold PyLong_AsUnsignedLongLong
    rw [if_pos ⟨h0, h1⟩]
  have hp : ((p.toNat : Nat) : Int) = p := Int.toNat_of_nonneg h0
  have hset : BinaryReader_setPositionAttr r (some (PyArg.long p)) = ({ r with cur := p }, 0) := by
    simp only [BinaryReader_setPositionAttr, hq, BinaryReader_setPosition, hp]
  rw [hset]
  refine ⟨rfl, rfl, rfl, rfl, rfl, ?_⟩
  simp only [BinaryReader_getPosition, toUnsigned]
  norm_num at h1 ⊢
  omega

/-- C20 (amended) at a concrete input: on a 3-byte buffer `position = 100` is accepted and
reads back as 100. -/
theorem C20_position_assignment_witness :
    ((0 : Int) ≤ 100 ∧ (100 : Int) < 2 ^ 64)
      ∧ (BinaryReader_init true (memOf [1, 2, 3]) 3 0).size < 100
      ∧ (BinaryReader_getPosition (BinaryReader_setPositionAttr
          (BinaryReader_init true (memOf [1, 2, 3]) 3 0) (some (PyArg.long 100))).1 : Int) = 100
      ∧ (BinaryReader_setPositionAttr
          (BinaryReader_init true (memOf [1, 2, 3]) 3 0) (some (PyArg.long 100))).2 = 0 :=
  ⟨⟨by decide, by decide⟩, by decide,
    (C20_position_assignment (BinaryReader_init true (memOf [1, 2, 3]) 3 0) 100 (by decide) (by decide)).2.2.2.2.2,
    by decide⟩

/-! ### C21 — the bounds check -/

set_option maxRecDepth 4000 in
/-- C22 as stated fails when `n * w` does not fit 31 bits.  On a buffer of `2^33` bytes the
count `2^32` satisfies `cursor + n * w <= size` for `readUInt16Array`, but the count is
truncated to the `int32` 0: the array read returns `[]` and stays at position 0, while
`2^32` successive `readUInt16` calls return `2^32` values and end at position `2^33`. -/
theorem C22_array_read_counterexample :
    (BinaryReader_init true (memOf []) (2 ^ 33) 1).cur
          + ((2 ^ 32 : Nat) : Int) * (NumType.uint16.TYPE_SIZE_BYTE : Int)
        ≤ (BinaryReader_init true (memOf []) (2 ^ 33) 1).size
      ∧ (BinaryReader__readArray true NumType.uint16 (BinaryReader_init true (memOf []) (2 ^ 33) 1)
          (some ((2 ^ 32 : Nat) : Int))).2 = some (PyObject.list [])
      ∧ (BinaryReader__readArray true NumType.uint16 (BinaryReader_init true (memOf []) (2 ^ 33) 1)
          (some ((2 ^ 32 : Nat) : Int))).1.cur = 0
      ∧ (successiveReads (BinaryReader__read true NumType.uint16) (2 ^ 32)
          (BinaryReader_init true (memOf []) (2 ^ 33) 1)).1.cur = 2 ^ 33
      ∧ (successiveReads (BinaryReader__read true NumType.uint16) (2 ^ 32)
          (BinaryReader_init true (memOf []) (2 ^ 33) 1)).2.length = 2 ^ 32
      ∧ ¬ ((BinaryReader__readArray true NumType.uint16
            (BinaryReader_init true (memOf []) (2 ^ 33) 1) (some ((2 ^ 32 : Nat) : Int))).1.cur
          = (successiveReads (BinaryReader__read true NumType.uint16) (2 ^ 32)
            (BinaryReader_init true (memOf []) (2 ^ 33) 1)).1.cur) := by
  obtain ⟨h1, h2⟩ := successiveReads_cur true NumType.uint16 (2 ^ 32)
    (BinaryReader_init true (memOf []) (2 ^ 33) 1)
  have ha : (BinaryReader__readArray true NumType.uint16
      (BinaryReader_init true (memOf []) (2 ^ 33) 1) (some ((2 ^ 32 : Nat) : Int))).1.cur = 0 := by
    decide
  have hs : (successiveReads (BinaryReader__read true NumType.uint16) (2 ^ 32)
      (BinaryReader_init true (memOf []) (2 ^ 33) 1)).1.cur = 2 ^ 33 := by
    rw [h1]
    decide
  refine ⟨by decide, by decide, ha, hs, h2, ?_⟩
  rw [ha, hs]
  decide

/-- C22 (amended: `n * w < 2^31`): for every numeric type generated by `MAKE_READER_FUNCS`
(the six integer types, and `float` and `double`), on either host and in either swap mode,
an array read with the explicit count `n >= 0`, `n * w < 2^31` and `cur + n * w <= size`
leaves exactly the state that `n` successive scalar reads of that type leave (cursor
`cur + n * w`), and returns the list of the `n` values those reads return, in order. -/
theorem C22_array_read_eq_successive_reads (hostLE : Bool) (t : NumType) (r : BinaryReaderObject)
    (n : Nat) (hfit : (n : Int) * t.TYPE_SIZE_BYTE < 2 ^ 31)
    (hb : r.cur + (n : Int) * t.TYPE_SIZE_BYTE ≤ r.size) :
    (BinaryReader__readArray hostLE t r (some (n : Int))).1
        = (successiveReads (BinaryReader__read hostLE t) n r).1
      ∧ (BinaryReader__readArray hostLE t r (some (n : Int))).1.cur
          = r.cur + (n : Int) * t.TYPE_SIZE_BYTE
      ∧ ∃ vals : List PyVal,
          (BinaryReader__readArray hostLE t r (some (n : Int))).2 = some (PyObject.list vals)
          ∧ vals.length = n
          ∧ (successiveReads (BinaryReader__read hostLE t) n r).2
              = vals.map (fun v => some (PyObject.scalar v)) := by
  rw [readArray_explicit hostLE t r n hfit hb, successiveReads_in_bounds hostLE t n r hb]
  refine ⟨rfl, rfl, _, rfl, by simp, ?_⟩
  rw [List.map_map]
  rfl

set_option maxRecDepth 4000 in
/-- C22 (amended) at a concrete input: on a little-endian host the buffer `01 00 02 00`
declared big-endian (swap needed) gives `[256, 512]` from `readUInt16Array(2)` and the same
two values from two `readUInt16` calls, both ending at position 4 in the same state. -/
theorem C22_array_read_eq_successive_reads_witness :
    ((2 : Nat) : Int) * (NumType.uint16.TYPE_SIZE_BYTE : Int) < 2 ^ 31
      ∧ (BinaryReader_init true (memOf [1, 0, 2, 0]) 4 0).cur
          + ((2 : Nat) : Int) * (NumType.uint16.TYPE_SIZE_BYTE : Int)
        ≤ (BinaryReader_init true (memOf [1, 0, 2, 0]) 4 0).size
      ∧ (BinaryReader__readArray true NumType.uint16
          (BinaryReader_init true (memOf [1, 0, 2, 0]) 4 0) (some ((2 : Nat) : Int))).2
        = some (PyObject.list [PyVal.long 256, PyVal.long 512])
      ∧ (successiveReads (BinaryReader__read true NumType.uint16) 2
          (BinaryReader_init true (memOf [1, 0, 2, 0]) 4 0)).2
        = [some (PyObject.scalar (PyVal.long 256)), some (PyObject.scalar (PyVal.long 512))]
      ∧ (BinaryReader__readArray true NumType.uint16
          (BinaryReader_init true (memOf [1, 0, 2, 0]) 4 0) (some ((2 : Nat) : Int))).1.cur = 4
      ∧ (BinaryReader__readArray true NumType.uint16
            (BinaryReader_init true (memOf [1, 0, 2, 0]) 4 0) (some ((2 : Nat) : Int))).1
          = (successiveReads (BinaryReader__read true NumType.uint16) 2
            (BinaryReader_init true (memOf [1, 0, 2, 0]) 4 0)).1 :=
  ⟨by decide, by decide, by decide, by decide, by decide,
    (C22_array_read_eq_successive_reads true NumType.uint16
      (BinaryReader_init true (memOf [1, 0, 2, 0]) 4 0) 2 (by decide) (by decide)).1⟩

/-! ### C23 — where readVarInt stops -/

/-- C23: if the `n` bytes from the cursor on have the high bit set, the byte after them
(at index `k = cur + n < size`) has it clear, then `readVarInt` terminates (any fuel above
`n` suffices) and returns an int, having changed nothing but the cursor, which ends at
`k + 1`; this holds whatever the continuation bytes are and however many there are. -/
theorem C23_readVarInt_stops_at_first_clear_high_bit (r : BinaryReaderObject) (n : Nat)
    (hcont : ∀ i : Nat, i < n → 128 ≤ byteAt r.mem (r.cur + i))
    (hlast : byteAt r.mem (r.cur + n) < 128)
    (hin : r.cur + n < r.size)
    (fuel : Nat) (hfuel : n < fuel) :
    ∃ v, BinaryReader__readVarInt fuel r
      = some ({ r with cur := r.cur + n + 1 }, some (PyObject.scalar (PyVal.long v))) := by
  obtain ⟨v, hv⟩ := readVarIntLoop_consumes n r 0 0 hcont hlast hin fuel hfuel
  exact ⟨v, by simp [BinaryReader__readVarInt, hv]⟩

set_option maxRecDepth 8000 in
/-- C23 at a concrete input: eleven continuation bytes followed by `01` and one more byte;
`readVarInt` stops after the twelfth byte, at position 12, with no error. -/
theorem C23_readVarInt_witness :
    (∀ i : Nat, i < 11 → 128 ≤ byteAt
        (BinaryReader_init true
          (memOf [0xFF, 0x80, 0x80, 0x80, 0x80, 0x80, 0x80, 0x80, 0x80, 0x80, 0x80, 0x01, 0x05])
          13 1).mem
        ((BinaryReader_init true
          (memOf [0xFF, 0x80, 0x80, 0x80, 0x80, 0x80, 0x80, 0x80, 0x80, 0x80, 0x80, 0x01, 0x05])
          13 1).cur + i))
      ∧ (BinaryReader__readVarInt 12
          (BinaryReader_init true
            (memOf [0xFF, 0x80, 0x80, 0x80, 0x80, 0x80, 0x80, 0x80, 0x80, 0x80, 0x80, 0x01, 0x05])
            13 1)).map (fun p => (p.1.cur, p.1.err)) = some (12, none)
      ∧ ∃ v, BinaryReader__readVarInt 12
          (BinaryReader_init true
            (memOf [0xFF, 0x80, 0x80, 0x80, 0x80, 0x80, 0x80, 0x80, 0x80, 0x80, 0x80, 0x01, 0x05])
            13 1)
        = some ({ BinaryReader_init true
            (memOf [0xFF, 0x80, 0x80, 0x80, 0x80, 0x80, 0x80, 0x80, 0x80, 0x80, 0x80, 0x01, 0x05])
            13 1 with
            cur := (BinaryReader_init true
              (memOf [0xFF, 0x80, 0x80, 0x80, 0x80, 0x80, 0x80, 0x80, 0x80, 0x80, 0x80, 0x01, 0x05])
              13 1).cur + (11 : Nat) + 1 },
          some (PyObject.scalar (PyVal.long v))) :=
  ⟨by intro i hi; interval_cases i <;> decide, by decide,
    C23_readVarInt_stops_at_first_clear_high_bit
      (BinaryReader_init true
        (memOf [0xFF, 0x80, 0x80, 0x80, 0x80, 0x80, 0x80, 0x80, 0x80, 0x80, 0x80, 0x01, 0x05])
        13 1) 11 (by intro i hi; interval_cases i <;> decide) (by decide) (by decide) 12
      (by decide)⟩

/-! ### C24 — the cursor range under reads -/

set_option maxRecDepth 4000 in
/-- C24 (what the code does): reads do take the cursor out of `[0, size]`.  Every scalar
read advances the cursor by its width whatever the bounds check said, so `readUInt8` on an
empty buffer ends at position 1 with `ValueError` set and an object returned;
`readUInt32Array(-1)` at position 0 ends at -4; `readStringC` on `ab` ends at 3 of 2;
`readStringAligned(1)` on the one-byte buffer `a` succeeds and ends at 4 of 1; `readVarInt`
on the one-byte buffer `80` ends at 2 of 1.  Each run starts at position 0. -/
theorem C24_cursor_leaves_range :
    (∀ (hostLE : Bool) (m : ScalarMethod) (r : BinaryReaderObject),
        (m.call hostLE r).1.cur = r.cur + m.width ∧ (m.call hostLE r).1.size = r.size)
      ∧ ((BinaryReader_init true (memOf []) 0 1).cur = 0
        ∧ (BinaryReader_init true (memOf []) 0 1).size = 0
        ∧ (ScalarMethod.readUInt8.call true (BinaryReader_init true (memOf []) 0 1)).1.cur = 1
        ∧ (ScalarMethod.readUInt8.call true (BinaryReader_init true (memOf []) 0 1)).1.size = 0
        ∧ (ScalarMethod.readUInt8.call true (BinaryReader_init true (memOf []) 0 1)).1.err
            = some PyExc.ValueError
        ∧ (ScalarMethod.readUInt8.call true (BinaryReader_init true (memOf []) 0 1)).2
            = some (PyObject.scalar (PyVal.long 0)))
      ∧ ((ArrayMethod.readUInt32Array.call true (BinaryReader_init true (memOf []) 0 1)
            (some (-1))).1.cur = -4
        ∧ (ArrayMethod.readUInt32Array.call true (BinaryReader_init true (memOf []) 0 1)
            (some (-1))).2 = none)
      ∧ ((BinaryReader__readStringNullTerminated 3
            (BinaryReader_init true (memOf [0x61, 0x62]) 2 1)).map (fun p => (p.1.cur, p.1.size))
          = some (3, 2))
      ∧ ((BinaryReader__readAlignedString true (BinaryReader_init true (memOf [0x61]) 1 1)
            (some 1)).1.cur = 4
        ∧ (BinaryReader__readAlignedString true (BinaryReader_init true (memOf [0x61]) 1 1)
            (some 1)).1.size = 1
        ∧ (BinaryReader__readAlignedString true (BinaryReader_init true (memOf [0x61]) 1 1)
            (some 1)).1.err = none
        ∧ (BinaryReader__readAlignedString true (BinaryReader_init true (memOf [0x61]) 1 1)
            (some 1)).2 = some (PyObject.scalar (PyVal.str [0x61])))
      ∧ ((BinaryReader__readVarInt 2 (BinaryReader_init true (memOf [0x80]) 1 1)).map
            (fun p => (p.1.cur, p.1.size, p.1.err, p.2))
          = some (2, 1, some PyExc.ValueError, some (PyObject.scalar (PyVal.long 0)))) := by
  refine ⟨scalar_read_advances, by decide, by decide, by decide, by decide, by decide⟩

end BinaryReader
